import Mathlib

/-!
# Conversion areas (IME composition overlays) of the console host

A shallow embedding of `src/host/convarea.cpp`.

Conventions of the embedding.

* `SHORT`, `int`, `ULONG`, `DWORD` quantities are mathematical integers or
  naturals.  Wrap-around is modelled where the code narrows or accumulates a
  value that the input can drive out of range: the start row of
  `WriteUndetermineChars` (lines 299 to 312, `toInt` and `toSHORT`) and the
  column count of `CalcWideCharToColumn`; coordinates of the screen buffers and
  of the conversion areas are taken to stay in the range of `SHORT`.
* The process-wide `g_ciConsoleInformation` (together with `g_pRender`) is the
  explicit state `CONSOLE_INFORMATION`, passed to and returned by every routine.
* `PCONVERSIONAREA_INFORMATION` pointers are handles (natural numbers) into the
  store `ConvAreas`; the `ConvAreaRoot`/`ConvAreaNext` linked list is the list
  of handles in link order.
* Calls that leave the file (`g_pRender->TriggerRedraw`, `WriteToScreen`,
  `WriteInputBuffer`) are recorded, in call order, in the state.
* Routines of other files whose result is needed are fields of `Env`.
-/

namespace ConvArea

/-! ## Data model -/

abbrev WCHAR := Nat
abbrev BYTE := Nat
abbrev WORD := Nat
abbrev NTSTATUS := Int

def STATUS_SUCCESS : NTSTATUS := 0
def STATUS_UNSUCCESSFUL : NTSTATUS := -1073741823
def STATUS_INVALID_HANDLE : NTSTATUS := -1073741816
def STATUS_NO_MEMORY : NTSTATUS := -1073741801

def NT_SUCCESS (Status : NTSTATUS) : Bool := decide (0 ≤ Status)

/-- Modelled from the spec: the `Hidden` mode flag `CA_HIDDEN`, declared in a
header that is not part of the source tree; it is a single bit. -/
def CA_HIDDEN : Nat := 0x01

/-- Grid attribute used for the IME cursor (line 21 of the source). -/
def COMMON_LVB_GRID_SINGLEFLAG : Nat := 0x2000
/-- Modelled from the spec: left-vertical grid line flag (platform header). -/
def COMMON_LVB_GRID_LVERTICAL : Nat := 0x0800
/-- Modelled from the spec: right-vertical grid line flag (platform header). -/
def COMMON_LVB_GRID_RVERTICAL : Nat := 0x1000
/-- Modelled from the spec: decoration byte of the leading cell of a
double-width glyph (`CHAR_ROW::ATTR_LEADING_BYTE`). -/
def ATTR_LEADING_BYTE : BYTE := 0x01
/-- Modelled from the spec: decoration byte of the trailing cell of a
double-width glyph (`CHAR_ROW::ATTR_TRAILING_BYTE`). -/
def ATTR_TRAILING_BYTE : BYTE := 0x02

def UNICODE_SPACE : WCHAR := 0x20
def LOCAL_BUFFER_SIZE : Nat := 100

/-- The value of an integer converted to `SHORT` (16 bits, two's complement). -/
def toSHORT (v : Int) : Int := (v + 32768) % 65536 - 32768

/-- The value of an integer converted to `int` (32 bits, two's complement);
`int` arithmetic that leaves the range wraps in the same way. -/
def toInt (v : Int) : Int := (v + 2147483648) % 4294967296 - 2147483648

/-- Clearing the bits of `flag` in a 32-bit mode word: `mode & ~flag`. -/
def clearFlag (mode flag : Nat) : Nat := mode &&& (0xFFFFFFFF ^^^ flag)

structure COORD where
  X : Int
  Y : Int
deriving DecidableEq, Repr

structure SMALL_RECT where
  Left : Int
  Top : Int
  Right : Int
  Bottom : Int
deriving DecidableEq, Repr

structure TextAttributeRun where
  Length : Nat
  Attributes : WORD
deriving DecidableEq, Repr

structure CHAR_ROW where
  Chars : List WCHAR
  KAttrs : List BYTE
  Left : Int
  Right : Int
deriving DecidableEq, Repr

structure ROW where
  CharRow : CHAR_ROW
  AttrRow : List TextAttributeRun
deriving DecidableEq, Repr

/-- The part of a screen buffer (`SCREEN_INFORMATION` with its `TextInfo` and
cursor) that this file reads or writes.  The primary surface and the buffer of
every conversion area have this shape; `Row` is the row at offset 0. -/
structure SCREEN_INFORMATION where
  BufferViewport : SMALL_RECT
  ScreenBufferSize : COORD
  ScreenWindowSizeX : Int
  ScreenWindowSizeY : Int
  Attributes : WORD
  PopupAttributes : WORD
  CursorPosition : COORD
  CursorSize : Nat
  CursorVisible : Bool
  CursorOn : Bool
  CursorIsConversionArea : Bool
  IsActiveScreenBuffer : Bool
  Row : ROW
deriving DecidableEq, Repr

structure CONVAREA_BUFFER_INFO where
  coordCaBuffer : COORD
  rcViewCaWindow : SMALL_RECT
  coordConView : COORD
deriving DecidableEq, Repr

structure CONVERSIONAREA_INFORMATION where
  ConversionAreaMode : Nat
  CaInfo : CONVAREA_BUFFER_INFO
  ScreenBuffer : SCREEN_INFORMATION
deriving DecidableEq, Repr

/-- The composition-update payload: the header fields that are read, and the
three arrays found at the offsets the header names. -/
structure CONIME_UICOMPMESSAGE where
  dwSize : Nat
  dwCompStrLen : Nat
  dwResultStrLen : Nat
  CompAttrColor : Nat → WORD
  CompStr : List WCHAR
  CompAttr : List BYTE
  ResultStr : List WCHAR

structure KEY_EVENT_RECORD where
  bKeyDown : Bool
  wRepeatCount : Nat
  wVirtualKeyCode : Nat
  wVirtualScanCode : Nat
  UnicodeChar : WCHAR
  dwControlKeyState : Nat
deriving DecidableEq, Repr

/-- A redraw request that leaves the file: `g_pRender->TriggerRedraw(&sr)` with
an exclusive rectangle, or `WriteToScreen(CurrentScreenBuffer, &sr)` with an
inclusive one. -/
inductive RedrawRequest where
  | TriggerRedraw (sr : SMALL_RECT)
  | WriteToScreen (sr : SMALL_RECT)
deriving DecidableEq, Repr

/-- The registry: `ConvAreaRoot` is the chain of all conversion areas in link
order, `ConvAreaCompStr` the vector of the composition rows. -/
structure CONSOLE_IME_INFORMATION where
  ConvAreaRoot : List Nat
  ConvAreaCompStr : List Nat
  CompStrData : Option CONIME_UICOMPMESSAGE
  SavedCursorVisible : Bool

/-- The global state.  `ConvAreas` is the store of the conversion areas by
handle and `nextArea` the next unused handle; `nAlloc` counts the allocation
attempts made; `pRender` tells whether `g_pRender` is not null; `Redraws` and
`InputBuffer` record, in call order, the redraw requests and the batches given
to `WriteInputBuffer`; `InComposition` is `pInputBuffer->ImeMode.InComposition`. -/
structure CONSOLE_INFORMATION where
  CurrentScreenBuffer : Option SCREEN_INFORMATION
  ConsoleIme : CONSOLE_IME_INFORMATION
  ConvAreas : Nat → CONVERSIONAREA_INFORMATION
  nextArea : Nat
  nAlloc : Nat
  pRender : Bool
  Redraws : List RedrawRequest
  InputBuffer : List (List KEY_EVENT_RECORD)
  InComposition : Bool

/-- Routines and outcomes that come from outside the file.

* `IsCharFullWidth c`: whether `c` is a double-width character.
* `WideCharToMultiByte lpString cch`: the byte count returned for `cch` wide
  characters starting at `lpString`.
* `GetControlKeyState`: the modifier state returned by `GetControlKeyState(0)`.
* `IsFlagSet`, `BisectWrite`, `InsertAttrRuns`, `FillOutput`, `TimerRoutine`:
  the macro and the routines of these names, acting on the parts of the state
  they are given.
* `newFails k`: whether the allocation attempt number `k` yields a null pointer.
* `CreateInstance k`: the status of `SCREEN_INFORMATION::CreateInstance` in
  the allocation attempt number `k`.
* `push_back k`: `STATUS_SUCCESS`, or the status of the `catch` clause taken
  when appending to `ConvAreaCompStr` throws.
* `outside k`: what a read of `Chars[k]` outside the row array finds.
* `ResizeScreenBuffer sb size`: the status of `sb->ResizeScreenBuffer(size, FALSE)`
  and the buffer it leaves.
* `sizeof_CONIME_UICOMPMESSAGE`: the byte size of the payload header.
* `CI_CONIMECOMPOSITION`, `CI_ONSTARTCOMPOSITION`, `CI_ONENDCOMPOSITION`: the
  message codes of these names. -/
structure Env where
  IsCharFullWidth : WCHAR → Bool
  WideCharToMultiByte : List WCHAR → Nat → Nat
  GetControlKeyState : Nat
  IsFlagSet : Nat → Nat → Bool
  BisectWrite : Nat → COORD → COORD → ROW → ROW
  InsertAttrRuns : List TextAttributeRun → TextAttributeRun → Int → Int → Int → List TextAttributeRun
  FillOutput : SCREEN_INFORMATION → Nat → COORD → Nat → Nat → SCREEN_INFORMATION
  TimerRoutine : SCREEN_INFORMATION → SCREEN_INFORMATION
  newFails : Nat → Bool
  CreateInstance : Nat → NTSTATUS
  push_back : Nat → NTSTATUS
  outside : Int → WCHAR
  ResizeScreenBuffer : SCREEN_INFORMATION → COORD → NTSTATUS × SCREEN_INFORMATION
  sizeof_CONIME_UICOMPMESSAGE : Nat
  CI_CONIMECOMPOSITION : Int
  CI_ONSTARTCOMPOSITION : Int
  CI_ONENDCOMPOSITION : Int

/-! ## Redraw coordinator -/

def IsValidSmallRect (Rect : SMALL_RECT) : Bool :=
  decide (Rect.Right ≥ Rect.Left) && decide (Rect.Bottom ≥ Rect.Top)

/-- One pass of the loop body of `WriteConvRegionToScreen` for the conversion
area `ca`: the rectangle handed to `g_pRender->TriggerRedraw`, if any. -/
def WriteConvRegionToScreen_area (pScreenInfo : SCREEN_INFORMATION) (pRender : Bool)
    (ca : CONVERSIONAREA_INFORMATION) (psrConvRegion : SMALL_RECT) : Option SMALL_RECT :=
  if ca.ConversionAreaMode &&& CA_HIDDEN = 0 then
    let RegionLeft := pScreenInfo.BufferViewport.Left + ca.CaInfo.rcViewCaWindow.Left + ca.CaInfo.coordConView.X
    let RegionRight := RegionLeft + (ca.CaInfo.rcViewCaWindow.Right - ca.CaInfo.rcViewCaWindow.Left)
    let RegionTop := pScreenInfo.BufferViewport.Top + ca.CaInfo.rcViewCaWindow.Top + ca.CaInfo.coordConView.Y
    let RegionBottom := RegionTop + (ca.CaInfo.rcViewCaWindow.Bottom - ca.CaInfo.rcViewCaWindow.Top)
    let ClippedRegion : SMALL_RECT :=
      { Left := max RegionLeft pScreenInfo.BufferViewport.Left
        Top := max RegionTop pScreenInfo.BufferViewport.Top
        Right := min RegionRight pScreenInfo.BufferViewport.Right
        Bottom := min RegionBottom pScreenInfo.BufferViewport.Bottom }
    if IsValidSmallRect ClippedRegion then
      let Region := ClippedRegion
      let ClippedRegion2 : SMALL_RECT :=
        { Left := max Region.Left psrConvRegion.Left
          Top := max Region.Top psrConvRegion.Top
          Right := min Region.Right psrConvRegion.Right
          Bottom := min Region.Bottom psrConvRegion.Bottom }
      if IsValidSmallRect ClippedRegion2 then
        if pRender then
          some { ClippedRegion2 with Right := ClippedRegion2.Right + 1, Bottom := ClippedRegion2.Bottom + 1 }
        else none
      else none
    else none
  else none

/-- The `while (pConvAreaInfo)` walk along `ConvAreaNext`; the argument is the
list of conversion areas met from `pConvAreaInfo` on. -/
def WriteConvRegionToScreen_walk (pScreenInfo : SCREEN_INFORMATION) (pRender : Bool)
    (psrConvRegion : SMALL_RECT) : List CONVERSIONAREA_INFORMATION → List SMALL_RECT
  | [] => []
  | ca :: rest =>
    match WriteConvRegionToScreen_area pScreenInfo pRender ca psrConvRegion with
    | some sr => sr :: WriteConvRegionToScreen_walk pScreenInfo pRender psrConvRegion rest
    | none => WriteConvRegionToScreen_walk pScreenInfo pRender psrConvRegion rest

/-- The rectangles passed to `g_pRender->TriggerRedraw`, in call order. -/
def WriteConvRegionToScreen (pScreenInfo : SCREEN_INFORMATION) (pRender : Bool)
    (pConvAreaInfo : List CONVERSIONAREA_INFORMATION) (psrConvRegion : SMALL_RECT) : List SMALL_RECT :=
  if !pScreenInfo.IsActiveScreenBuffer then []
  else WriteConvRegionToScreen_walk pScreenInfo pRender psrConvRegion pConvAreaInfo

/-- The handles reached from `h` by following `ConvAreaNext`: `h` and what is
linked behind it (only `h` when it is not linked into the chain). -/
def chainFrom (chain : List Nat) (h : Nat) : List Nat :=
  match chain.dropWhile (fun k => k != h) with
  | [] => [h]
  | l => l

def setArea (g : CONSOLE_INFORMATION) (h : Nat) (ca : CONVERSIONAREA_INFORMATION) : CONSOLE_INFORMATION :=
  { g with ConvAreas := fun k => if k = h then ca else g.ConvAreas k }

/-- The rectangle `WriteRegion` of `ConsoleImePaint` (lines 664 to 668). -/
def ConsoleImePaint_WriteRegion (ScreenInfo : SCREEN_INFORMATION) (ca : CONVERSIONAREA_INFORMATION) :
    SMALL_RECT :=
  let WriteRegionLeft := ScreenInfo.BufferViewport.Left + ca.CaInfo.coordConView.X + ca.CaInfo.rcViewCaWindow.Left
  let WriteRegionTop := ScreenInfo.BufferViewport.Top + ca.CaInfo.coordConView.Y + ca.CaInfo.rcViewCaWindow.Top
  { Left := WriteRegionLeft
    Right := WriteRegionLeft + (ca.CaInfo.rcViewCaWindow.Right - ca.CaInfo.rcViewCaWindow.Left)
    Top := WriteRegionTop
    Bottom := WriteRegionTop + (ca.CaInfo.rcViewCaWindow.Bottom - ca.CaInfo.rcViewCaWindow.Top) }

def ConsoleImePaint (g : CONSOLE_INFORMATION) (pConvAreaInfo : Option Nat) : CONSOLE_INFORMATION :=
  match pConvAreaInfo with
  | none => g
  | some h =>
    match g.CurrentScreenBuffer with
    | none => g
    | some ScreenInfo =>
      let WriteRegion := ConsoleImePaint_WriteRegion ScreenInfo (g.ConvAreas h)
      if (g.ConvAreas h).ConversionAreaMode &&& CA_HIDDEN = 0 then
        { g with Redraws := g.Redraws ++
            (WriteConvRegionToScreen ScreenInfo g.pRender
              ((chainFrom g.ConsoleIme.ConvAreaRoot h).map g.ConvAreas) WriteRegion).map RedrawRequest.TriggerRedraw }
      else
        { g with Redraws := g.Redraws ++ [RedrawRequest.WriteToScreen WriteRegion] }

def ConsoleImeViewInfo (g : CONSOLE_INFORMATION) (h : Nat) (coordConView : COORD) : CONSOLE_INFORMATION :=
  let ca := g.ConvAreas h
  if ca.ConversionAreaMode &&& CA_HIDDEN ≠ 0 then
    setArea g h { ca with CaInfo := { ca.CaInfo with coordConView := coordConView } }
  else
    let OldRegion : SMALL_RECT :=
      { Left := ca.CaInfo.rcViewCaWindow.Left + ca.CaInfo.coordConView.X
        Right := ca.CaInfo.rcViewCaWindow.Right + ca.CaInfo.coordConView.X
        Top := ca.CaInfo.rcViewCaWindow.Top + ca.CaInfo.coordConView.Y
        Bottom := ca.CaInfo.rcViewCaWindow.Bottom + ca.CaInfo.coordConView.Y }
    let g1 := setArea g h { ca with CaInfo := { ca.CaInfo with coordConView := coordConView } }
    let g2 := { g1 with Redraws := g1.Redraws ++ [RedrawRequest.WriteToScreen OldRegion] }
    let NewRegion : SMALL_RECT :=
      { Left := ca.CaInfo.rcViewCaWindow.Left + coordConView.X
        Right := ca.CaInfo.rcViewCaWindow.Right + coordConView.X
        Top := ca.CaInfo.rcViewCaWindow.Top + coordConView.Y
        Bottom := ca.CaInfo.rcViewCaWindow.Bottom + coordConView.Y }
    { g2 with Redraws := g2.Redraws ++ [RedrawRequest.WriteToScreen NewRegion] }

def ConsoleImeWindowInfo (g : CONSOLE_INFORMATION) (h : Nat) (rcViewCaWindow : SMALL_RECT) : CONSOLE_INFORMATION :=
  let ca := g.ConvAreas h
  if rcViewCaWindow.Left ≠ ca.CaInfo.rcViewCaWindow.Left ∨
     rcViewCaWindow.Top ≠ ca.CaInfo.rcViewCaWindow.Top ∨
     rcViewCaWindow.Right ≠ ca.CaInfo.rcViewCaWindow.Right ∨
     rcViewCaWindow.Bottom ≠ ca.CaInfo.rcViewCaWindow.Bottom then
    if ca.ConversionAreaMode &&& CA_HIDDEN = 0 then
      let ca1 := { ca with ConversionAreaMode := ca.ConversionAreaMode ||| CA_HIDDEN }
      let g1 := ConsoleImePaint (setArea g h ca1) (some h)
      let ca2 := { ca1 with CaInfo := { ca1.CaInfo with rcViewCaWindow := rcViewCaWindow } }
      let ca3 := { ca2 with ConversionAreaMode := clearFlag ca2.ConversionAreaMode CA_HIDDEN }
      ConsoleImePaint (setArea g1 h ca3) (some h)
    else
      setArea g h { ca with CaInfo := { ca.CaInfo with rcViewCaWindow := rcViewCaWindow } }
  else g

/-! ## Overlay factory -/

def LinkConversionArea (g : CONSOLE_INFORMATION) (h : Nat) : CONSOLE_INFORMATION :=
  match g.ConsoleIme.ConvAreaRoot with
  | [] => { g with ConsoleIme := { g.ConsoleIme with ConvAreaRoot := [h] } }
  | root => { g with ConsoleIme := { g.ConsoleIme with ConvAreaRoot := root ++ [h] } }

/-- Modelled from the spec: `SCREEN_INFORMATION::CreateInstance`, which is not
part of the source tree, on its success path: a buffer of `dwScreenBufferSize`
cells with the given window dimensions and fill attributes, filled with blanks,
its cursor at the origin with the given cursor size. -/
def CreateInstance_buffer (dwWindowSize : COORD) (dwScreenBufferSize : COORD)
    (Fill PopupFill : WORD) (CursorSize : Nat) : SCREEN_INFORMATION :=
  { BufferViewport := { Left := 0, Top := 0, Right := dwWindowSize.X - 1, Bottom := dwWindowSize.Y - 1 }
    ScreenBufferSize := dwScreenBufferSize
    ScreenWindowSizeX := dwWindowSize.X
    ScreenWindowSizeY := dwWindowSize.Y
    Attributes := Fill
    PopupAttributes := PopupFill
    CursorPosition := { X := 0, Y := 0 }
    CursorSize := CursorSize
    CursorVisible := true
    CursorOn := false
    CursorIsConversionArea := false
    IsActiveScreenBuffer := false
    Row :=
      { CharRow :=
          { Chars := List.replicate dwScreenBufferSize.X.toNat UNICODE_SPACE
            KAttrs := List.replicate dwScreenBufferSize.X.toNat 0
            Left := dwScreenBufferSize.X
            Right := 0 }
        AttrRow := [{ Length := dwScreenBufferSize.X.toNat, Attributes := Fill }] } }

/-- The result is the new state and either the failing status or the handle
of the new conversion area.  `nAlloc` counts the allocation attempts: the
outcome of the attempt number `k` is given by `env.newFails k` and
`env.CreateInstance k`. -/
def AllocateConversionArea (env : Env) (g : CONSOLE_INFORMATION) (dwScreenBufferSize : COORD) :
    CONSOLE_INFORMATION × Except NTSTATUS Nat :=
  match g.CurrentScreenBuffer with
  | none => (g, Except.error STATUS_UNSUCCESSFUL)
  | some cur =>
    let k := g.nAlloc
    let g0 := { g with nAlloc := k + 1 }
    if env.newFails k then (g0, Except.error STATUS_NO_MEMORY)
    else
      let dwWindowSize : COORD := { X := cur.ScreenWindowSizeX, Y := cur.ScreenWindowSizeY }
      let Status := env.CreateInstance k
      if !NT_SUCCESS Status then (g0, Except.error Status)
      else
        let sb := CreateInstance_buffer dwWindowSize dwScreenBufferSize cur.Attributes cur.PopupAttributes 0
        let ca : CONVERSIONAREA_INFORMATION :=
          { ConversionAreaMode := 0
            CaInfo :=
              { coordCaBuffer := { X := 0, Y := 0 }
                rcViewCaWindow := { Left := 0, Top := 0, Right := 0, Bottom := 0 }
                coordConView := { X := 0, Y := 0 } }
            ScreenBuffer := { sb with CursorIsConversionArea := true } }
        let h := g0.nextArea
        (setArea { g0 with nextArea := h + 1 } h ca, Except.ok h)

/-- Every conversion area of the chain takes the current attribute of the
primary surface. -/
def SetUndetermineAttribute (g : CONSOLE_INFORMATION) : CONSOLE_INFORMATION :=
  match g.CurrentScreenBuffer with
  | none => g
  | some ScreenInfo =>
    { g with ConvAreas := fun k =>
        if k ∈ g.ConsoleIme.ConvAreaRoot then
          { g.ConvAreas k with ScreenBuffer := { (g.ConvAreas k).ScreenBuffer with Attributes := ScreenInfo.Attributes } }
        else g.ConvAreas k }

def SetUpConversionArea (env : Env) (g : CONSOLE_INFORMATION) (coordCaBuffer : COORD)
    (rcViewCaWindow : SMALL_RECT) (coordConView : COORD) (dwOption : Nat) :
    CONSOLE_INFORMATION × Except NTSTATUS Nat :=
  match AllocateConversionArea env g coordCaBuffer with
  | (g1, Except.error Status) => (g1, Except.error Status)
  | (g1, Except.ok h) =>
    let ca := g1.ConvAreas h
    let ca1 : CONVERSIONAREA_INFORMATION :=
      { ca with
        ConversionAreaMode := dwOption
        CaInfo := { coordCaBuffer := coordCaBuffer, rcViewCaWindow := rcViewCaWindow, coordConView := coordConView } }
    let g2 := LinkConversionArea (setArea g1 h ca1) h
    (SetUndetermineAttribute g2, Except.ok h)

/-- The result is `none` when the routine dereferences a null
`CurrentScreenBuffer`.  `env.push_back k` is `STATUS_SUCCESS` when appending to
`ConvAreaCompStr` succeeds and otherwise the status returned by the `catch`
clause that is taken. -/
def CreateConvAreaUndetermine (env : Env) (g : CONSOLE_INFORMATION) : Option (NTSTATUS × CONSOLE_INFORMATION) :=
  match g.CurrentScreenBuffer with
  | none => none
  | some cur =>
    let coordCaBuffer : COORD := { X := cur.ScreenBufferSize.X, Y := 1 }
    let rcViewCaWindow : SMALL_RECT := { Left := 0, Top := 0, Right := 0, Bottom := 0 }
    let coordConView : COORD := { X := 0, Y := 0 }
    match SetUpConversionArea env g coordCaBuffer rcViewCaWindow coordConView CA_HIDDEN with
    | (g1, Except.error Status) => some (Status, g1)
    | (g1, Except.ok h) =>
      if NT_SUCCESS (env.push_back g1.nAlloc) then
        some (STATUS_SUCCESS,
          { g1 with ConsoleIme := { g1.ConsoleIme with ConvAreaCompStr := g1.ConsoleIme.ConvAreaCompStr ++ [h] } })
      else some (env.push_back g1.nAlloc, g1)

/-! ## Row writer -/

/-- The effect of `memmove(&dst[X], src, n)` on a row array: cells outside the
array are not part of the model. -/
def writeCells {α : Type} (dst : List α) (X : Int) (src : List α) : List α :=
  if 0 ≤ X then
    (dst.take X.toNat ++ (src ++ dst.drop (X.toNat + src.length))).take dst.length
  else
    ((src.drop (-X).toNat) ++ dst.drop (src.drop (-X).toNat).length).take dst.length

/-- Reading `Chars[k]`; what lies outside the array is given by `env.outside`. -/
def readChar (env : Env) (Chars : List WCHAR) (k : Int) : WCHAR :=
  if 0 ≤ k ∧ k < Chars.length then Chars.getD k.toNat 0 else env.outside k

/-- The forward scan `for (Char = &Chars[X]; Char < LastChar && *Char == ' '; Char++)`. -/
def scanLeft (env : Env) (Chars : List WCHAR) (LastChar : Int) : Nat → Int → Int
  | 0, Char => Char
  | fuel + 1, Char =>
    if Char < LastChar ∧ readChar env Chars Char = UNICODE_SPACE then
      scanLeft env Chars LastChar fuel (Char + 1)
    else Char

/-- The backward scan `for (Char = ...; *Char == ' ' && Char >= FirstChar; Char--)`. -/
def scanRight (env : Env) (Chars : List WCHAR) : Nat → Int → Int
  | 0, Char => Char
  | fuel + 1, Char =>
    if readChar env Chars Char = UNICODE_SPACE ∧ Char ≥ 0 then
      scanRight env Chars fuel (Char - 1)
    else Char

/-- The run built for `InsertAttrRuns` (lines 993 to 1021). -/
def InsertedRun (env : Env) (wScreenAttributes : WORD) (StringA : List BYTE) (StringLength : Nat) :
    TextAttributeRun :=
  let fRVerticalSet := env.IsFlagSet wScreenAttributes (COMMON_LVB_GRID_SINGLEFLAG ||| COMMON_LVB_GRID_RVERTICAL)
  let fLVerticalSet := env.IsFlagSet wScreenAttributes (COMMON_LVB_GRID_SINGLEFLAG ||| COMMON_LVB_GRID_LVERTICAL)
  if fLVerticalSet || fRVerticalSet then
    let LeadOrTrailByte := if fRVerticalSet then ATTR_LEADING_BYTE else ATTR_TRAILING_BYTE
    let iFlag := if fRVerticalSet then COMMON_LVB_GRID_RVERTICAL else COMMON_LVB_GRID_LVERTICAL
    (List.range StringLength).foldl
      (fun (_ : TextAttributeRun) (i : Nat) =>
        if StringA.getD i 0 &&& LeadOrTrailByte ≠ 0 then
          { Length := 1, Attributes := clearFlag wScreenAttributes (COMMON_LVB_GRID_SINGLEFLAG ||| iFlag) }
        else
          { Length := 1, Attributes := clearFlag wScreenAttributes COMMON_LVB_GRID_SINGLEFLAG })
      { Length := 0, Attributes := 0 }
  else
    { Length := StringLength, Attributes := wScreenAttributes }

/-- The two arrays after the edge adjustment of lines 944 to 959. -/
def edgeAdjust (String : List WCHAR) (StringA : List BYTE) (StringLength : Nat)
    (ScreenInfo : SCREEN_INFORMATION) : List WCHAR × List BYTE :=
  let TargetPoint := ScreenInfo.CursorPosition
  let ScreenEndOfString := ScreenInfo.ScreenBufferSize.X - TargetPoint.X
  if 0 ≤ ScreenEndOfString ∧ ScreenEndOfString ≠ 0 ∧ (StringLength : Int) > ScreenEndOfString then
    if TargetPoint.Y = ScreenInfo.ScreenBufferSize.Y - 1 ∧
       TargetPoint.X + StringLength ≥ ScreenInfo.ScreenBufferSize.X ∧
       StringA.getD (ScreenEndOfString.toNat - 1) 0 &&& ATTR_LEADING_BYTE ≠ 0 then
      let String1 := String.set (ScreenEndOfString.toNat - 1) UNICODE_SPACE
      let StringA1 := StringA.set (ScreenEndOfString.toNat - 1) 0
      if (StringLength : Int) > ScreenEndOfString - 1 then
        (String1.set ScreenEndOfString.toNat UNICODE_SPACE, StringA1.set ScreenEndOfString.toNat 0)
      else (String1, StringA1)
    else (String, StringA)
  else (String, StringA)

/-- The row writer acts on the screen buffer of a conversion area.
`ResetTextFlags` only touches rendering flags that are not part of the state. -/
def StreamWriteToScreenBufferIME (env : Env) (String : List WCHAR) (StringLength : Nat)
    (ScreenInfo : SCREEN_INFORMATION) (StringA : List BYTE) : SCREEN_INFORMATION :=
  let TargetPoint := ScreenInfo.CursorPosition
  let Row0 := env.BisectWrite StringLength TargetPoint ScreenInfo.ScreenBufferSize ScreenInfo.Row
  let adjusted := edgeAdjust String StringA StringLength ScreenInfo
  let Chars := writeCells Row0.CharRow.Chars TargetPoint.X (adjusted.1.take StringLength)
  let KAttrs := writeCells Row0.CharRow.KAttrs TargetPoint.X (adjusted.2.take StringLength)
  let Left :=
    if TargetPoint.X < Row0.CharRow.Left then
      scanLeft env Chars (ScreenInfo.ScreenBufferSize.X - 1)
        (ScreenInfo.ScreenBufferSize.X - 1 - TargetPoint.X).toNat TargetPoint.X
    else Row0.CharRow.Left
  let Right :=
    if TargetPoint.X + StringLength ≥ Row0.CharRow.Right then
      scanRight env Chars (TargetPoint.X + StringLength).toNat (TargetPoint.X + StringLength - 1) + 1
    else Row0.CharRow.Right
  let differs :=
    match Row0.AttrRow with
    | [run] => decide (run.Attributes ≠ ScreenInfo.Attributes)
    | _ => true
  let AttrRow :=
    if differs then
      env.InsertAttrRuns Row0.AttrRow
        (InsertedRun env ScreenInfo.Attributes (adjusted.2.take StringLength) StringLength)
        TargetPoint.X (TargetPoint.X + StringLength - 1) ScreenInfo.ScreenBufferSize.X
    else Row0.AttrRow
  { ScreenInfo with
    Row := { CharRow := { Chars := Chars, KAttrs := KAttrs, Left := Left, Right := Right }, AttrRow := AttrRow } }

/-! ## Composition streamer -/

/-- State of the character loop of `WriteUndetermineChars` when it is left.
`rest` is the input not yet consumed (`lpString`, `lpAtr` from the current
position on; `NumChars < BufferSize` means that `rest` is not empty). -/
structure CharLoopExit where
  rest : List (WCHAR × BYTE)
  i : Nat
  PositionX : Int
  Char : WCHAR
  Attr : WORD
  LocalBuffer : List WCHAR
  LocalBufferA : List BYTE
deriving DecidableEq, Repr

/-- The test `NumChars < BufferSize && Attr != *lpAtr` of line 409, made after
the pointers have advanced: `rest` is the input that is left. -/
def attrChanges (Attr : WORD) : List (WCHAR × BYTE) → Bool
  | [] => false
  | (_, a1) :: _ => decide (Attr ≠ a1)

/-- The character loop (lines 373 to 413): `W` is `GetScreenWindowSizeX()`. -/
def charLoop (env : Env) (W : Int) :
    List (WCHAR × BYTE) → Nat → Int → WCHAR → WORD → List WCHAR → List BYTE → CharLoopExit
  | [], i, X, Char, Attr, buf, bufA => ⟨[], i, X, Char, Attr, buf, bufA⟩
  | (c, a) :: rest, i, X, Char, Attr, buf, bufA =>
    if i < LOCAL_BUFFER_SIZE ∧ X < W then
      if c ≥ UNICODE_SPACE then
        if env.IsCharFullWidth c then
          if i < LOCAL_BUFFER_SIZE - 1 ∧ X < W - 1 then
            if attrChanges a rest then
              ⟨rest, i + 2, X + 2, c, a, buf ++ [c, c], bufA ++ [ATTR_LEADING_BYTE, ATTR_TRAILING_BYTE]⟩
            else
              charLoop env W rest (i + 2) (X + 2) c a (buf ++ [c, c])
                (bufA ++ [ATTR_LEADING_BYTE, ATTR_TRAILING_BYTE])
          else
            ⟨(c, a) :: rest, i, X + 1, c, a, buf, bufA⟩
        else
          if attrChanges a rest then
            ⟨rest, i + 1, X + 1, c, a, buf ++ [c], bufA ++ [0]⟩
          else
            charLoop env W rest (i + 1) (X + 1) c a (buf ++ [c]) (bufA ++ [0])
      else
        if attrChanges a rest then
          ⟨rest, i, X, c, a, buf, bufA⟩
        else
          charLoop env W rest i X c a buf bufA
    else
      ⟨(c, a) :: rest, i, X, Char, Attr, buf, bufA⟩

/-- The destination attribute of a chunk (lines 417 to 425). -/
def resolveAttr (lpAtrIdx : Nat → WORD) (Attr : WORD) : WORD :=
  if Attr &&& 0x10 ≠ 0 then
    lpAtrIdx (Attr &&& 0x07) ||| (COMMON_LVB_GRID_SINGLEFLAG ||| COMMON_LVB_GRID_RVERTICAL)
  else if Attr &&& 0x20 ≠ 0 then
    lpAtrIdx (Attr &&& 0x07) ||| (COMMON_LVB_GRID_SINGLEFLAG ||| COMMON_LVB_GRID_LVERTICAL)
  else lpAtrIdx (Attr &&& 0x07)

/-- Record of one call of `StreamWriteToScreenBufferIME` made by the streamer:
the row index, the conversion area, the target column (the cursor column of its
buffer at the call), the two arrays of `i` cells, the source attribute byte and
the attribute set on the buffer. -/
structure IME_WRITE where
  ConvAreaIndex : Nat
  area : Nat
  TargetX : Int
  String : List WCHAR
  StringA : List BYTE
  Attr : WORD
  wLegacyAttr : WORD
deriving DecidableEq, Repr

/-- Lines 417 to 431: the destination attribute is set on the buffer of the
conversion area `h`, the chunk is written through the row writer, and the
cursor of the buffer advances by the `i` cells of the chunk. -/
def writeChunk (env : Env) (lpAtrIdx : Nat → WORD) (g : CONSOLE_INFORMATION) (h : Nat) (r : CharLoopExit) :
    CONSOLE_INFORMATION :=
  let ca := g.ConvAreas h
  let wLegacyAttr := resolveAttr lpAtrIdx r.Attr
  let sb1 := { ca.ScreenBuffer with Attributes := wLegacyAttr }
  let sb2 := StreamWriteToScreenBufferIME env r.LocalBuffer r.i sb1 r.LocalBufferA
  let sb3 := { sb2 with CursorPosition := { sb2.CursorPosition with X := sb2.CursorPosition.X + r.i } }
  setArea g h { ca with ScreenBuffer := sb3 }

/-- The record of the row writer call that `writeChunk` makes. -/
def chunkRecord (lpAtrIdx : Nat → WORD) (g : CONSOLE_INFORMATION) (ConvAreaIndex h : Nat) (r : CharLoopExit) :
    IME_WRITE :=
  { ConvAreaIndex := ConvAreaIndex
    area := h
    TargetX := (g.ConvAreas h).ScreenBuffer.CursorPosition.X
    String := r.LocalBuffer
    StringA := r.LocalBufferA
    Attr := r.Attr
    wLegacyAttr := resolveAttr lpAtrIdx r.Attr }

/-- Lines 440 to 445: the row of the conversion area `h` is finalized. -/
def finalizeRow (g : CONSOLE_INFORMATION) (h : Nat) (RegionLeft : Int) : CONSOLE_INFORMATION :=
  let Region : SMALL_RECT :=
    { Left := RegionLeft, Top := 0, Bottom := 0
      Right := (g.ConvAreas h).ScreenBuffer.CursorPosition.X - 1 }
  let g2 := ConsoleImeWindowInfo g h Region
  let g3 := setArea g2 h
    { g2.ConvAreas h with ConversionAreaMode := clearFlag (g2.ConvAreas h).ConversionAreaMode CA_HIDDEN }
  ConsoleImePaint g3 (some h)

/-- How the chunk loop (`while (NumChars < BufferSize)`, lines 362 to 468) is
left: to the end of the row loop body, or by `return`. -/
inductive ChunkExit where
  | toRowLoop (g : CONSOLE_INFORMATION) (rest : List (WCHAR × BYTE)) (PositionX : Int) (writes : List IME_WRITE)
  | returned (Status : NTSTATUS) (g : CONSOLE_INFORMATION) (writes : List IME_WRITE)

/-- The chunk loop for the row `ConvAreaIndex`, whose conversion area is `h`.
The result is `none` when `fuel` passes do not leave the loop. -/
def chunkLoop (env : Env) (W : Int) (lpAtrIdx : Nat → WORD) (ConvAreaIndex h : Nat) (RegionLeft : Int) :
    Nat → CONSOLE_INFORMATION → List (WCHAR × BYTE) → Int → List IME_WRITE → Option ChunkExit
  | 0, _, _, _, _ => none
  | fuel + 1, g, rest, X, writes =>
    if rest.isEmpty then some (ChunkExit.toRowLoop g rest X writes)
    else
      let r := charLoop env W rest 0 X 0 0 [] []
      if r.i ≠ 0 then
        let g1 := writeChunk env lpAtrIdx g h r
        let writes1 := writes ++ [chunkRecord lpAtrIdx g ConvAreaIndex h r]
        if r.rest.isEmpty ∨ r.PositionX ≥ W ∨
            (r.Char ≥ UNICODE_SPACE ∧ env.IsCharFullWidth r.Char = true ∧ r.PositionX ≥ W - 1) then
          some (ChunkExit.toRowLoop (finalizeRow g1 h RegionLeft) r.rest 0 writes1)
        else if r.rest.isEmpty then some (ChunkExit.returned STATUS_SUCCESS g1 writes1)
        else chunkLoop env W lpAtrIdx ConvAreaIndex h RegionLeft fuel g1 r.rest r.PositionX writes1
      else if r.rest.isEmpty then some (ChunkExit.returned STATUS_SUCCESS g writes)
      else if r.PositionX ≥ W then some (ChunkExit.toRowLoop g r.rest 0 writes)
      else chunkLoop env W lpAtrIdx ConvAreaIndex h RegionLeft fuel g r.rest r.PositionX writes

/-- The closing loop (lines 472 to 480) over the conversion areas that are
left in `ConvAreaCompStr` from `ConvAreaIndex` on. -/
def hideRest (g : CONSOLE_INFORMATION) : List Nat → CONSOLE_INFORMATION
  | [] => g
  | h :: rest =>
    if (g.ConvAreas h).ConversionAreaMode &&& CA_HIDDEN = 0 then
      hideRest
        (ConsoleImePaint
          (setArea g h
            { g.ConvAreas h with ConversionAreaMode := (g.ConvAreas h).ConversionAreaMode ||| CA_HIDDEN })
          (some h))
        rest
    else hideRest g rest

/-- What `WriteUndetermineChars` leaves behind: the returned status, the state,
the number of passes of the row loop that were begun, and the row writer calls
made, in call order. -/
structure StreamResult where
  Status : NTSTATUS
  g : CONSOLE_INFORMATION
  rows : Nat
  writes : List IME_WRITE

/-- Lines 344 to 355: the cursor column of the buffer of the conversion area
`h` is set, and the area is moved under the edit cursor when it is hidden or
the composition was moved up. -/
def startRow (g : CONSOLE_INFORMATION) (h : Nat) (ConvAreaIndex : Nat) (X PositionY : Int)
    (UndetAreaUp : Bool) : CONSOLE_INFORMATION :=
  let ca := g.ConvAreas h
  let g2 := setArea g h
    { ca with ScreenBuffer :=
        { ca.ScreenBuffer with CursorPosition := { ca.ScreenBuffer.CursorPosition with X := X } } }
  if (g2.ConvAreas h).ConversionAreaMode &&& CA_HIDDEN ≠ 0 ∨ UndetAreaUp = true then
    ConsoleImeViewInfo g2 h { X := 0, Y := PositionY + ConvAreaIndex }
  else g2

/-- Lines 334 to 343: a conversion area is created when the row index reaches
the number of areas of `ConvAreaCompStr`. -/
def growRegistry (env : Env) (g : CONSOLE_INFORMATION) (ConvAreaIndex : Nat) :
    Option (NTSTATUS × CONSOLE_INFORMATION) :=
  if ConvAreaIndex + 1 > g.ConsoleIme.ConvAreaCompStr.length then CreateConvAreaUndetermine env g
  else some (STATUS_SUCCESS, g)

/-- The row loop (`for (ConvAreaIndex = 0; NumChars < BufferSize; ConvAreaIndex++)`,
lines 332 to 470) followed by the closing loop.  The result is `none` when
`fuel` passes do not leave the loops. -/
def rowLoop (env : Env) (W : Int) (lpAtrIdx : Nat → WORD) (PositionY : Int) (UndetAreaUp : Bool) :
    Nat → CONSOLE_INFORMATION → Nat → List (WCHAR × BYTE) → Int → List IME_WRITE → Option StreamResult
  | 0, _, _, _, _, _ => none
  | fuel + 1, g, ConvAreaIndex, rest, X, writes =>
    if rest.isEmpty then
      some
        { Status := STATUS_SUCCESS
          g := hideRest g (g.ConsoleIme.ConvAreaCompStr.drop ConvAreaIndex)
          rows := ConvAreaIndex
          writes := writes }
    else
      match growRegistry env g ConvAreaIndex with
      | none => none
      | some (Status, g1) =>
        if !NT_SUCCESS Status then
          some { Status := Status, g := g1, rows := ConvAreaIndex + 1, writes := writes }
        else
          let h := g1.ConsoleIme.ConvAreaCompStr.getD ConvAreaIndex 0
          let g3 := startRow g1 h ConvAreaIndex X PositionY UndetAreaUp
          let RegionLeft := (g3.ConvAreas h).ScreenBuffer.CursorPosition.X
          match chunkLoop env W lpAtrIdx ConvAreaIndex h RegionLeft fuel g3 rest X writes with
          | none => none
          | some (ChunkExit.returned Status1 g4 writes1) =>
            some { Status := Status1, g := g4, rows := ConvAreaIndex + 1, writes := writes1 }
          | some (ChunkExit.toRowLoop g4 rest1 X1 writes1) =>
            rowLoop env W lpAtrIdx PositionY UndetAreaUp fuel g4 (ConvAreaIndex + 1) rest1 X1 writes1

/-- Modelled from the spec: `SetViewportOrigin(FALSE, WindowOrigin)`, which is
not part of the source tree: the viewport moves by `WindowOrigin` and keeps
its size, so that the row of the cursor becomes its bottom row. -/
def SetViewportOrigin (ScreenInfo : SCREEN_INFORMATION) (WindowOrigin : COORD) : SCREEN_INFORMATION :=
  { ScreenInfo with
    BufferViewport :=
      { Left := ScreenInfo.BufferViewport.Left + WindowOrigin.X
        Top := ScreenInfo.BufferViewport.Top + WindowOrigin.Y
        Right := ScreenInfo.BufferViewport.Right + WindowOrigin.X
        Bottom := ScreenInfo.BufferViewport.Bottom + WindowOrigin.Y } }

/-- The input of the loops: the `NumChars` pairs of `lpString[k]`, `lpAtr[k]`. -/
def inputCells (lpString : List WCHAR) (lpAtr : List BYTE) (NumChars : Nat) : List (WCHAR × BYTE) :=
  (List.range NumChars).map (fun k => (lpString.getD k 0, lpAtr.getD k 0))

/-- The streamer.  The result is `none` when `CurrentScreenBuffer` is null
(it is dereferenced unchecked) or when `fuel` passes do not leave the loops.
`WholeRow` is the truncating quotient of C; a window width of zero, by which
the code would divide, gives `0` here.  The casts of lines 299, 307 and 312
and the `int` arithmetic of lines 307 to 312 wrap (`toSHORT`, `toInt`). -/
def WriteUndetermineChars (env : Env) (fuel : Nat) (g : CONSOLE_INFORMATION)
    (lpString : List WCHAR) (lpAtr : List BYTE) (lpAtrIdx : Nat → WORD) (NumChars : Nat) :
    Option StreamResult :=
  match g.CurrentScreenBuffer with
  | none => none
  | some ScreenInfo0 =>
    let Position0 := ScreenInfo0.CursorPosition
    let inside :=
      (ScreenInfo0.BufferViewport.Left ≤ Position0.X ∧ Position0.X ≤ ScreenInfo0.BufferViewport.Right) ∧
      (ScreenInfo0.BufferViewport.Top ≤ Position0.Y ∧ Position0.Y ≤ ScreenInfo0.BufferViewport.Bottom)
    let Position : COORD :=
      if inside then
        { X := Position0.X - ScreenInfo0.BufferViewport.Left, Y := Position0.Y - ScreenInfo0.BufferViewport.Top }
      else Position0
    let ScreenInfo :=
      if inside then ScreenInfo0
      else
        SetViewportOrigin ScreenInfo0
          { X := 0, Y := toSHORT (Position0.Y - ScreenInfo0.BufferViewport.Bottom) }
    let g0 := { g with CurrentScreenBuffer := some ScreenInfo }
    let NumStr := env.WideCharToMultiByte lpString (NumChars * 2)
    let WholeLen : Int := toInt (Position.X + toInt NumStr)
    let WholeRow : Int := toInt (Int.tdiv WholeLen ScreenInfo.ScreenWindowSizeX)
    let PosY : Int :=
      if toInt (Position.Y + WholeRow) > toInt (ScreenInfo.ScreenWindowSizeY - 1) then
        if toSHORT (toInt (toInt (ScreenInfo.ScreenWindowSizeY - 1) - WholeRow)) < 0 then
          ScreenInfo.BufferViewport.Top
        else toSHORT (toInt (toInt (ScreenInfo.ScreenWindowSizeY - 1) - WholeRow))
      else Position.Y
    let UndetAreaUp := decide (PosY ≠ Position.Y)
    rowLoop env ScreenInfo.ScreenWindowSizeX lpAtrIdx PosY UndetAreaUp fuel g0 0
      (inputCells lpString lpAtr NumChars) Position.X []

/-! ## Composition protocol handler -/

def CONSOLE_ATTRIBUTE : Nat := 0x3
def CONSOLE_FALSE_UNICODE : Nat := 0x4

/-- The result is `none` when `CurrentScreenBuffer` is null (its attributes
are read unchecked). -/
def FillUndetermineChars (env : Env) (g : CONSOLE_INFORMATION) (h : Nat) : Option CONSOLE_INFORMATION :=
  match g.CurrentScreenBuffer with
  | none => none
  | some cur =>
    let ca := g.ConvAreas h
    let ca1 := { ca with ConversionAreaMode := ca.ConversionAreaMode ||| CA_HIDDEN }
    let CharsToWrite := ca1.ScreenBuffer.ScreenBufferSize.X.toNat
    let sb1 := env.FillOutput ca1.ScreenBuffer UNICODE_SPACE { X := 0, Y := 0 } CONSOLE_FALSE_UNICODE CharsToWrite
    let CharsToWrite2 := sb1.ScreenBufferSize.X.toNat
    let sb2 := env.FillOutput sb1 cur.Attributes { X := 0, Y := 0 } CONSOLE_ATTRIBUTE CharsToWrite2
    some (ConsoleImePaint (setArea g h { ca1 with ScreenBuffer := sb2 }) (some h))

/-- The loop over `ConvAreaCompStr` that clears every conversion area that is
not hidden (lines 516 to 523, 554 to 561 and 581 to 588). -/
def fillVisible (env : Env) : CONSOLE_INFORMATION → List Nat → Option CONSOLE_INFORMATION
  | g, [] => some g
  | g, h :: rest =>
    if (g.ConvAreas h).ConversionAreaMode &&& CA_HIDDEN = 0 then
      match FillUndetermineChars env g h with
      | none => none
      | some g1 => fillVisible env g1 rest
    else fillVisible env g rest

/-- The length of the string that starts at `lpStr`, up to its terminator. -/
def wcslen (lpStr : List WCHAR) : Nat := (lpStr.takeWhile (fun c => c != 0)).length

/-- The records filled by the `while (*lpStr)` loop (lines 893 to 903). -/
def fillInputEvents (dwControlKeyState : Nat) : List WCHAR → List KEY_EVENT_RECORD
  | [] => []
  | c :: rest =>
    if c ≠ 0 then
      { bKeyDown := true, wVirtualKeyCode := 0, wVirtualScanCode := 0,
        dwControlKeyState := dwControlKeyState, UnicodeChar := c, wRepeatCount := 1 } ::
        fillInputEvents dwControlKeyState rest
    else []

/-- The result is `none` when `CurrentScreenBuffer` is null.  `WriteInputBuffer`
appends the batch it is given to `InputBuffer`. -/
def InsertConvertedString (env : Env) (g : CONSOLE_INFORMATION) (lpStr : List WCHAR) :
    Option (Bool × CONSOLE_INFORMATION) :=
  match g.CurrentScreenBuffer with
  | none => none
  | some cur =>
    let cur1 := if cur.CursorOn then env.TimerRoutine cur else cur
    let cchLen := wcslen lpStr + 1
    let g1 := { g with CurrentScreenBuffer := some cur1, nAlloc := g.nAlloc + 1 }
    if env.newFails g.nAlloc then some (false, g1)
    else
      let dwControlKeyState := env.GetControlKeyState
      let InputEvent := fillInputEvents dwControlKeyState lpStr
      some (true, { g1 with InputBuffer := g1.InputBuffer ++ [InputEvent.take (cchLen - 1)] })

/-- Modelled from the spec: `SetCursorInformation(Size, Visible)`, which is not
part of the source tree: it stores the cursor size and visibility. -/
def SetCursorInformation (ScreenInfo : SCREEN_INFORMATION) (Size : Nat) (Visible : Bool) : SCREEN_INFORMATION :=
  { ScreenInfo with CursorSize := Size, CursorVisible := Visible }

/-- The result is `none` when a null `CurrentScreenBuffer` is dereferenced or
when the streamer does not return within `fuel` passes. -/
def ConsoleImeCompStr (env : Env) (fuel : Nat) (g : CONSOLE_INFORMATION) (CompStr : CONIME_UICOMPMESSAGE) :
    Option (NTSTATUS × CONSOLE_INFORMATION) :=
  if CompStr.dwCompStrLen = 0 ∨ CompStr.dwResultStrLen ≠ 0 then
    match (if g.ConsoleIme.SavedCursorVisible then
            match g.CurrentScreenBuffer with
            | none => none
            | some cur =>
              some { g with
                ConsoleIme := { g.ConsoleIme with SavedCursorVisible := false }
                CurrentScreenBuffer := some (SetCursorInformation cur cur.CursorSize true) }
           else some g) with
    | none => none
    | some g1 =>
      match fillVisible env g1 g1.ConsoleIme.ConvAreaCompStr with
      | none => none
      | some g2 =>
        match (if CompStr.dwResultStrLen ≠ 0 then InsertConvertedString env g2 CompStr.ResultStr
               else some (true, g2)) with
        | none => none
        | some (false, g3) => some (STATUS_INVALID_HANDLE, g3)
        | some (true, g3) =>
          some (STATUS_SUCCESS, { g3 with ConsoleIme := { g3.ConsoleIme with CompStrData := none } })
  else
    match g.CurrentScreenBuffer with
    | none => none
    | some cur =>
      let g1 :=
        if cur.CursorVisible then
          { g with
            ConsoleIme := { g.ConsoleIme with SavedCursorVisible := true }
            CurrentScreenBuffer := some (SetCursorInformation cur cur.CursorSize false) }
        else g
      match fillVisible env g1 g1.ConsoleIme.ConvAreaCompStr with
      | none => none
      | some g2 =>
        match WriteUndetermineChars env fuel g2 CompStr.CompStr CompStr.CompAttr CompStr.CompAttrColor
            (CompStr.dwCompStrLen / 2) with
        | none => none
        | some r => some (STATUS_SUCCESS, r.g)
/-! ## Resize handlers -/

/-- The rectangle `rcViewCaWindow` after the four tests of lines 742 to 760. -/
def ConsoleImeResizeScreenBuffer_clamp (rc : SMALL_RECT) (NewScreenSize : COORD) : SMALL_RECT :=
  let rc1 := if rc.Left > NewScreenSize.X - 1 then { rc with Left := NewScreenSize.X - 1 } else rc
  let rc2 := if rc1.Right > NewScreenSize.X - 1 then { rc1 with Right := NewScreenSize.X - 1 } else rc1
  let rc3 := if rc2.Top > NewScreenSize.Y - 1 then { rc2 with Top := NewScreenSize.Y - 1 } else rc2
  if rc3.Bottom > NewScreenSize.Y - 1 then { rc3 with Bottom := NewScreenSize.Y - 1 } else rc3

/-- The routine acts on the conversion area `h` and on its own screen buffer
(the argument `ScreenInfo` of the source is `ConvAreaInfo->ScreenBuffer` at the
only call). -/
def ConsoleImeResizeScreenBuffer (env : Env) (g : CONSOLE_INFORMATION) (NewScreenSize : COORD) (h : Nat) :
    NTSTATUS × CONSOLE_INFORMATION :=
  let ca := g.ConvAreas h
  let Status := (env.ResizeScreenBuffer ca.ScreenBuffer NewScreenSize).1
  let ca0 := { ca with ScreenBuffer := (env.ResizeScreenBuffer ca.ScreenBuffer NewScreenSize).2 }
  if NT_SUCCESS Status then
    (Status, setArea g h
      { ca0 with
        CaInfo :=
          { ca0.CaInfo with
            coordCaBuffer := NewScreenSize
            rcViewCaWindow := ConsoleImeResizeScreenBuffer_clamp ca0.CaInfo.rcViewCaWindow NewScreenSize } })
  else (Status, setArea g h ca0)

/-- The loop of `ConsoleImeResizeCompStrScreenBuffer` (lines 605 to 624) over
the conversion areas that are left in `ConvAreaCompStr`.  The entries of
`ConvAreaCompStr` are handles, so the test `if (ConvAreaInfo)` always passes. -/
def ConsoleImeResizeCompStrScreenBuffer_loop (env : Env) (coordNewScreenSize : COORD) :
    CONSOLE_INFORMATION → List Nat → NTSTATUS × CONSOLE_INFORMATION
  | g, [] => (STATUS_SUCCESS, g)
  | g, h :: rest =>
    let g1 :=
      if (g.ConvAreas h).ConversionAreaMode &&& CA_HIDDEN = 0 then
        ConsoleImePaint
          (setArea g h
            { g.ConvAreas h with ConversionAreaMode := (g.ConvAreas h).ConversionAreaMode ||| CA_HIDDEN })
          (some h)
      else g
    let r := ConsoleImeResizeScreenBuffer env g1 coordNewScreenSize h
    if !NT_SUCCESS r.1 then r
    else ConsoleImeResizeCompStrScreenBuffer_loop env coordNewScreenSize r.2 rest

def ConsoleImeResizeCompStrScreenBuffer (env : Env) (g : CONSOLE_INFORMATION) (coordNewScreenSize : COORD) :
    NTSTATUS × CONSOLE_INFORMATION :=
  ConsoleImeResizeCompStrScreenBuffer_loop env coordNewScreenSize g g.ConsoleIme.ConvAreaCompStr

/-- The message `COPYDATASTRUCT`: the code `(LONG) dwData`, the byte count
`cbData` and the payload `lpData` (null, or a composition-update payload). -/
structure COPYDATASTRUCT where
  dwData : Int
  cbData : Nat
  lpData : Option CONIME_UICOMPMESSAGE

/-- The result is `none` when `ConsoleImeCompStr` does not return.  The status
of `ConsoleImeCompStr` is not looked at (line 859); the allocation of the copy
of the payload is the allocation attempt number `nAlloc`. -/
def ImeControl (env : Env) (fuel : Nat) (g : CONSOLE_INFORMATION) (pCopyDataStruct : Option COPYDATASTRUCT) :
    Option (NTSTATUS × CONSOLE_INFORMATION) :=
  match pCopyDataStruct with
  | none => some (STATUS_SUCCESS, g)
  | some cds =>
    if cds.dwData = env.CI_CONIMECOMPOSITION then
      if cds.cbData ≥ env.sizeof_CONIME_UICOMPMESSAGE then
        match cds.lpData with
        | none => some (STATUS_SUCCESS, g)
        | some CompStr =>
          if CompStr.dwSize = cds.cbData then
            let g1 := { g with nAlloc := g.nAlloc + 1 }
            if env.newFails g.nAlloc then
              some (STATUS_SUCCESS, { g1 with ConsoleIme := { g1.ConsoleIme with CompStrData := none } })
            else
              let g2 := { g1 with ConsoleIme := { g1.ConsoleIme with CompStrData := some CompStr } }
              match ConsoleImeCompStr env fuel g2 CompStr with
              | none => none
              | some res => some (STATUS_SUCCESS, res.2)
          else some (STATUS_SUCCESS, g)
      else some (STATUS_SUCCESS, g)
    else if cds.dwData = env.CI_ONSTARTCOMPOSITION then
      some (STATUS_SUCCESS, { g with InComposition := true })
    else if cds.dwData = env.CI_ONENDCOMPOSITION then
      some (STATUS_SUCCESS, { g with InComposition := false })
    else some (STATUS_SUCCESS, g)

/-! ## The chain at the level of its links -/

/-- The links of the chain as the source keeps them: `ConvAreaRoot` and the
field `ConvAreaNext` of every conversion area (null is `none`). -/
structure ChainLinks where
  ConvAreaRoot : Option Nat
  ConvAreaNext : Nat → Option Nat

/-- The walk `while (PrevConvAreaInfo->ConvAreaNext)` of lines 80 to 83: the
conversion area at which it stops, `none` when `fuel` steps do not end it. -/
def LinkConversionArea_walk (ConvAreaNext : Nat → Option Nat) : Nat → Nat → Option Nat
  | 0, _ => none
  | fuel + 1, PrevConvAreaInfo =>
    match ConvAreaNext PrevConvAreaInfo with
    | none => some PrevConvAreaInfo
    | some next => LinkConversionArea_walk ConvAreaNext fuel next

/-- `LinkConversionArea` (lines 71 to 87) on the links. -/
def LinkConversionArea_links (fuel : Nat) (s : ChainLinks) (ConvAreaInfo : Nat) : Option ChainLinks :=
  match s.ConvAreaRoot with
  | none => some { s with ConvAreaRoot := some ConvAreaInfo }
  | some root =>
    match LinkConversionArea_walk s.ConvAreaNext fuel root with
    | none => none
    | some PrevConvAreaInfo =>
      some { s with ConvAreaNext := fun k => if k = PrevConvAreaInfo then some ConvAreaInfo else s.ConvAreaNext k }

/-- Lines 629 to 648: `Buffer` holds the `UnicodeChar` of the cells, of which
the first `NumberOfChars` are counted; `Column` is a `SHORT`, so every
addition is converted back to 16 bits. -/
def CalcWideCharToColumn (env : Env) (Buffer : List WCHAR) (NumberOfChars : Nat) : Int :=
  (Buffer.take NumberOfChars).foldl
    (fun (Column : Int) (c : WCHAR) =>
      if env.IsCharFullWidth c then toSHORT (Column + 2) else toSHORT (Column + 1))
    0


/-! ## Definitions that follow the wording of the specification -/

/-- The absolute rectangle of a conversion area: viewport origin + viewOffset +
localViewRect. -/
def absoluteRect (Viewport : SMALL_RECT) (ca : CONVERSIONAREA_INFORMATION) : SMALL_RECT :=
  { Left := Viewport.Left + ca.CaInfo.coordConView.X + ca.CaInfo.rcViewCaWindow.Left
    Top := Viewport.Top + ca.CaInfo.coordConView.Y + ca.CaInfo.rcViewCaWindow.Top
    Right := Viewport.Left + ca.CaInfo.coordConView.X + ca.CaInfo.rcViewCaWindow.Right
    Bottom := Viewport.Top + ca.CaInfo.coordConView.Y + ca.CaInfo.rcViewCaWindow.Bottom }

/-- The intersection of three inclusive rectangles. -/
def intersect3 (a b c : SMALL_RECT) : SMALL_RECT :=
  { Left := max (max a.Left b.Left) c.Left
    Top := max (max a.Top b.Top) c.Top
    Right := min (min a.Right b.Right) c.Right
    Bottom := min (min a.Bottom b.Bottom) c.Bottom }

/-- The redraw request that one conversion area yields for a dirty rectangle:
none for a hidden area or an empty three-way intersection, and otherwise the
intersection with `Right` and `Bottom` increased by one. -/
def invalidateRequest (Viewport dirtyRect : SMALL_RECT) (ca : CONVERSIONAREA_INFORMATION) : Option SMALL_RECT :=
  if ca.ConversionAreaMode &&& CA_HIDDEN ≠ 0 then none
  else
    if (intersect3 (absoluteRect Viewport ca) Viewport dirtyRect).Left ≤
          (intersect3 (absoluteRect Viewport ca) Viewport dirtyRect).Right ∧
        (intersect3 (absoluteRect Viewport ca) Viewport dirtyRect).Top ≤
          (intersect3 (absoluteRect Viewport ca) Viewport dirtyRect).Bottom then
      some
        { Left := (intersect3 (absoluteRect Viewport ca) Viewport dirtyRect).Left
          Top := (intersect3 (absoluteRect Viewport ca) Viewport dirtyRect).Top
          Right := (intersect3 (absoluteRect Viewport ca) Viewport dirtyRect).Right + 1
          Bottom := (intersect3 (absoluteRect Viewport ca) Viewport dirtyRect).Bottom + 1 }
    else none

/-- A rectangle moved by an offset. -/
def translateRect (r : SMALL_RECT) (offset : COORD) : SMALL_RECT :=
  { Left := r.Left + offset.X, Top := r.Top + offset.Y, Right := r.Right + offset.X, Bottom := r.Bottom + offset.Y }

/-! ## A concrete console, used to instantiate the theorems -/

def exEnv : Env :=
  { IsCharFullWidth := fun c => decide (c ≥ 0x3000)
    WideCharToMultiByte := fun _ n => n
    GetControlKeyState := 0
    IsFlagSet := fun v f => v &&& f == f
    BisectWrite := fun _ _ _ r => r
    InsertAttrRuns := fun runs _ _ _ _ => runs
    FillOutput := fun s _ _ _ _ => s
    TimerRoutine := fun s => s
    newFails := fun _ => false
    CreateInstance := fun _ => STATUS_SUCCESS
    push_back := fun _ => STATUS_SUCCESS
    outside := fun _ => 0
    ResizeScreenBuffer := fun sb size => (STATUS_SUCCESS, { sb with ScreenBufferSize := size })
    sizeof_CONIME_UICOMPMESSAGE := 44
    CI_CONIMECOMPOSITION := 0
    CI_ONSTARTCOMPOSITION := 1
    CI_ONENDCOMPOSITION := 2 }

/-- A primary surface of `W` by `H` cells showing all of its buffer, with the
cursor at `(cx, cy)`. -/
def exScreen (W H cx cy : Int) : SCREEN_INFORMATION :=
  { CreateInstance_buffer { X := W, Y := H } { X := W, Y := H } 7 7 25 with
    CursorPosition := { X := cx, Y := cy }
    IsActiveScreenBuffer := true }

/-- A one-row conversion area with the given mode, rectangle and offset. -/
def exArea (mode : Nat) (rc : SMALL_RECT) (view : COORD) : CONVERSIONAREA_INFORMATION :=
  { ConversionAreaMode := mode
    CaInfo := { coordCaBuffer := { X := 20, Y := 1 }, rcViewCaWindow := rc, coordConView := view }
    ScreenBuffer := CreateInstance_buffer { X := 20, Y := 10 } { X := 20, Y := 1 } 7 7 0 }

/-- A console with a 20 by 10 primary surface, the cursor at `(cx, 3)`, and
the conversion areas `areas` (handles `0`, `1`, ...), all of them composition
rows. -/
def exConsole (cx : Int) (areas : List CONVERSIONAREA_INFORMATION) : CONSOLE_INFORMATION :=
  { CurrentScreenBuffer := some (exScreen 20 10 cx 3)
    ConsoleIme :=
      { ConvAreaRoot := List.range areas.length
        ConvAreaCompStr := List.range areas.length
        CompStrData := none
        SavedCursorVisible := false }
    ConvAreas := fun k => areas.getD k (exArea CA_HIDDEN { Left := 0, Top := 0, Right := 0, Bottom := 0 } { X := 0, Y := 0 })
    nextArea := areas.length
    nAlloc := 0
    pRender := true
    Redraws := []
    InputBuffer := []
    InComposition := false }

/-! ## Vocabulary of the proofs about the streamer -/

/-- Everything but the conversion areas themselves and the recorded requests is
the same in `g1` as in `g`. -/
def SameRegistry (g g1 : CONSOLE_INFORMATION) : Prop :=
  g1.ConsoleIme = g.ConsoleIme ∧ g1.CurrentScreenBuffer = g.CurrentScreenBuffer ∧
    g1.nextArea = g.nextArea ∧ g1.nAlloc = g.nAlloc

/-- The same, and only the conversion area `h` may differ. -/
def OnlyArea (h : Nat) (g g1 : CONSOLE_INFORMATION) : Prop :=
  SameRegistry g g1 ∧ ∀ k, k ≠ h → g1.ConvAreas k = g.ConvAreas k

/-- The state with which the chunk loop is left. -/
def ChunkExit.state : ChunkExit → CONSOLE_INFORMATION
  | ChunkExit.toRowLoop g _ _ _ => g
  | ChunkExit.returned _ g _ => g

/-- The row writer calls recorded when the chunk loop is left. -/
def ChunkExit.writes : ChunkExit → List IME_WRITE
  | ChunkExit.toRowLoop _ _ _ writes => writes
  | ChunkExit.returned _ _ writes => writes

/-- The cells of a sequence of glyphs: a single-width glyph is one cell with
decoration 0, a double-width glyph (`true`) is two adjacent cells holding the
same character, tagged leading and trailing. -/
def glyphCells : List (WCHAR × Bool) → List (WCHAR × BYTE)
  | [] => []
  | (c, false) :: gs => (c, 0) :: glyphCells gs
  | (c, true) :: gs => (c, ATTR_LEADING_BYTE) :: (c, ATTR_TRAILING_BYTE) :: glyphCells gs

/-- The two arrays of a chunk are the cells of a sequence of glyphs. -/
def IsGlyphChunk (String : List WCHAR) (StringA : List BYTE) : Prop :=
  ∃ gs, String = (glyphCells gs).map Prod.fst ∧ StringA = (glyphCells gs).map Prod.snd

/-- The input ends in a character that is not below the space character. -/
def EndsPrintable (rest : List (WCHAR × BYTE)) : Prop :=
  ∀ p, rest.getLast? = some p → UNICODE_SPACE ≤ p.1

/-- A payload in the determined state: nothing pending, the result "abc". -/
def exDetermined : CONIME_UICOMPMESSAGE :=
  { dwSize := 64, dwCompStrLen := 0, dwResultStrLen := 6, CompAttrColor := fun _ => 7,
    CompStr := [], CompAttr := [], ResultStr := [97, 98, 99, 0] }

/-- A visible one-row conversion area showing columns 0 to 3 at offset `(0, 3)`. -/
def exVisible : CONVERSIONAREA_INFORMATION :=
  exArea 0 { Left := 0, Top := 0, Right := 3, Bottom := 0 } { X := 0, Y := 3 }

/-- A hidden one-row conversion area with the rectangle and offset of `exVisible`. -/
def exHidden : CONVERSIONAREA_INFORMATION :=
  exArea CA_HIDDEN { Left := 0, Top := 0, Right := 3, Bottom := 0 } { X := 0, Y := 3 }

/-- The composition rows of `g` are pairwise distinct conversion areas that
were allocated earlier, and each of them has its hidden flag set. -/
@[reducible] def CompStrAllHidden (g : CONSOLE_INFORMATION) : Prop :=
  g.ConsoleIme.ConvAreaCompStr.Nodup ∧
  (∀ h ∈ g.ConsoleIme.ConvAreaCompStr, h < g.nextArea) ∧
  (∀ h ∈ g.ConsoleIme.ConvAreaCompStr, (g.ConvAreas h).ConversionAreaMode &&& CA_HIDDEN ≠ 0)

/-- Every character of the input is printable (not below the space character)
and single-width. -/
def AllSingle (env : Env) (rest : List (WCHAR × BYTE)) : Prop :=
  ∀ p ∈ rest, UNICODE_SPACE ≤ p.1 ∧ env.IsCharFullWidth p.1 = false

/-- The required columns of a text in the words of the specification: two
columns for a double-width character, one for any other. -/
def columnCount (env : Env) : List WCHAR → Int
  | [] => 0
  | c :: rest => (if env.IsCharFullWidth c then 2 else 1) + columnCount env rest

/-- A text of one `a`, nineteen double-width characters and one `a`: 40 columns. -/
def exMixedText : List WCHAR := 97 :: (List.replicate 19 12354 ++ [97])

/-- The links represent the list of handles `c`: starting at `p` and following
`ConvAreaNext`, the conversion areas met are those of `c`, in order, and the
last link is null. -/
def IsChain (ConvAreaNext : Nat → Option Nat) : Option Nat → List Nat → Prop
  | p, [] => p = none
  | p, h :: rest => p = some h ∧ IsChain ConvAreaNext (ConvAreaNext h) rest

/-- A console whose primary surface has a buffer of 40 by 30 cells behind a
window of 20 by 10, with no conversion area. -/
def exWide : CONSOLE_INFORMATION :=
  { exConsole 0 [] with
    CurrentScreenBuffer := some
      { CreateInstance_buffer { X := 20, Y := 10 } { X := 40, Y := 30 } 7 7 25 with
        CursorPosition := { X := 0, Y := 3 }
        IsActiveScreenBuffer := true } }

/-- The links of the chain of `exConsole` with two conversion areas. -/
def exLinks : ChainLinks :=
  { ConvAreaRoot := some 0, ConvAreaNext := fun k => if k = 0 then some 1 else none }

/-- An environment in which every allocation attempt yields a null pointer. -/
def exFailEnv : Env := { exEnv with newFails := fun _ => true }

/-- A payload in the in-progress state: the pending text `s` with the
attribute bytes `a`, no result string. -/
def exPayload (s : List WCHAR) (a : List BYTE) : CONIME_UICOMPMESSAGE :=
  { dwSize := 64, dwCompStrLen := 2 * s.length, dwResultStrLen := 0, CompAttrColor := fun _ => 7,
    CompStr := s, CompAttr := a, ResultStr := [] }

/-- The payloads `ps` are handled by `ConsoleImeCompStr` one after the other;
the result lists the states that the calls leave, in call order. -/
def ConsoleImeCompStr_run (env : Env) (fuel : Nat) :
    CONSOLE_INFORMATION → List CONIME_UICOMPMESSAGE → Option (List CONSOLE_INFORMATION)
  | _, [] => some []
  | g, p :: ps =>
    match ConsoleImeCompStr env fuel g p with
    | none => none
    | some res =>
      match ConsoleImeCompStr_run env fuel res.2 ps with
      | none => none
      | some l => some (res.2 :: l)

/-- The cursor visibility of the primary surface (`false` when there is no
primary surface). -/
def cursorVisible (g : CONSOLE_INFORMATION) : Bool :=
  match g.CurrentScreenBuffer with
  | none => false
  | some cur => cur.CursorVisible

/-- The rectangle `rc` with every edge that exceeds the last column or row of
a buffer of size `size` lowered to it. -/
def clampRect (rc : SMALL_RECT) (size : COORD) : SMALL_RECT :=
  { Left := min rc.Left (size.X - 1)
    Top := min rc.Top (size.Y - 1)
    Right := min rc.Right (size.X - 1)
    Bottom := min rc.Bottom (size.Y - 1) }

/-- A visible one-row conversion area that shows the columns 0 to 15. -/
def exSixteen : CONVERSIONAREA_INFORMATION :=
  exArea 0 { Left := 0, Top := 0, Right := 15, Bottom := 0 } { X := 0, Y := 3 }

/-- The cells that a text contributes, character by character and in order:
none for a character below the space character, one cell with decoration 0
for a single-width character, and two cells holding the character, tagged
leading then trailing, for a double-width character. -/
def renderCells (env : Env) : List (WCHAR × BYTE) → List (WCHAR × BYTE)
  | [] => []
  | (c, _) :: rest =>
    if c < UNICODE_SPACE then renderCells env rest
    else if env.IsCharFullWidth c then
      (c, ATTR_LEADING_BYTE) :: (c, ATTR_TRAILING_BYTE) :: renderCells env rest
    else (c, 0) :: renderCells env rest

/-- The cells (character and decoration byte) of the chunks handed to the row
writer, concatenated in call order. -/
def writtenCells (writes : List IME_WRITE) : List (WCHAR × BYTE) :=
  (writes.map (fun w => w.String.zip w.StringA)).flatten

/-- The input that is left when the chunk loop is left (none on `return`,
which is taken only when the input is used up). -/
def ChunkExit.rest : ChunkExit → List (WCHAR × BYTE)
  | ChunkExit.toRowLoop _ rest _ _ => rest
  | ChunkExit.returned _ _ _ => []

/-- The destination attribute in the words of the specification: the entry
`a mod 8` of the color table, with the single-line flag and one vertical line
flag added: the right one when bit `0x10` of `a` is set, and otherwise the
left one when bit `0x20` is set. -/
def destinationAttr (colorTable : Nat → WORD) (a : BYTE) : WORD :=
  colorTable (a % 8) |||
    (if a / 16 % 2 = 1 then COMMON_LVB_GRID_SINGLEFLAG ||| COMMON_LVB_GRID_RVERTICAL
     else if a / 32 % 2 = 1 then COMMON_LVB_GRID_SINGLEFLAG ||| COMMON_LVB_GRID_LVERTICAL
     else 0)

/-- The placement of a conversion area: its rectangle `rcViewCaWindow`, its
offset `coordConView`, and whether its hidden flag is set. -/
def placement (ca : CONVERSIONAREA_INFORMATION) : SMALL_RECT × COORD × Bool :=
  (ca.CaInfo.rcViewCaWindow, ca.CaInfo.coordConView, decide (ca.ConversionAreaMode &&& CA_HIDDEN ≠ 0))

/-- Lines 303 to 324 of `WriteUndetermineChars`: the row `PosY` of the first
composition row and `UndetAreaUp`, from the cursor position `Position` (as the
lines 287 to 301 leave it) and the column count `NumStr` of the text.
`(int)NumStr` and the `int` arithmetic wrap to 32 bits (`toInt`), and the
`(SHORT)` cast of line 312 wraps to 16 bits (`toSHORT`) before `PosY < 0` is
tested. -/
def WriteUndetermineChars_PosY (ScreenInfo : SCREEN_INFORMATION) (Position : COORD) (NumStr : Nat) :
    Int × Bool :=
  let WholeLen : Int := toInt (Position.X + toInt NumStr)
  let WholeRow : Int := toInt (Int.tdiv WholeLen ScreenInfo.ScreenWindowSizeX)
  let PosY : Int :=
    if toInt (Position.Y + WholeRow) > toInt (ScreenInfo.ScreenWindowSizeY - 1) then
      if toSHORT (toInt (toInt (ScreenInfo.ScreenWindowSizeY - 1) - WholeRow)) < 0 then
        ScreenInfo.BufferViewport.Top
      else toSHORT (toInt (toInt (ScreenInfo.ScreenWindowSizeY - 1) - WholeRow))
    else Position.Y
  (PosY, decide (PosY ≠ Position.Y))

/-- The cursor position with which line 303 is reached: relative to the
viewport when the cursor is inside of it, and as it is otherwise. -/
def WriteUndetermineChars_Position (ScreenInfo0 : SCREEN_INFORMATION) : COORD :=
  if (ScreenInfo0.BufferViewport.Left ≤ ScreenInfo0.CursorPosition.X ∧
        ScreenInfo0.CursorPosition.X ≤ ScreenInfo0.BufferViewport.Right) ∧
      (ScreenInfo0.BufferViewport.Top ≤ ScreenInfo0.CursorPosition.Y ∧
        ScreenInfo0.CursorPosition.Y ≤ ScreenInfo0.BufferViewport.Bottom) then
    { X := ScreenInfo0.CursorPosition.X - ScreenInfo0.BufferViewport.Left
      Y := ScreenInfo0.CursorPosition.Y - ScreenInfo0.BufferViewport.Top }
  else ScreenInfo0.CursorPosition

/-- The cells that a text contributes, as `renderCells`, each with the
attribute byte of the input character it comes from. -/
def renderTagged (env : Env) : List (WCHAR × BYTE) → List (WCHAR × BYTE × BYTE)
  | [] => []
  | (c, a) :: rest =>
    if c < UNICODE_SPACE then renderTagged env rest
    else if env.IsCharFullWidth c then
      (c, ATTR_LEADING_BYTE, a) :: (c, ATTR_TRAILING_BYTE, a) :: renderTagged env rest
    else (c, 0, a) :: renderTagged env rest

/-- The cells of one chunk handed to the row writer, each with the source
attribute byte `Attr` from which the attribute of the chunk is resolved. -/
def chunkTagged (String : List WCHAR) (StringA : List BYTE) (Attr : WORD) : List (WCHAR × BYTE × BYTE) :=
  (String.zip StringA).map (fun c => (c.1, c.2, Attr))

/-- The cells of the chunks handed to the row writer, in call order, each
with the source attribute byte of its chunk. -/
def taggedCells (writes : List IME_WRITE) : List (WCHAR × BYTE × BYTE) :=
  (writes.map (fun w => chunkTagged w.String w.StringA w.Attr)).flatten

/-- The indices of `Chars` that the backward scan of the row writer (lines 979
to 986) reads, in order: the condition `*Char == ' ' && Char >= FirstChar`
reads the cell before it compares the pointers. -/
def scanRight_reads (env : Env) (Chars : List WCHAR) : Nat → Int → List Int
  | 0, _ => []
  | fuel + 1, Char =>
    Char :: (if readChar env Chars Char = UNICODE_SPACE ∧ Char ≥ 0 then scanRight_reads env Chars fuel (Char - 1)
             else [])

/-- The blank-bound invariant of a row: every cell at a column below `Left`
or at or above `Right` is blank. -/
def BlankBound (r : CHAR_ROW) : Prop :=
  ∀ k : Nat, k < r.Chars.length → ((k : Int) < r.Left ∨ r.Right ≤ (k : Int)) → r.Chars.getD k 0 = UNICODE_SPACE

/-- An environment whose `InsertAttrRuns` keeps the run that it is handed at
the end of the list of the row. -/
def exRunEnv : Env := { exEnv with InsertAttrRuns := fun runs run _ _ _ => runs ++ [run] }

/-- The indices of `LocalBuffer` (and of `LocalBufferA`) at which the
character loop (lines 364 to 411) stores a cell, in order: `i` for a
single-width character, `i` and `i + 1` for a double-width one. -/
def charLoop_stores (env : Env) (W : Int) : List (WCHAR × BYTE) → Nat → Int → List Nat
  | [], _, _ => []
  | (c, a) :: rest, i, X =>
    if i < LOCAL_BUFFER_SIZE ∧ X < W then
      if c ≥ UNICODE_SPACE then
        if env.IsCharFullWidth c then
          if i < LOCAL_BUFFER_SIZE - 1 ∧ X < W - 1 then
            i :: (i + 1) :: (if attrChanges a rest then [] else charLoop_stores env W rest (i + 2) (X + 2))
          else []
        else
          i :: (if attrChanges a rest then [] else charLoop_stores env W rest (i + 1) (X + 1))
      else
        if attrChanges a rest then [] else charLoop_stores env W rest i X
    else []


/-- The buffer of a fresh conversion area of 20 columns (a blank row, the
attribute 7), with the cursor at column `x` and the attribute `attr` set. -/
def exBuffer (x : Int) (attr : WORD) : SCREEN_INFORMATION :=
  { (exArea 0 { Left := 0, Top := 0, Right := 0, Bottom := 0 } { X := 0, Y := 0 }).ScreenBuffer with
    CursorPosition := { X := x, Y := 0 }
    Attributes := attr }


/-! ## Flag arithmetic -/

theorem or_hidden_ne_zero (m : Nat) : (m ||| CA_HIDDEN) &&& CA_HIDDEN ≠ 0 := by
  unfold CA_HIDDEN
  have h : (m ||| 1) % 2 = 1 := Nat.or_mod_two_eq_one.2 (Or.inr rfl)
  rw [Nat.and_one_is_mod]
  omega

theorem clear_hidden_eq_zero (m : Nat) : clearFlag m CA_HIDDEN &&& CA_HIDDEN = 0 := by
  unfold clearFlag CA_HIDDEN
  rw [Nat.and_assoc]
  simp

/-! ## Redraw coordinator -/

theorem clip_valid (a v d b w e : Int) (h : max (max a v) d ≤ min (min b w) e) :
    max a v ≤ min b w := by
  omega

theorem WriteConvRegionToScreen_area_noRender (scr : SCREEN_INFORMATION)
    (ca : CONVERSIONAREA_INFORMATION) (dirty : SMALL_RECT) :
    WriteConvRegionToScreen_area scr false ca dirty = none := by
  unfold WriteConvRegionToScreen_area
  simp

theorem WriteConvRegionToScreen_area_eq (scr : SCREEN_INFORMATION)
    (ca : CONVERSIONAREA_INFORMATION) (dirty : SMALL_RECT) :
    WriteConvRegionToScreen_area scr true ca dirty = invalidateRequest scr.BufferViewport dirty ca := by
  have e1 : scr.BufferViewport.Left + ca.CaInfo.rcViewCaWindow.Left + ca.CaInfo.coordConView.X
      = scr.BufferViewport.Left + ca.CaInfo.coordConView.X + ca.CaInfo.rcViewCaWindow.Left := by ring
  have e2 : scr.BufferViewport.Left + ca.CaInfo.coordConView.X + ca.CaInfo.rcViewCaWindow.Left +
      (ca.CaInfo.rcViewCaWindow.Right - ca.CaInfo.rcViewCaWindow.Left)
      = scr.BufferViewport.Left + ca.CaInfo.coordConView.X + ca.CaInfo.rcViewCaWindow.Right := by ring
  have e3 : scr.BufferViewport.Top + ca.CaInfo.rcViewCaWindow.Top + ca.CaInfo.coordConView.Y
      = scr.BufferViewport.Top + ca.CaInfo.coordConView.Y + ca.CaInfo.rcViewCaWindow.Top := by ring
  have e4 : scr.BufferViewport.Top + ca.CaInfo.coordConView.Y + ca.CaInfo.rcViewCaWindow.Top +
      (ca.CaInfo.rcViewCaWindow.Bottom - ca.CaInfo.rcViewCaWindow.Top)
      = scr.BufferViewport.Top + ca.CaInfo.coordConView.Y + ca.CaInfo.rcViewCaWindow.Bottom := by ring
  unfold WriteConvRegionToScreen_area invalidateRequest intersect3 absoluteRect IsValidSmallRect
  by_cases hh : ca.ConversionAreaMode &&& CA_HIDDEN = 0
  · simp only [hh, if_true, ne_eq, not_true_eq_false, if_false, e1, e2, e3, e4,
      Bool.and_eq_true, decide_eq_true_eq, ge_iff_le]
    by_cases h3 : (max (max (scr.BufferViewport.Left + ca.CaInfo.coordConView.X + ca.CaInfo.rcViewCaWindow.Left)
          scr.BufferViewport.Left) dirty.Left ≤
        min (min (scr.BufferViewport.Left + ca.CaInfo.coordConView.X + ca.CaInfo.rcViewCaWindow.Right)
          scr.BufferViewport.Right) dirty.Right) ∧
        (max (max (scr.BufferViewport.Top + ca.CaInfo.coordConView.Y + ca.CaInfo.rcViewCaWindow.Top)
          scr.BufferViewport.Top) dirty.Top ≤
        min (min (scr.BufferViewport.Top + ca.CaInfo.coordConView.Y + ca.CaInfo.rcViewCaWindow.Bottom)
          scr.BufferViewport.Bottom) dirty.Bottom)
    · have h1 := And.intro (clip_valid _ _ _ _ _ _ h3.1) (clip_valid _ _ _ _ _ _ h3.2)
      rw [if_pos h1, if_pos h3]
    · rw [if_neg h3]
      split_ifs <;> rfl
  · simp [hh]

theorem WriteConvRegionToScreen_walk_eq (scr : SCREEN_INFORMATION) (dirty : SMALL_RECT)
    (chain : List CONVERSIONAREA_INFORMATION) :
    WriteConvRegionToScreen_walk scr true dirty chain
      = chain.filterMap (invalidateRequest scr.BufferViewport dirty) := by
  induction chain with
  | nil => rfl
  | cons ca rest ih =>
    simp only [WriteConvRegionToScreen_walk, List.filterMap_cons, WriteConvRegionToScreen_area_eq, ih]
    cases invalidateRequest scr.BufferViewport dirty ca <;> rfl

theorem WriteConvRegionToScreen_walk_noRender (scr : SCREEN_INFORMATION) (dirty : SMALL_RECT)
    (chain : List CONVERSIONAREA_INFORMATION) :
    WriteConvRegionToScreen_walk scr false dirty chain = [] := by
  induction chain with
  | nil => rfl
  | cons ca rest ih =>
    simp only [WriteConvRegionToScreen_walk, WriteConvRegionToScreen_area_noRender, ih]

/-- C7: `WriteConvRegionToScreen` issues no redraw request when the surface is
not the active one (or no renderer exists); otherwise it issues, in chain
order, exactly the requests `invalidateRequest` gives: one for each conversion
area that is not hidden and whose absolute rectangle meets both the viewport
and the dirty rectangle, namely the three-way intersection with `Right` and
`Bottom` increased by one. -/
theorem C7_WriteConvRegionToScreen_requests (scr : SCREEN_INFORMATION) (pRender : Bool)
    (chain : List CONVERSIONAREA_INFORMATION) (dirtyRect : SMALL_RECT) :
    WriteConvRegionToScreen scr pRender chain dirtyRect =
      if scr.IsActiveScreenBuffer = true ∧ pRender = true then
        chain.filterMap (invalidateRequest scr.BufferViewport dirtyRect)
      else [] := by
  unfold WriteConvRegionToScreen
  cases hA : scr.IsActiveScreenBuffer <;> cases pRender <;>
    simp [WriteConvRegionToScreen_walk_eq, WriteConvRegionToScreen_walk_noRender]

theorem ConsoleImePaint_hidden (g : CONSOLE_INFORMATION) (h : Nat) (scr : SCREEN_INFORMATION)
    (hs : g.CurrentScreenBuffer = some scr) (hh : (g.ConvAreas h).ConversionAreaMode &&& CA_HIDDEN ≠ 0) :
    ConsoleImePaint g (some h) =
      { g with Redraws := g.Redraws ++
          [RedrawRequest.WriteToScreen (ConsoleImePaint_WriteRegion scr (g.ConvAreas h))] } := by
  simp only [ConsoleImePaint, hs, if_neg hh]

theorem ConsoleImePaint_visible (g : CONSOLE_INFORMATION) (h : Nat) (scr : SCREEN_INFORMATION)
    (hs : g.CurrentScreenBuffer = some scr) (hh : (g.ConvAreas h).ConversionAreaMode &&& CA_HIDDEN = 0) :
    ConsoleImePaint g (some h) =
      { g with Redraws := g.Redraws ++ List.map RedrawRequest.TriggerRedraw (WriteConvRegionToScreen scr
          g.pRender ((chainFrom g.ConsoleIme.ConvAreaRoot h).map g.ConvAreas)
          (ConsoleImePaint_WriteRegion scr (g.ConvAreas h))) } := by
  simp only [ConsoleImePaint, hs, if_pos hh]

/-- Painting changes nothing but the list of redraw requests. -/
theorem ConsoleImePaint_frame (g : CONSOLE_INFORMATION) (p : Option Nat) :
    ∃ l, ConsoleImePaint g p = { g with Redraws := g.Redraws ++ l } := by
  unfold ConsoleImePaint
  split
  · exact ⟨[], by simp⟩
  · split
    · exact ⟨[], by simp⟩
    · split <;> exact ⟨_, rfl⟩

theorem ConsoleImePaint_ConvAreas (g : CONSOLE_INFORMATION) (p : Option Nat) :
    (ConsoleImePaint g p).ConvAreas = g.ConvAreas := by
  obtain ⟨l, hl⟩ := ConsoleImePaint_frame g p
  rw [hl]

theorem ConsoleImePaint_ConsoleIme (g : CONSOLE_INFORMATION) (p : Option Nat) :
    (ConsoleImePaint g p).ConsoleIme = g.ConsoleIme := by
  obtain ⟨l, hl⟩ := ConsoleImePaint_frame g p
  rw [hl]

theorem ConsoleImePaint_CurrentScreenBuffer (g : CONSOLE_INFORMATION) (p : Option Nat) :
    (ConsoleImePaint g p).CurrentScreenBuffer = g.CurrentScreenBuffer := by
  obtain ⟨l, hl⟩ := ConsoleImePaint_frame g p
  rw [hl]

theorem ConsoleImePaint_nAlloc (g : CONSOLE_INFORMATION) (p : Option Nat) :
    (ConsoleImePaint g p).nAlloc = g.nAlloc := by
  obtain ⟨l, hl⟩ := ConsoleImePaint_frame g p
  rw [hl]

theorem ConsoleImePaint_InputBuffer (g : CONSOLE_INFORMATION) (p : Option Nat) :
    (ConsoleImePaint g p).InputBuffer = g.InputBuffer := by
  obtain ⟨l, hl⟩ := ConsoleImePaint_frame g p
  rw [hl]

/-- C8: `ConsoleImePaint` has no effect when the conversion area is null or no
primary surface exists.  Otherwise there is a rectangle `R` with
`Left = viewport.Left + viewOffset.X + localViewRect.Left`,
`Top = viewport.Top + viewOffset.Y + localViewRect.Top` and the width and
height of `localViewRect` such that a hidden area gives exactly one
`WriteToScreen` request for `R` and an area that is not hidden gives the
requests of `WriteConvRegionToScreen` with dirty rectangle `R`.  In no case is
a field of a conversion area changed. -/
theorem C8_ConsoleImePaint (g : CONSOLE_INFORMATION) (p : Option Nat) :
    ((p = none ∨ g.CurrentScreenBuffer = none) → ConsoleImePaint g p = g) ∧
    (∀ h scr, p = some h → g.CurrentScreenBuffer = some scr →
      ∃ R : SMALL_RECT,
        R.Left = scr.BufferViewport.Left + (g.ConvAreas h).CaInfo.coordConView.X +
          (g.ConvAreas h).CaInfo.rcViewCaWindow.Left ∧
        R.Top = scr.BufferViewport.Top + (g.ConvAreas h).CaInfo.coordConView.Y +
          (g.ConvAreas h).CaInfo.rcViewCaWindow.Top ∧
        R.Right - R.Left =
          (g.ConvAreas h).CaInfo.rcViewCaWindow.Right - (g.ConvAreas h).CaInfo.rcViewCaWindow.Left ∧
        R.Bottom - R.Top =
          (g.ConvAreas h).CaInfo.rcViewCaWindow.Bottom - (g.ConvAreas h).CaInfo.rcViewCaWindow.Top ∧
        ((g.ConvAreas h).ConversionAreaMode &&& CA_HIDDEN ≠ 0 →
          ConsoleImePaint g p = { g with Redraws := g.Redraws ++ [RedrawRequest.WriteToScreen R] }) ∧
        ((g.ConvAreas h).ConversionAreaMode &&& CA_HIDDEN = 0 →
          ConsoleImePaint g p =
            { g with Redraws := g.Redraws ++ List.map RedrawRequest.TriggerRedraw (WriteConvRegionToScreen
                scr g.pRender ((chainFrom g.ConsoleIme.ConvAreaRoot h).map g.ConvAreas) R) })) ∧
    (ConsoleImePaint g p).ConvAreas = g.ConvAreas := by
  refine ⟨?_, ?_, ConsoleImePaint_ConvAreas g p⟩
  · rintro (hp | hs)
    · subst hp; rfl
    · cases p with
      | none => rfl
      | some h => simp [ConsoleImePaint, hs]
  · intro h scr hp hs
    subst hp
    refine ⟨_, rfl, rfl, ?_, ?_, fun hh => ConsoleImePaint_hidden g h scr hs hh,
      fun hh => ConsoleImePaint_visible g h scr hs hh⟩
    · simp only [ConsoleImePaint_WriteRegion]; ring
    · simp only [ConsoleImePaint_WriteRegion]; ring

/-- C8 at a concrete console: a null conversion area, and a hidden one-row
area at offset `(0, 3)` showing columns 2 to 5. -/
theorem C8_ConsoleImePaint_witness :
    ConsoleImePaint (exConsole 18 []) none = exConsole 18 [] ∧
    ∃ R : SMALL_RECT, R.Left = 0 + 0 + 2 ∧ R.Top = 0 + 3 + 0 ∧ R.Right - R.Left = 5 - 2 ∧
      R.Bottom - R.Top = 0 - 0 ∧
      (ConsoleImePaint
        (exConsole 18 [exArea CA_HIDDEN { Left := 2, Top := 0, Right := 5, Bottom := 0 } { X := 0, Y := 3 }])
        (some 0)).Redraws = [RedrawRequest.WriteToScreen R] :=
  ⟨(C8_ConsoleImePaint (exConsole 18 []) none).1 (Or.inl rfl),
    ((C8_ConsoleImePaint
        (exConsole 18 [exArea CA_HIDDEN { Left := 2, Top := 0, Right := 5, Bottom := 0 } { X := 0, Y := 3 }])
        (some 0)).2.1 0 (exScreen 20 10 18 3) rfl rfl).elim
      (fun R hR => ⟨R, hR.1, hR.2.1, hR.2.2.1, hR.2.2.2.1, by rw [hR.2.2.2.2.1 (by decide)]; rfl⟩)⟩

theorem SMALL_RECT_ne_iff (a b : SMALL_RECT) :
    (a.Left ≠ b.Left ∨ a.Top ≠ b.Top ∨ a.Right ≠ b.Right ∨ a.Bottom ≠ b.Bottom) ↔ a ≠ b := by
  cases a; cases b
  simp only [ne_eq, SMALL_RECT.mk.injEq]
  tauto

theorem setArea_ConvAreas_self (g : CONSOLE_INFORMATION) (h : Nat) (ca : CONVERSIONAREA_INFORMATION) :
    (setArea g h ca).ConvAreas h = ca := by
  simp [setArea]

theorem setArea_ConvAreas_other (g : CONSOLE_INFORMATION) (h k : Nat) (ca : CONVERSIONAREA_INFORMATION)
    (hk : k ≠ h) : (setArea g h ca).ConvAreas k = g.ConvAreas k := by
  simp [setArea, hk]

/-- C9: `ConsoleImeWindowInfo` changes nothing (and paints nothing) when the
new rectangle equals `rcViewCaWindow`; on a hidden area with a different
rectangle it only stores the rectangle; on a visible area with a different
rectangle it is two paint passes, the first on the area marked hidden and
still holding the old rectangle, the second on the area with the flag cleared
and holding the new rectangle, which is how the area ends. -/
theorem C9_ConsoleImeWindowInfo (g : CONSOLE_INFORMATION) (h : Nat) (rc : SMALL_RECT) :
    (rc = (g.ConvAreas h).CaInfo.rcViewCaWindow → ConsoleImeWindowInfo g h rc = g) ∧
    (rc ≠ (g.ConvAreas h).CaInfo.rcViewCaWindow → (g.ConvAreas h).ConversionAreaMode &&& CA_HIDDEN ≠ 0 →
      ConsoleImeWindowInfo g h rc =
          setArea g h { g.ConvAreas h with CaInfo := { (g.ConvAreas h).CaInfo with rcViewCaWindow := rc } } ∧
        (ConsoleImeWindowInfo g h rc).Redraws = g.Redraws) ∧
    (rc ≠ (g.ConvAreas h).CaInfo.rcViewCaWindow → (g.ConvAreas h).ConversionAreaMode &&& CA_HIDDEN = 0 →
      ∃ first second : CONVERSIONAREA_INFORMATION,
        ConsoleImeWindowInfo g h rc =
          ConsoleImePaint (setArea (ConsoleImePaint (setArea g h first) (some h)) h second) (some h) ∧
        first.ConversionAreaMode &&& CA_HIDDEN ≠ 0 ∧
        first.CaInfo.rcViewCaWindow = (g.ConvAreas h).CaInfo.rcViewCaWindow ∧
        second.ConversionAreaMode &&& CA_HIDDEN = 0 ∧
        second.CaInfo.rcViewCaWindow = rc ∧
        (ConsoleImeWindowInfo g h rc).ConvAreas h = second) := by
  refine ⟨?_, ?_, ?_⟩
  · intro he
    have hn : ¬ (rc.Left ≠ (g.ConvAreas h).CaInfo.rcViewCaWindow.Left ∨
        rc.Top ≠ (g.ConvAreas h).CaInfo.rcViewCaWindow.Top ∨
        rc.Right ≠ (g.ConvAreas h).CaInfo.rcViewCaWindow.Right ∨
        rc.Bottom ≠ (g.ConvAreas h).CaInfo.rcViewCaWindow.Bottom) := by
      rw [SMALL_RECT_ne_iff]; exact not_not.2 he
    simp only [ConsoleImeWindowInfo, if_neg hn]
  · intro hne hh
    have hd := (SMALL_RECT_ne_iff rc (g.ConvAreas h).CaInfo.rcViewCaWindow).2 hne
    have he : ConsoleImeWindowInfo g h rc =
        setArea g h { g.ConvAreas h with CaInfo := { (g.ConvAreas h).CaInfo with rcViewCaWindow := rc } } := by
      simp only [ConsoleImeWindowInfo, if_pos hd, if_neg hh]
    exact ⟨he, by rw [he]; rfl⟩
  · intro hne hh
    have hd := (SMALL_RECT_ne_iff rc (g.ConvAreas h).CaInfo.rcViewCaWindow).2 hne
    refine ⟨{ g.ConvAreas h with ConversionAreaMode := (g.ConvAreas h).ConversionAreaMode ||| CA_HIDDEN },
      { g.ConvAreas h with
        ConversionAreaMode := clearFlag ((g.ConvAreas h).ConversionAreaMode ||| CA_HIDDEN) CA_HIDDEN,
        CaInfo := { (g.ConvAreas h).CaInfo with rcViewCaWindow := rc } }, ?_, ?_, rfl, ?_, rfl, ?_⟩
    · simp only [ConsoleImeWindowInfo, if_pos hd, if_pos hh]
    · exact or_hidden_ne_zero _
    · exact clear_hidden_eq_zero _
    · simp only [ConsoleImeWindowInfo, if_pos hd, if_pos hh, ConsoleImePaint_ConvAreas,
        setArea_ConvAreas_self]

/-- C9 at a concrete console: a visible area showing columns 0 to 3 is given
the rectangle of columns 0 to 5; it ends visible with that rectangle. -/
theorem C9_ConsoleImeWindowInfo_witness :
    ∃ first second : CONVERSIONAREA_INFORMATION,
      ConsoleImeWindowInfo
          (exConsole 18 [exArea 0 { Left := 0, Top := 0, Right := 3, Bottom := 0 } { X := 0, Y := 3 }]) 0
          { Left := 0, Top := 0, Right := 5, Bottom := 0 } =
        ConsoleImePaint
          (setArea
            (ConsoleImePaint
              (setArea
                (exConsole 18 [exArea 0 { Left := 0, Top := 0, Right := 3, Bottom := 0 } { X := 0, Y := 3 }])
                0 first)
              (some 0))
            0 second)
          (some 0) ∧
      first.ConversionAreaMode &&& CA_HIDDEN ≠ 0 ∧
      first.CaInfo.rcViewCaWindow = { Left := 0, Top := 0, Right := 3, Bottom := 0 } ∧
      second.ConversionAreaMode &&& CA_HIDDEN = 0 ∧
      second.CaInfo.rcViewCaWindow = { Left := 0, Top := 0, Right := 5, Bottom := 0 } ∧
      (ConsoleImeWindowInfo
          (exConsole 18 [exArea 0 { Left := 0, Top := 0, Right := 3, Bottom := 0 } { X := 0, Y := 3 }]) 0
          { Left := 0, Top := 0, Right := 5, Bottom := 0 }).ConvAreas 0 = second :=
  (C9_ConsoleImeWindowInfo
    (exConsole 18 [exArea 0 { Left := 0, Top := 0, Right := 3, Bottom := 0 } { X := 0, Y := 3 }]) 0
    { Left := 0, Top := 0, Right := 5, Bottom := 0 }).2.2 (by decide) (by decide)

/-- C10: `ConsoleImeViewInfo` issues no redraw request for a hidden area and,
for a visible one, exactly two: the rectangle at the old offset, then the
rectangle at the new offset.  In both cases the offset is the new one
afterwards, and the mode, the rectangle, the buffer size, the other conversion
areas and the chain are unchanged. -/
theorem C10_ConsoleImeViewInfo (g : CONSOLE_INFORMATION) (h : Nat) (newOffset : COORD) :
    ((g.ConvAreas h).ConversionAreaMode &&& CA_HIDDEN ≠ 0 →
      (ConsoleImeViewInfo g h newOffset).Redraws = g.Redraws) ∧
    ((g.ConvAreas h).ConversionAreaMode &&& CA_HIDDEN = 0 →
      (ConsoleImeViewInfo g h newOffset).Redraws = g.Redraws ++
        [RedrawRequest.WriteToScreen
            (translateRect (g.ConvAreas h).CaInfo.rcViewCaWindow (g.ConvAreas h).CaInfo.coordConView),
          RedrawRequest.WriteToScreen (translateRect (g.ConvAreas h).CaInfo.rcViewCaWindow newOffset)]) ∧
    ((ConsoleImeViewInfo g h newOffset).ConvAreas h).CaInfo.coordConView = newOffset ∧
    ((ConsoleImeViewInfo g h newOffset).ConvAreas h).ConversionAreaMode = (g.ConvAreas h).ConversionAreaMode ∧
    ((ConsoleImeViewInfo g h newOffset).ConvAreas h).CaInfo.rcViewCaWindow =
      (g.ConvAreas h).CaInfo.rcViewCaWindow ∧
    ((ConsoleImeViewInfo g h newOffset).ConvAreas h).CaInfo.coordCaBuffer =
      (g.ConvAreas h).CaInfo.coordCaBuffer ∧
    ((ConsoleImeViewInfo g h newOffset).ConvAreas h).ScreenBuffer = (g.ConvAreas h).ScreenBuffer ∧
    (∀ k, k ≠ h → (ConsoleImeViewInfo g h newOffset).ConvAreas k = g.ConvAreas k) ∧
    (ConsoleImeViewInfo g h newOffset).ConsoleIme.ConvAreaRoot = g.ConsoleIme.ConvAreaRoot ∧
    (ConsoleImeViewInfo g h newOffset).ConsoleIme.ConvAreaCompStr = g.ConsoleIme.ConvAreaCompStr := by
  by_cases hh : (g.ConvAreas h).ConversionAreaMode &&& CA_HIDDEN = 0
  · refine ⟨fun hc => absurd hh hc, fun _ => ?_, ?_, ?_, ?_, ?_, ?_, ?_, ?_, ?_⟩
    · simp [ConsoleImeViewInfo, hh, setArea, translateRect]
    all_goals simp [ConsoleImeViewInfo, hh, setArea]
    · intro k hk hk2; exact absurd hk2 hk
  · refine ⟨fun _ => ?_, fun hc => absurd hc hh, ?_, ?_, ?_, ?_, ?_, ?_, ?_, ?_⟩
    all_goals simp [ConsoleImeViewInfo, hh, setArea]
    · intro k hk hk2; exact absurd hk2 hk

/-- C10 at a concrete console: a visible area showing columns 0 to 3 at offset
`(0, 3)` is moved to offset `(0, 5)`. -/
theorem C10_ConsoleImeViewInfo_witness :
    (ConsoleImeViewInfo
        (exConsole 18 [exArea 0 { Left := 0, Top := 0, Right := 3, Bottom := 0 } { X := 0, Y := 3 }]) 0
        { X := 0, Y := 5 }).Redraws =
      [] ++ [RedrawRequest.WriteToScreen { Left := 0, Top := 3, Right := 3, Bottom := 3 },
        RedrawRequest.WriteToScreen { Left := 0, Top := 5, Right := 3, Bottom := 5 }] :=
  (C10_ConsoleImeViewInfo
    (exConsole 18 [exArea 0 { Left := 0, Top := 0, Right := 3, Bottom := 0 } { X := 0, Y := 3 }]) 0
    { X := 0, Y := 5 }).2.1 (by decide)

/-! ## Committed strings and the determined state -/

theorem fillInputEvents_eq (ctl : Nat) (lpStr : List WCHAR) :
    fillInputEvents ctl lpStr =
      (lpStr.takeWhile (fun c => c != 0)).map (fun c =>
        { bKeyDown := true, wVirtualKeyCode := 0, wVirtualScanCode := 0,
          dwControlKeyState := ctl, UnicodeChar := c, wRepeatCount := 1 }) := by
  induction lpStr with
  | nil => rfl
  | cons c rest ih =>
    by_cases hc : c = 0
    · simp [fillInputEvents, hc]
    · simp [fillInputEvents, hc, ih, List.takeWhile_cons]

theorem getD_takeWhile {α : Type} (p : α → Bool) (d : α) (l : List α) (k : Nat)
    (hk : k < (l.takeWhile p).length) : (l.takeWhile p).getD k d = l.getD k d := by
  induction l generalizing k with
  | nil => simp at hk
  | cons a rest ih =>
    by_cases ha : p a = true
    · simp only [List.takeWhile_cons, ha, if_true] at hk ⊢
      cases k with
      | zero => rfl
      | succ n =>
        simp only [List.length_cons, Nat.add_lt_add_iff_right] at hk
        simpa using ih n hk
    · simp [List.takeWhile_cons, ha] at hk

/-- C5: when the primary surface exists and the array of input records is
allocated, `InsertConvertedString` returns `true` and appends exactly one
batch to the input queue; the batch has as many events as the string has
characters before its terminator, and its `k`-th event is a key-down event for
the `k`-th character with virtual-key code 0, scan code 0, repeat count 1 and
the modifier state read once by the call. -/
theorem C5_InsertConvertedString_events (env : Env) (g : CONSOLE_INFORMATION) (scr : SCREEN_INFORMATION)
    (lpStr : List WCHAR) (hs : g.CurrentScreenBuffer = some scr) (hnew : env.newFails g.nAlloc = false) :
    ∃ g1 batch, InsertConvertedString env g lpStr = some (true, g1) ∧
      g1.InputBuffer = g.InputBuffer ++ [batch] ∧
      batch.length = wcslen lpStr ∧
      ∀ k, k < wcslen lpStr →
        batch.get? k = some
          { bKeyDown := true, wVirtualKeyCode := 0, wVirtualScanCode := 0,
            dwControlKeyState := env.GetControlKeyState, UnicodeChar := lpStr.getD k 0, wRepeatCount := 1 } := by
  refine ⟨{ g with
      CurrentScreenBuffer := some (if scr.CursorOn then env.TimerRoutine scr else scr),
      nAlloc := g.nAlloc + 1,
      InputBuffer := g.InputBuffer ++
        [(fillInputEvents env.GetControlKeyState lpStr).take (wcslen lpStr + 1 - 1)] },
    (fillInputEvents env.GetControlKeyState lpStr).take (wcslen lpStr + 1 - 1), ?_, rfl, ?_, ?_⟩
  · simp only [InsertConvertedString, hs, hnew]
    rfl
  · simp [fillInputEvents_eq, wcslen]
  · intro k hk
    have hk2 : k < (lpStr.takeWhile (fun c => c != 0)).length := hk
    simp only [fillInputEvents_eq, wcslen, Nat.add_sub_cancel, List.get?_eq_getElem?]
    rw [List.take_of_length_le (by simp)]
    rw [List.getElem?_map, List.getElem?_eq_getElem hk2]
    simp only [Option.map_some', Option.some.injEq, KEY_EVENT_RECORD.mk.injEq, true_and, and_true]
    have := getD_takeWhile (fun c => c != 0) 0 lpStr k hk2
    rw [List.getD_eq_getElem _ _ hk2] at this
    exact this

/-- C5 at a concrete console: the result string "abc" gives one batch of three
key-down events. -/
theorem C5_InsertConvertedString_events_witness :
    ∃ g1 batch, InsertConvertedString exEnv (exConsole 18 []) [97, 98, 99, 0] = some (true, g1) ∧
      g1.InputBuffer = (exConsole 18 []).InputBuffer ++ [batch] ∧
      batch.length = wcslen [97, 98, 99, 0] ∧
      ∀ k, k < wcslen [97, 98, 99, 0] →
        batch.get? k = some
          { bKeyDown := true, wVirtualKeyCode := 0, wVirtualScanCode := 0,
            dwControlKeyState := exEnv.GetControlKeyState, UnicodeChar := [97, 98, 99, 0].getD k 0,
            wRepeatCount := 1 } :=
  C5_InsertConvertedString_events exEnv (exConsole 18 []) (exScreen 20 10 18 3) [97, 98, 99, 0] rfl rfl

theorem FillUndetermineChars_spec (env : Env) (g g1 : CONSOLE_INFORMATION) (h : Nat)
    (hf : FillUndetermineChars env g h = some g1) :
    (g1.ConvAreas h).ConversionAreaMode &&& CA_HIDDEN ≠ 0 ∧
    (∀ k, k ≠ h → g1.ConvAreas k = g.ConvAreas k) ∧
    g1.ConsoleIme = g.ConsoleIme ∧
    g1.CurrentScreenBuffer = g.CurrentScreenBuffer ∧
    g1.InputBuffer = g.InputBuffer := by
  unfold FillUndetermineChars at hf
  rcases Option.eq_none_or_eq_some g.CurrentScreenBuffer with hs | ⟨scr, hs⟩
  · simp [hs] at hf
  · simp only [hs, Option.some.injEq] at hf
    subst hf
    refine ⟨?_, ?_, ?_, ?_, ?_⟩
    · rw [ConsoleImePaint_ConvAreas, setArea_ConvAreas_self]
      exact or_hidden_ne_zero _
    · intro k hk
      rw [ConsoleImePaint_ConvAreas, setArea_ConvAreas_other _ _ _ _ hk]
    · rw [ConsoleImePaint_ConsoleIme]; rfl
    · rw [ConsoleImePaint_CurrentScreenBuffer]; exact hs.symm ▸ rfl
    · rw [ConsoleImePaint_InputBuffer]; rfl

theorem FillUndetermineChars_isSome (env : Env) (g : CONSOLE_INFORMATION) (h : Nat) (scr : SCREEN_INFORMATION)
    (hs : g.CurrentScreenBuffer = some scr) : ∃ g1, FillUndetermineChars env g h = some g1 := by
  simp [FillUndetermineChars, hs]

/-- The clearing loop leaves every conversion area of its list hidden, keeps
hidden areas hidden, and touches neither the registry nor the primary surface. -/
theorem fillVisible_spec (env : Env) (l : List Nat) :
    ∀ (g g2 : CONSOLE_INFORMATION), fillVisible env g l = some g2 →
      (∀ h ∈ l, (g2.ConvAreas h).ConversionAreaMode &&& CA_HIDDEN ≠ 0) ∧
      (∀ k, (g.ConvAreas k).ConversionAreaMode &&& CA_HIDDEN ≠ 0 →
        (g2.ConvAreas k).ConversionAreaMode &&& CA_HIDDEN ≠ 0) ∧
      g2.ConsoleIme = g.ConsoleIme ∧
      g2.CurrentScreenBuffer = g.CurrentScreenBuffer ∧
      g2.InputBuffer = g.InputBuffer := by
  induction l with
  | nil =>
    intro g g2 hf
    simp only [fillVisible, Option.some.injEq] at hf
    subst hf
    exact ⟨by simp, fun _ hk => hk, rfl, rfl, rfl⟩
  | cons h rest ih =>
    intro g g2 hf
    by_cases hh : (g.ConvAreas h).ConversionAreaMode &&& CA_HIDDEN = 0
    · simp only [fillVisible, if_pos hh] at hf
      rcases hfill : FillUndetermineChars env g h with _ | g1
      · simp [hfill] at hf
      · simp only [hfill] at hf
        obtain ⟨a1, a2, a3, a4, a5⟩ := FillUndetermineChars_spec env g g1 h hfill
        obtain ⟨b1, b2, b3, b4, b5⟩ := ih g1 g2 hf
        refine ⟨?_, ?_, b3.trans a3, b4.trans a4, b5.trans a5⟩
        · intro k hk
          rcases List.mem_cons.1 hk with hk | hk
          · subst hk; exact b2 _ a1
          · exact b1 k hk
        · intro k hk
          apply b2
          by_cases hkh : k = h
          · subst hkh; exact a1
          · rw [a2 k hkh]; exact hk
    · simp only [fillVisible, if_neg hh] at hf
      obtain ⟨b1, b2, b3, b4, b5⟩ := ih g g2 hf
      refine ⟨?_, b2, b3, b4, b5⟩
      intro k hk
      rcases List.mem_cons.1 hk with hk | hk
      · subst hk; exact b2 _ hh
      · exact b1 k hk

theorem fillVisible_isSome (env : Env) (l : List Nat) :
    ∀ (g : CONSOLE_INFORMATION) (scr : SCREEN_INFORMATION), g.CurrentScreenBuffer = some scr →
      ∃ g2, fillVisible env g l = some g2 := by
  induction l with
  | nil => intro g scr _; exact ⟨g, rfl⟩
  | cons h rest ih =>
    intro g scr hs
    by_cases hh : (g.ConvAreas h).ConversionAreaMode &&& CA_HIDDEN = 0
    · obtain ⟨g1, hg1⟩ := FillUndetermineChars_isSome env g h scr hs
      have hs1 := (FillUndetermineChars_spec env g g1 h hg1).2.2.2.1
      obtain ⟨g2, hg2⟩ := ih g1 scr (hs1.trans hs)
      exact ⟨g2, by simp only [fillVisible, if_pos hh, hg1, hg2]⟩
    · obtain ⟨g2, hg2⟩ := ih g scr hs
      exact ⟨g2, by simp only [fillVisible, if_neg hh, hg2]⟩

theorem InsertConvertedString_frame (env : Env) (g g1 : CONSOLE_INFORMATION) (lpStr : List WCHAR) (b : Bool)
    (hi : InsertConvertedString env g lpStr = some (b, g1)) :
    g1.ConvAreas = g.ConvAreas ∧ g1.ConsoleIme = g.ConsoleIme := by
  unfold InsertConvertedString at hi
  rcases Option.eq_none_or_eq_some g.CurrentScreenBuffer with hs | ⟨scr, hs⟩
  · simp [hs] at hi
  · simp only [hs] at hi
    split at hi
    · simp only [Option.some.injEq, Prod.mk.injEq] at hi
      obtain ⟨_, rfl⟩ := hi
      exact ⟨rfl, rfl⟩
    · simp only [Option.some.injEq, Prod.mk.injEq] at hi
      obtain ⟨_, rfl⟩ := hi
      exact ⟨rfl, rfl⟩

theorem InsertConvertedString_isSome (env : Env) (g : CONSOLE_INFORMATION) (lpStr : List WCHAR)
    (scr : SCREEN_INFORMATION) (hs : g.CurrentScreenBuffer = some scr) :
    ∃ b g1, InsertConvertedString env g lpStr = some (b, g1) := by
  unfold InsertConvertedString
  simp only [hs]
  split
  · exact ⟨_, _, rfl⟩
  · exact ⟨_, _, rfl⟩

/-- C6: for a payload in the determined state (`dwCompStrLen = 0` or
`dwResultStrLen ≠ 0`), whenever `ConsoleImeCompStr` returns a success status,
every conversion area of `ConvAreaCompStr` is hidden afterwards and the saved
payload `CompStrData` is released; and the call does return when the primary
surface exists. -/
theorem C6_ConsoleImeCompStr_determined (env : Env) (fuel : Nat) (g : CONSOLE_INFORMATION)
    (CompStr : CONIME_UICOMPMESSAGE)
    (hdet : CompStr.dwCompStrLen = 0 ∨ CompStr.dwResultStrLen ≠ 0) :
    (∀ Status g1, ConsoleImeCompStr env fuel g CompStr = some (Status, g1) → NT_SUCCESS Status = true →
      (∀ h ∈ g1.ConsoleIme.ConvAreaCompStr, (g1.ConvAreas h).ConversionAreaMode &&& CA_HIDDEN ≠ 0) ∧
      g1.ConsoleIme.CompStrData = none) ∧
    (∀ scr, g.CurrentScreenBuffer = some scr →
      ∃ Status g1, ConsoleImeCompStr env fuel g CompStr = some (Status, g1)) := by
  constructor
  · intro Status g1 hret hok
    simp only [ConsoleImeCompStr, if_pos hdet] at hret
    split at hret
    · simp at hret
    · rename_i g0 hg0
      have hc : g0.ConsoleIme.ConvAreaCompStr = g.ConsoleIme.ConvAreaCompStr ∧ g0.ConvAreas = g.ConvAreas := by
        split at hg0
        · split at hg0
          · simp at hg0
          · simp only [Option.some.injEq] at hg0
            subst hg0
            exact ⟨rfl, rfl⟩
        · simp only [Option.some.injEq] at hg0
          subst hg0
          exact ⟨rfl, rfl⟩
      split at hret
      · simp at hret
      · rename_i g2 hg2
        obtain ⟨b1, _, b3, _, _⟩ := fillVisible_spec env _ g0 g2 hg2
        split at hret
        · simp at hret
        · simp only [Option.some.injEq, Prod.mk.injEq] at hret
          obtain ⟨rfl, _⟩ := hret
          simp [NT_SUCCESS, STATUS_INVALID_HANDLE] at hok
        · rename_i g3 hg3
          simp only [Option.some.injEq, Prod.mk.injEq] at hret
          obtain ⟨_, rfl⟩ := hret
          have hfr : g3.ConvAreas = g2.ConvAreas ∧ g3.ConsoleIme = g2.ConsoleIme := by
            split at hg3
            · exact InsertConvertedString_frame env g2 g3 _ true hg3
            · simp only [Option.some.injEq, Prod.mk.injEq, true_and] at hg3
              subst hg3
              exact ⟨rfl, rfl⟩
          refine ⟨?_, rfl⟩
          intro h hh
          simp only at hh ⊢
          rw [hfr.1]
          apply b1
          rw [hfr.2, b3] at hh
          exact hh
  · intro scr hs
    simp only [ConsoleImeCompStr, if_pos hdet]
    have h0 : ∃ g0 scr0, (if g.ConsoleIme.SavedCursorVisible then
            match g.CurrentScreenBuffer with
            | none => none
            | some cur =>
              some { g with
                ConsoleIme := { g.ConsoleIme with SavedCursorVisible := false }
                CurrentScreenBuffer := some (SetCursorInformation cur cur.CursorSize true) }
           else some g) = some g0 ∧ g0.CurrentScreenBuffer = some scr0 := by
      split
      · simp only [hs]
        exact ⟨_, _, rfl, rfl⟩
      · exact ⟨g, scr, rfl, hs⟩
    obtain ⟨g0, scr0, hg0, hs0⟩ := h0
    rw [hg0]
    obtain ⟨g2, hg2⟩ := fillVisible_isSome env g0.ConsoleIme.ConvAreaCompStr g0 scr0 hs0
    have hs2 := (fillVisible_spec env _ g0 g2 hg2).2.2.2.1
    simp only [hg2]
    by_cases hr : CompStr.dwResultStrLen ≠ 0
    · obtain ⟨b, g3, hg3⟩ := InsertConvertedString_isSome env g2 CompStr.ResultStr scr0 (hs2.trans hs0)
      simp only [if_pos hr, hg3]
      cases b
      · exact ⟨_, _, rfl⟩
      · exact ⟨_, _, rfl⟩
    · simp only [if_neg hr]
      exact ⟨_, _, rfl⟩

/-- C6 at a concrete console with one visible composition row and the payload
`exDetermined`. -/
theorem C6_ConsoleImeCompStr_determined_witness :
    (∀ Status g1, ConsoleImeCompStr exEnv 0 (exConsole 18 [exVisible]) exDetermined = some (Status, g1) →
      NT_SUCCESS Status = true →
      (∀ h ∈ g1.ConsoleIme.ConvAreaCompStr, (g1.ConvAreas h).ConversionAreaMode &&& CA_HIDDEN ≠ 0) ∧
      g1.ConsoleIme.CompStrData = none) ∧
    (∀ scr, (exConsole 18 [exVisible]).CurrentScreenBuffer = some scr →
      ∃ Status g1, ConsoleImeCompStr exEnv 0 (exConsole 18 [exVisible]) exDetermined = some (Status, g1)) :=
  C6_ConsoleImeCompStr_determined exEnv 0 (exConsole 18 [exVisible]) exDetermined (Or.inl rfl)

/-! ## What the steps of the streamer leave unchanged -/

theorem SameRegistry.reflReg (g : CONSOLE_INFORMATION) : SameRegistry g g :=
  ⟨rfl, rfl, rfl, rfl⟩

theorem SameRegistry.transReg {g g1 g2 : CONSOLE_INFORMATION} (h1 : SameRegistry g g1)
    (h2 : SameRegistry g1 g2) : SameRegistry g g2 :=
  ⟨h2.1.trans h1.1, h2.2.1.trans h1.2.1, h2.2.2.1.trans h1.2.2.1, h2.2.2.2.trans h1.2.2.2⟩

theorem OnlyArea.reflArea (h : Nat) (g : CONSOLE_INFORMATION) : OnlyArea h g g :=
  ⟨SameRegistry.reflReg g, fun _ _ => rfl⟩

theorem OnlyArea.transArea {h : Nat} {g g1 g2 : CONSOLE_INFORMATION} (h1 : OnlyArea h g g1)
    (h2 : OnlyArea h g1 g2) : OnlyArea h g g2 :=
  ⟨h1.1.transReg h2.1, fun k hk => (h2.2 k hk).trans (h1.2 k hk)⟩

theorem setArea_OnlyArea (g : CONSOLE_INFORMATION) (h : Nat) (ca : CONVERSIONAREA_INFORMATION) :
    OnlyArea h g (setArea g h ca) :=
  ⟨⟨rfl, rfl, rfl, rfl⟩, fun k hk => setArea_ConvAreas_other g h k ca hk⟩

theorem ConsoleImePaint_OnlyArea (g : CONSOLE_INFORMATION) (h : Nat) (p : Option Nat) :
    OnlyArea h g (ConsoleImePaint g p) := by
  obtain ⟨l, hl⟩ := ConsoleImePaint_frame g p
  rw [hl]
  exact ⟨⟨rfl, rfl, rfl, rfl⟩, fun _ _ => rfl⟩

theorem ConsoleImeViewInfo_OnlyArea (g : CONSOLE_INFORMATION) (h : Nat) (c : COORD) :
    OnlyArea h g (ConsoleImeViewInfo g h c) := by
  simp only [ConsoleImeViewInfo]
  split
  · exact setArea_OnlyArea _ _ _
  · exact ⟨⟨rfl, rfl, rfl, rfl⟩, fun k hk => setArea_ConvAreas_other g h k _ hk⟩

theorem ConsoleImeWindowInfo_OnlyArea (g : CONSOLE_INFORMATION) (h : Nat) (rc : SMALL_RECT) :
    OnlyArea h g (ConsoleImeWindowInfo g h rc) := by
  simp only [ConsoleImeWindowInfo]
  split
  · split
    · exact (((setArea_OnlyArea g h _).transArea (ConsoleImePaint_OnlyArea _ h _)).transArea
        (setArea_OnlyArea _ h _)).transArea (ConsoleImePaint_OnlyArea _ h _)
    · exact setArea_OnlyArea _ _ _
  · exact OnlyArea.reflArea h g

theorem writeChunk_OnlyArea (env : Env) (lpAtrIdx : Nat → WORD) (g : CONSOLE_INFORMATION) (h : Nat)
    (r : CharLoopExit) : OnlyArea h g (writeChunk env lpAtrIdx g h r) :=
  setArea_OnlyArea _ _ _

theorem finalizeRow_OnlyArea (g : CONSOLE_INFORMATION) (h : Nat) (RegionLeft : Int) :
    OnlyArea h g (finalizeRow g h RegionLeft) := by
  simp only [finalizeRow]
  exact ((ConsoleImeWindowInfo_OnlyArea g h _).transArea (setArea_OnlyArea _ h _)).transArea
    (ConsoleImePaint_OnlyArea _ h _)

theorem startRow_OnlyArea (g : CONSOLE_INFORMATION) (h idx : Nat) (X Y : Int) (up : Bool) :
    OnlyArea h g (startRow g h idx X Y up) := by
  simp only [startRow]
  split
  · exact (setArea_OnlyArea g h _).transArea (ConsoleImeViewInfo_OnlyArea _ h _)
  · exact setArea_OnlyArea _ _ _

/-- The closing loop leaves every conversion area of its list hidden, keeps
hidden areas hidden, and keeps the registry. -/
theorem hideRest_spec (l : List Nat) :
    ∀ g : CONSOLE_INFORMATION,
      (∀ h ∈ l, ((hideRest g l).ConvAreas h).ConversionAreaMode &&& CA_HIDDEN ≠ 0) ∧
      (∀ k, (g.ConvAreas k).ConversionAreaMode &&& CA_HIDDEN ≠ 0 →
        ((hideRest g l).ConvAreas k).ConversionAreaMode &&& CA_HIDDEN ≠ 0) ∧
      (∀ k, k ∉ l → (hideRest g l).ConvAreas k = g.ConvAreas k) ∧
      SameRegistry g (hideRest g l) := by
  induction l with
  | nil => intro g; exact ⟨by simp, fun _ hk => hk, fun _ _ => rfl, SameRegistry.reflReg g⟩
  | cons h rest ih =>
    intro g
    by_cases hh : (g.ConvAreas h).ConversionAreaMode &&& CA_HIDDEN = 0
    · simp only [hideRest, if_pos hh]
      obtain ⟨b1, b2, b3, b4⟩ := ih (ConsoleImePaint
        (setArea g h { g.ConvAreas h with ConversionAreaMode := (g.ConvAreas h).ConversionAreaMode ||| CA_HIDDEN })
        (some h))
      have hmid : ∀ k, (g.ConvAreas k).ConversionAreaMode &&& CA_HIDDEN ≠ 0 ∨ k = h →
          ((ConsoleImePaint (setArea g h { g.ConvAreas h with
              ConversionAreaMode := (g.ConvAreas h).ConversionAreaMode ||| CA_HIDDEN }) (some h)).ConvAreas
            k).ConversionAreaMode &&& CA_HIDDEN ≠ 0 := by
        intro k hk
        rw [ConsoleImePaint_ConvAreas]
        by_cases hkh : k = h
        · subst hkh; rw [setArea_ConvAreas_self]; exact or_hidden_ne_zero _
        · rw [setArea_ConvAreas_other _ _ _ _ hkh]; exact hk.resolve_right hkh
      refine ⟨?_, fun k hk => b2 k (hmid k (Or.inl hk)), ?_, ?_⟩
      · intro k hk
        rcases List.mem_cons.1 hk with hk | hk
        · exact b2 k (hmid k (Or.inr hk))
        · exact b1 k hk
      · intro k hk
        have hk1 : k ≠ h := fun e => hk (e ▸ List.mem_cons_self _ _)
        have hk2 : k ∉ rest := fun e => hk (List.mem_cons_of_mem _ e)
        rw [b3 k hk2, ConsoleImePaint_ConvAreas, setArea_ConvAreas_other _ _ _ _ hk1]
      · exact (((setArea_OnlyArea g h _).transArea (ConsoleImePaint_OnlyArea _ h _)).1).transReg b4
    · simp only [hideRest, if_neg hh]
      obtain ⟨b1, b2, b3, b4⟩ := ih g
      refine ⟨?_, b2, ?_, b4⟩
      · intro k hk
        rcases List.mem_cons.1 hk with hk | hk
        · subst hk; exact b2 _ hh
        · exact b1 k hk
      · intro k hk
        exact b3 k (fun e => hk (List.mem_cons_of_mem _ e))

/-! ## The character loop -/

theorem glyphCells_append (a b : List (WCHAR × Bool)) :
    glyphCells (a ++ b) = glyphCells a ++ glyphCells b := by
  induction a with
  | nil => rfl
  | cons g gs ih =>
    obtain ⟨c, w⟩ := g
    cases w <;> simp [glyphCells, ih]

theorem IsGlyphChunk_single (buf : List WCHAR) (bufA : List BYTE) (c : WCHAR)
    (h : IsGlyphChunk buf bufA) : IsGlyphChunk (buf ++ [c]) (bufA ++ [0]) := by
  obtain ⟨gs, h1, h2⟩ := h
  exact ⟨gs ++ [(c, false)], by simp [glyphCells_append, glyphCells, h1], by
    simp [glyphCells_append, glyphCells, h2]⟩

theorem IsGlyphChunk_double (buf : List WCHAR) (bufA : List BYTE) (c : WCHAR)
    (h : IsGlyphChunk buf bufA) :
    IsGlyphChunk (buf ++ [c, c]) (bufA ++ [ATTR_LEADING_BYTE, ATTR_TRAILING_BYTE]) := by
  obtain ⟨gs, h1, h2⟩ := h
  exact ⟨gs ++ [(c, true)], by simp [glyphCells_append, glyphCells, h1], by
    simp [glyphCells_append, glyphCells, h2]⟩

/-- The buffers of the character loop always hold whole glyphs. -/
theorem charLoop_IsGlyphChunk (env : Env) (W : Int) (rest : List (WCHAR × BYTE)) :
    ∀ (i : Nat) (X : Int) (Char : WCHAR) (Attr : WORD) (buf : List WCHAR) (bufA : List BYTE),
      IsGlyphChunk buf bufA →
      IsGlyphChunk (charLoop env W rest i X Char Attr buf bufA).LocalBuffer
        (charLoop env W rest i X Char Attr buf bufA).LocalBufferA := by
  induction rest with
  | nil => intro i X Char Attr buf bufA h; simpa [charLoop] using h
  | cons p rest ih =>
    obtain ⟨c, a⟩ := p
    intro i X Char Attr buf bufA h
    simp only [charLoop]
    split_ifs
    all_goals first
      | exact h
      | exact IsGlyphChunk_single _ _ _ h
      | exact IsGlyphChunk_double _ _ _ h
      | exact ih _ _ _ _ _ _ h
      | exact ih _ _ _ _ _ _ (IsGlyphChunk_single _ _ _ h)
      | exact ih _ _ _ _ _ _ (IsGlyphChunk_double _ _ _ h)

/-- The character loop consumes a prefix of its input. -/
theorem charLoop_suffix (env : Env) (W : Int) (rest : List (WCHAR × BYTE)) :
    ∀ (i : Nat) (X : Int) (Char : WCHAR) (Attr : WORD) (buf : List WCHAR) (bufA : List BYTE),
      (charLoop env W rest i X Char Attr buf bufA).rest <:+ rest := by
  induction rest with
  | nil => intro i X Char Attr buf bufA; simp [charLoop]
  | cons p rest ih =>
    obtain ⟨c, a⟩ := p
    intro i X Char Attr buf bufA
    simp only [charLoop]
    split_ifs
    all_goals first
      | exact List.suffix_refl _
      | exact List.suffix_cons _ _
      | exact (ih _ _ _ _ _ _).trans (List.suffix_cons _ _)

theorem EndsPrintable_tail (p q : WCHAR × BYTE) (rest : List (WCHAR × BYTE))
    (h : EndsPrintable (p :: q :: rest)) : EndsPrintable (q :: rest) := by
  intro x hx
  apply h x
  rw [List.getLast?_cons_cons]
  exact hx

theorem EndsPrintable_suffix {l1 l2 : List (WCHAR × BYTE)} (hs : l1 <:+ l2) (h : EndsPrintable l2) :
    EndsPrintable l1 := by
  obtain ⟨t, rfl⟩ := hs
  intro x hx
  apply h x
  cases l1 with
  | nil => simp at hx
  | cons a l => rw [List.getLast?_append_of_ne_nil _ (List.cons_ne_nil a l)]; exact hx

theorem attrChanges_nil_of_true (a : WORD) (rest : List (WCHAR × BYTE)) (h : attrChanges a rest = true) :
    rest ≠ [] := by
  cases rest with
  | nil => simp [attrChanges] at h
  | cons q r => exact List.cons_ne_nil _ _

/-- When the character loop consumes all of an input that ends in a printable
character, the chunk holds at least one cell. -/
theorem charLoop_i_ne_zero (env : Env) (W : Int) (rest : List (WCHAR × BYTE)) :
    ∀ (i : Nat) (X : Int) (Char : WCHAR) (Attr : WORD) (buf : List WCHAR) (bufA : List BYTE),
      rest ≠ [] → EndsPrintable rest →
      (charLoop env W rest i X Char Attr buf bufA).rest = [] →
      (charLoop env W rest i X Char Attr buf bufA).i ≠ 0 := by
  induction rest with
  | nil => intro i X Char Attr buf bufA h; exact absurd rfl h
  | cons p rest ih =>
    obtain ⟨c, a⟩ := p
    intro i X Char Attr buf bufA _ hp
    have hrec : ∀ (i1 : Nat) (X1 : Int) (b1 : List WCHAR) (b2 : List BYTE), (rest = [] → i1 ≠ 0) →
        (charLoop env W rest i1 X1 c a b1 b2).rest = [] → (charLoop env W rest i1 X1 c a b1 b2).i ≠ 0 := by
      intro i1 X1 b1 b2 h0
      cases rest with
      | nil => intro _; simpa [charLoop] using h0 rfl
      | cons q rest2 => exact ih _ _ _ _ _ _ (List.cons_ne_nil _ _) (EndsPrintable_tail _ _ _ hp)
    simp only [charLoop]
    split_ifs
    all_goals first
      | (intro hc; exact hc.elim)
      | (intro hc; exact absurd hc (attrChanges_nil_of_true _ _ (by assumption)))
      | exact hrec _ _ _ _ (fun _ => by omega)
      | (apply hrec; intro hr; subst hr; exact absurd (hp (c, a) rfl) (by assumption))

/-! ## The chunk loop -/

theorem IsGlyphChunk_nil : IsGlyphChunk [] [] := ⟨[], rfl, rfl⟩

/-- What every exit of the chunk loop satisfies: only the conversion area of
the row changed; the recorded row writer calls were extended by chunks of whole
glyphs written to this row; the input left is a suffix of the input; a
`return` carries `STATUS_SUCCESS`, and is not taken when the input ends in a
printable character. -/
theorem chunkLoop_inv (env : Env) (W : Int) (lpAtrIdx : Nat → WORD) (idx h : Nat) (RegionLeft : Int) :
    ∀ (fuel : Nat) (g : CONSOLE_INFORMATION) (rest : List (WCHAR × BYTE)) (X : Int) (writes : List IME_WRITE)
      (out : ChunkExit),
      chunkLoop env W lpAtrIdx idx h RegionLeft fuel g rest X writes = some out →
      OnlyArea h g out.state ∧
      (∃ ws, out.writes = writes ++ ws ∧
        ∀ w ∈ ws, IsGlyphChunk w.String w.StringA ∧ w.ConvAreaIndex = idx ∧ w.area = h) ∧
      (∀ g1 rest1 X1 w1, out = ChunkExit.toRowLoop g1 rest1 X1 w1 → rest1 <:+ rest) ∧
      (∀ st g1 w1, out = ChunkExit.returned st g1 w1 → st = STATUS_SUCCESS ∧ ¬ EndsPrintable rest) := by
  intro fuel
  induction fuel with
  | zero => intro g rest X writes out hout; simp [chunkLoop] at hout
  | succ fuel ih =>
    intro g rest X writes out hout
    have hrec : ∀ (g1 : CONSOLE_INFORMATION) (writes1 : List IME_WRITE),
        OnlyArea h g g1 →
        (∃ ws, writes1 = writes ++ ws ∧
          ∀ w ∈ ws, IsGlyphChunk w.String w.StringA ∧ w.ConvAreaIndex = idx ∧ w.area = h) →
        chunkLoop env W lpAtrIdx idx h RegionLeft fuel g1 (charLoop env W rest 0 X 0 0 [] []).rest
          (charLoop env W rest 0 X 0 0 [] []).PositionX writes1 = some out →
        OnlyArea h g out.state ∧
        (∃ ws, out.writes = writes ++ ws ∧
          ∀ w ∈ ws, IsGlyphChunk w.String w.StringA ∧ w.ConvAreaIndex = idx ∧ w.area = h) ∧
        (∀ g1 rest1 X1 w1, out = ChunkExit.toRowLoop g1 rest1 X1 w1 → rest1 <:+ rest) ∧
        (∀ st g1 w1, out = ChunkExit.returned st g1 w1 → st = STATUS_SUCCESS ∧ ¬ EndsPrintable rest) := by
      intro g1 writes1 hg1 hw1 hcall
      obtain ⟨a1, ⟨ws2, a2, a2b⟩, a3, a4⟩ := ih g1 _ _ writes1 out hcall
      obtain ⟨ws1, b1, b1b⟩ := hw1
      refine ⟨hg1.transArea a1, ⟨ws1 ++ ws2, by rw [a2, b1, List.append_assoc], ?_⟩, ?_, ?_⟩
      · intro w hw
        rcases List.mem_append.1 hw with hw | hw
        · exact b1b w hw
        · exact a2b w hw
      · intro g2 rest1 X1 w1 ho
        exact (a3 g2 rest1 X1 w1 ho).trans (charLoop_suffix env W rest 0 X 0 0 [] [])
      · intro st g2 w1 ho
        refine ⟨(a4 st g2 w1 ho).1, fun hp => (a4 st g2 w1 ho).2 ?_⟩
        exact EndsPrintable_suffix (charLoop_suffix env W rest 0 X 0 0 [] []) hp
    have hrecord : ∃ ws, writes ++ [chunkRecord lpAtrIdx g idx h (charLoop env W rest 0 X 0 0 [] [])] =
        writes ++ ws ∧ ∀ w ∈ ws, IsGlyphChunk w.String w.StringA ∧ w.ConvAreaIndex = idx ∧ w.area = h := by
      refine ⟨[_], rfl, ?_⟩
      intro w hw
      rw [List.mem_singleton] at hw
      subst hw
      exact ⟨charLoop_IsGlyphChunk env W rest 0 X 0 0 [] [] IsGlyphChunk_nil, rfl, rfl⟩
    simp only [chunkLoop] at hout
    split_ifs at hout with h1 h2 h3 h4 h5 h6
    · simp only [Option.some.injEq] at hout
      subst hout
      exact ⟨OnlyArea.reflArea h g, ⟨[], by simp [ChunkExit.writes], by simp⟩,
        fun _ _ _ _ ho => by cases ho; exact List.suffix_refl _, fun _ _ _ ho => by cases ho⟩
    · simp only [Option.some.injEq] at hout
      subst hout
      exact ⟨(writeChunk_OnlyArea env lpAtrIdx g h _).transArea (finalizeRow_OnlyArea _ h _), hrecord,
        fun _ _ _ _ ho => by cases ho; exact charLoop_suffix env W rest 0 X 0 0 [] [],
        fun _ _ _ ho => by cases ho⟩
    · exact absurd (Or.inl h4) h3
    · exact hrec _ _ (writeChunk_OnlyArea env lpAtrIdx g h _) hrecord hout
    · simp only [Option.some.injEq] at hout
      subst hout
      refine ⟨OnlyArea.reflArea h g, ⟨[], by simp [ChunkExit.writes], by simp⟩,
        fun _ _ _ _ ho => (by cases ho), ?_⟩
      intro st g1 w1 ho
      cases ho
      refine ⟨rfl, fun hp => ?_⟩
      have hne : rest ≠ [] := by
        intro hr; subst hr; simp at h1
      have hz := charLoop_i_ne_zero env W rest 0 X 0 0 [] [] hne hp (by simpa using h5)
      exact hz (by simpa using h2)
    · simp only [Option.some.injEq] at hout
      subst hout
      exact ⟨OnlyArea.reflArea h g, ⟨[], by simp [ChunkExit.writes], by simp⟩,
        fun _ _ _ _ ho => by cases ho; exact charLoop_suffix env W rest 0 X 0 0 [] [],
        fun _ _ _ ho => by cases ho⟩
    · exact hrec g writes (OnlyArea.reflArea h g) ⟨[], by simp, by simp⟩ hout

/-! ## Growing the registry -/

theorem STATUS_UNSUCCESSFUL_fails : NT_SUCCESS STATUS_UNSUCCESSFUL = false := by decide

theorem STATUS_NO_MEMORY_fails : NT_SUCCESS STATUS_NO_MEMORY = false := by decide

theorem AllocateConversionArea_spec (env : Env) (g : CONSOLE_INFORMATION) (size : COORD) :
    (AllocateConversionArea env g size).1.CurrentScreenBuffer = g.CurrentScreenBuffer ∧
    (AllocateConversionArea env g size).1.ConsoleIme = g.ConsoleIme ∧
    (∀ st, (AllocateConversionArea env g size).2 = Except.error st → NT_SUCCESS st = false) := by
  rcases Option.eq_none_or_eq_some g.CurrentScreenBuffer with hs | ⟨scr, hs⟩
  · simp [AllocateConversionArea, hs, STATUS_UNSUCCESSFUL_fails]
  · simp only [AllocateConversionArea, hs]
    split_ifs with h1 h2
    · refine ⟨rfl, rfl, ?_⟩
      intro st hst
      cases hst
      exact STATUS_NO_MEMORY_fails
    · refine ⟨rfl, rfl, ?_⟩
      intro st hst
      cases hst
      simpa using h2
    · refine ⟨rfl, rfl, ?_⟩
      intro st hst
      cases hst

theorem SetUpConversionArea_spec (env : Env) (g : CONSOLE_INFORMATION) (size : COORD) (rc : SMALL_RECT)
    (view : COORD) (opt : Nat) :
    (SetUpConversionArea env g size rc view opt).1.CurrentScreenBuffer = g.CurrentScreenBuffer ∧
    (SetUpConversionArea env g size rc view opt).1.ConsoleIme.ConvAreaCompStr = g.ConsoleIme.ConvAreaCompStr ∧
    (SetUpConversionArea env g size rc view opt).1.ConsoleIme.CompStrData = g.ConsoleIme.CompStrData ∧
    (∀ st, (SetUpConversionArea env g size rc view opt).2 = Except.error st → NT_SUCCESS st = false) := by
  obtain ⟨a1, a2, a3⟩ := AllocateConversionArea_spec env g size
  unfold SetUpConversionArea
  rcases hA : AllocateConversionArea env g size with ⟨g1, res⟩
  rw [hA] at a1 a2 a3
  simp only at a1 a2 a3
  cases res with
  | error st =>
    simp only
    exact ⟨a1, by rw [a2], by rw [a2], fun st1 h1 => a3 st1 h1⟩
  | ok h =>
    simp only
    have hL : ∀ g0 : CONSOLE_INFORMATION,
        (SetUndetermineAttribute (LinkConversionArea g0 h)).CurrentScreenBuffer = g0.CurrentScreenBuffer ∧
        (SetUndetermineAttribute (LinkConversionArea g0 h)).ConsoleIme.ConvAreaCompStr =
          g0.ConsoleIme.ConvAreaCompStr ∧
        (SetUndetermineAttribute (LinkConversionArea g0 h)).ConsoleIme.CompStrData =
          g0.ConsoleIme.CompStrData := by
      intro g0
      have hl : (LinkConversionArea g0 h).CurrentScreenBuffer = g0.CurrentScreenBuffer ∧
          (LinkConversionArea g0 h).ConsoleIme.ConvAreaCompStr = g0.ConsoleIme.ConvAreaCompStr ∧
          (LinkConversionArea g0 h).ConsoleIme.CompStrData = g0.ConsoleIme.CompStrData := by
        unfold LinkConversionArea
        split <;> exact ⟨rfl, rfl, rfl⟩
      unfold SetUndetermineAttribute
      split
      · exact hl
      · rename_i scr hscr
        exact ⟨hl.1, hl.2.1, hl.2.2⟩
    obtain ⟨b1, b2, b3⟩ := hL (setArea g1 h
      { g1.ConvAreas h with
        ConversionAreaMode := opt,
        CaInfo := { coordCaBuffer := size, rcViewCaWindow := rc, coordConView := view } })
    refine ⟨b1.trans a1, b2.trans (by rw [← a2]; rfl), b3.trans (by rw [← a2]; rfl), ?_⟩
    intro st hst
    cases hst

/-- Creating a composition row either fails, leaving `ConvAreaCompStr` as it
was, or appends exactly one conversion area to it. -/
theorem CreateConvAreaUndetermine_spec (env : Env) (g g1 : CONSOLE_INFORMATION) (Status : NTSTATUS)
    (hc : CreateConvAreaUndetermine env g = some (Status, g1)) :
    g1.CurrentScreenBuffer = g.CurrentScreenBuffer ∧
    (NT_SUCCESS Status = true → ∃ h, g1.ConsoleIme.ConvAreaCompStr = g.ConsoleIme.ConvAreaCompStr ++ [h]) ∧
    (NT_SUCCESS Status = false → g1.ConsoleIme.ConvAreaCompStr = g.ConsoleIme.ConvAreaCompStr) := by
  unfold CreateConvAreaUndetermine at hc
  rcases Option.eq_none_or_eq_some g.CurrentScreenBuffer with hs | ⟨scr, hs⟩
  · simp [hs] at hc
  · simp only [hs] at hc
    obtain ⟨a1, a2, _, a4⟩ := SetUpConversionArea_spec env g { X := scr.ScreenBufferSize.X, Y := 1 }
      { Left := 0, Top := 0, Right := 0, Bottom := 0 } { X := 0, Y := 0 } CA_HIDDEN
    rcases hS : SetUpConversionArea env g { X := scr.ScreenBufferSize.X, Y := 1 }
      { Left := 0, Top := 0, Right := 0, Bottom := 0 } { X := 0, Y := 0 } CA_HIDDEN with ⟨g2, res⟩
    rw [hS] at hc a1 a2 a4
    simp only at a1 a2 a4
    cases res with
    | error st =>
      simp only [Option.some.injEq, Prod.mk.injEq] at hc
      obtain ⟨rfl, rfl⟩ := hc
      have hf := a4 st rfl
      exact ⟨a1, fun ht => (by rw [hf] at ht; cases ht), fun _ => a2⟩
    | ok h =>
      simp only at hc
      split_ifs at hc with hp
      · simp only [Option.some.injEq, Prod.mk.injEq] at hc
        obtain ⟨rfl, rfl⟩ := hc
        exact ⟨a1, fun _ => ⟨h, by simp only [a2]⟩, fun ht => (by cases ht)⟩
      · simp only [Option.some.injEq, Prod.mk.injEq] at hc
        obtain ⟨rfl, rfl⟩ := hc
        exact ⟨a1, fun ht => absurd ht hp, fun _ => a2⟩

theorem growRegistry_spec (env : Env) (g g1 : CONSOLE_INFORMATION) (idx : Nat) (Status : NTSTATUS)
    (hc : growRegistry env g idx = some (Status, g1)) :
    g1.CurrentScreenBuffer = g.CurrentScreenBuffer ∧
    g.ConsoleIme.ConvAreaCompStr <+: g1.ConsoleIme.ConvAreaCompStr ∧
    (NT_SUCCESS Status = true → idx ≤ g.ConsoleIme.ConvAreaCompStr.length →
      g1.ConsoleIme.ConvAreaCompStr.length = max g.ConsoleIme.ConvAreaCompStr.length (idx + 1)) := by
  unfold growRegistry at hc
  split_ifs at hc with h1
  · obtain ⟨a1, a2, a3⟩ := CreateConvAreaUndetermine_spec env g g1 Status hc
    refine ⟨a1, ?_, ?_⟩
    · cases hn : NT_SUCCESS Status
      · rw [a3 hn]
      · obtain ⟨h, hh⟩ := a2 hn
        rw [hh]
        exact List.prefix_append _ _
    · intro hn hle
      obtain ⟨h, hh⟩ := a2 hn
      rw [hh, List.length_append, List.length_singleton]
      omega
  · simp only [Option.some.injEq, Prod.mk.injEq] at hc
    obtain ⟨rfl, rfl⟩ := hc
    refine ⟨rfl, List.prefix_refl _, ?_⟩
    intro _ _
    omega

/-! ## The row loop -/

/-- What every result of the row loop satisfies: the recorded row writer calls
were extended by chunks of whole glyphs; `ConvAreaCompStr` only grew at its
end; and when the input ends in a printable character and the status is a
success, every conversion area from index `rows` on is hidden. -/
theorem rowLoop_inv (env : Env) (W : Int) (lpAtrIdx : Nat → WORD) (PositionY : Int) (up : Bool) :
    ∀ (fuel : Nat) (g : CONSOLE_INFORMATION) (idx : Nat) (rest : List (WCHAR × BYTE)) (X : Int)
      (writes : List IME_WRITE) (r : StreamResult),
      rowLoop env W lpAtrIdx PositionY up fuel g idx rest X writes = some r →
      (∃ ws, r.writes = writes ++ ws ∧ ∀ w ∈ ws, IsGlyphChunk w.String w.StringA) ∧
      g.ConsoleIme.ConvAreaCompStr <+: r.g.ConsoleIme.ConvAreaCompStr ∧
      (EndsPrintable rest → NT_SUCCESS r.Status = true →
        ∀ h ∈ r.g.ConsoleIme.ConvAreaCompStr.drop r.rows,
          (r.g.ConvAreas h).ConversionAreaMode &&& CA_HIDDEN ≠ 0) := by
  intro fuel
  induction fuel with
  | zero => intro g idx rest X writes r hr; simp [rowLoop] at hr
  | succ fuel ih =>
    intro g idx rest X writes r hr
    simp only [rowLoop] at hr
    split_ifs at hr with h1
    · simp only [Option.some.injEq] at hr
      subst hr
      obtain ⟨b1, _, _, b4⟩ := hideRest_spec (g.ConsoleIme.ConvAreaCompStr.drop idx) g
      refine ⟨⟨[], by simp, by simp⟩, by rw [b4.1], ?_⟩
      intro _ _ h hh
      simp only at hh ⊢
      rw [b4.1] at hh
      exact b1 h hh
    · rcases hgrow : growRegistry env g idx with _ | ⟨Status, g1⟩
      · simp [hgrow] at hr
      · simp only [hgrow] at hr
        obtain ⟨c1, c2, _⟩ := growRegistry_spec env g g1 idx Status hgrow
        split_ifs at hr with h2
        · simp only [Option.some.injEq] at hr
          subst hr
          refine ⟨⟨[], by simp, by simp⟩, c2, ?_⟩
          intro _ hn
          simp only at hn
          simp [hn] at h2
        · split at hr
          · simp at hr
          · rename_i st g4 writes1 hchunk
            obtain ⟨d1, ⟨ws1, d2, d2b⟩, _, d4⟩ := chunkLoop_inv env W lpAtrIdx idx _ _ fuel _ rest X writes
              _ hchunk
            have hreg : g4.ConsoleIme.ConvAreaCompStr = g1.ConsoleIme.ConvAreaCompStr := by
              have := d1.1.1
              simp only [ChunkExit.state] at this
              rw [this, (startRow_OnlyArea g1 _ idx X PositionY up).1.1]
            simp only [Option.some.injEq] at hr
            subst hr
            refine ⟨⟨ws1, d2, fun w hw => (d2b w hw).1⟩, ?_, ?_⟩
            · simp only; rw [hreg]
              exact c2
            · intro hp _
              exact absurd hp (d4 st g4 writes1 rfl).2
          · rename_i g4 rest1 X1 writes1 hchunk
            obtain ⟨d1, ⟨ws1, d2, d2b⟩, d3, _⟩ := chunkLoop_inv env W lpAtrIdx idx _ _ fuel _ rest X writes
              _ hchunk
            have hreg : g4.ConsoleIme.ConvAreaCompStr = g1.ConsoleIme.ConvAreaCompStr := by
              have := d1.1.1
              simp only [ChunkExit.state] at this
              rw [this, (startRow_OnlyArea g1 _ idx X PositionY up).1.1]
            obtain ⟨e1, e2, e3⟩ := ih g4 (idx + 1) rest1 X1 writes1 r hr
            obtain ⟨ws2, e1a, e1b⟩ := e1
            have d2' : writes1 = writes ++ ws1 := d2
            refine ⟨⟨ws1 ++ ws2, by rw [e1a, d2', List.append_assoc], ?_⟩, ?_, ?_⟩
            · intro w hw
              rcases List.mem_append.1 hw with hw | hw
              · exact (d2b w hw).1
              · exact e1b w hw
            · rw [hreg] at e2
              exact c2.trans e2
            · intro hp hn
              exact e3 (EndsPrintable_suffix (d3 g4 rest1 X1 writes1 rfl) hp) hn
/-! ## Rows that are hidden on entry stay hidden -/

theorem SetUndetermineAttribute_frame (g : CONSOLE_INFORMATION) :
    (∀ k, ((SetUndetermineAttribute g).ConvAreas k).ConversionAreaMode = (g.ConvAreas k).ConversionAreaMode) ∧
    (SetUndetermineAttribute g).nextArea = g.nextArea := by
  unfold SetUndetermineAttribute
  split
  · exact ⟨fun _ => rfl, rfl⟩
  · refine ⟨fun k => ?_, rfl⟩
    simp only
    split <;> rfl

theorem LinkConversionArea_frame (g : CONSOLE_INFORMATION) (h : Nat) :
    (LinkConversionArea g h).ConvAreas = g.ConvAreas ∧ (LinkConversionArea g h).nextArea = g.nextArea := by
  unfold LinkConversionArea
  split <;> exact ⟨rfl, rfl⟩

theorem AllocateConversionArea_ok (env : Env) (g : CONSOLE_INFORMATION) (size : COORD) (h : Nat)
    (hok : (AllocateConversionArea env g size).2 = Except.ok h) :
    h = g.nextArea ∧ (AllocateConversionArea env g size).1.nextArea = g.nextArea + 1 ∧
    (∀ k, k ≠ h → (AllocateConversionArea env g size).1.ConvAreas k = g.ConvAreas k) := by
  rcases Option.eq_none_or_eq_some g.CurrentScreenBuffer with hs | ⟨scr, hs⟩
  · simp [AllocateConversionArea, hs] at hok
  · simp only [AllocateConversionArea, hs] at hok ⊢
    split_ifs at hok ⊢
    all_goals first
      | (cases hok; done)
      | (simp only [Except.ok.injEq] at hok
         subst hok
         exact ⟨rfl, rfl, fun k hk => setArea_ConvAreas_other _ _ _ _ hk⟩)

theorem SetUpConversionArea_ok (env : Env) (g : CONSOLE_INFORMATION) (size : COORD) (rc : SMALL_RECT)
    (view : COORD) (opt : Nat) (h : Nat)
    (hok : (SetUpConversionArea env g size rc view opt).2 = Except.ok h) :
    h = g.nextArea ∧ (SetUpConversionArea env g size rc view opt).1.nextArea = g.nextArea + 1 ∧
    ((SetUpConversionArea env g size rc view opt).1.ConvAreas h).ConversionAreaMode = opt ∧
    (∀ k, k ≠ h → ((SetUpConversionArea env g size rc view opt).1.ConvAreas k).ConversionAreaMode =
      (g.ConvAreas k).ConversionAreaMode) := by
  unfold SetUpConversionArea at hok ⊢
  rcases hA : AllocateConversionArea env g size with ⟨g1, res⟩
  rw [hA] at hok
  cases res with
  | error st => simp only at hok; cases hok
  | ok h1 =>
    simp only at hok ⊢
    simp only [Except.ok.injEq] at hok
    subst hok
    obtain ⟨a1, a2, a3⟩ := AllocateConversionArea_ok env g size h1 (by rw [hA])
    rw [hA] at a2 a3
    simp only at a2 a3
    refine ⟨a1, ?_, ?_, ?_⟩
    · rw [(SetUndetermineAttribute_frame _).2, (LinkConversionArea_frame _ _).2]
      exact a2
    · rw [(SetUndetermineAttribute_frame _).1, (LinkConversionArea_frame _ _).1, setArea_ConvAreas_self]
    · intro k hk
      rw [(SetUndetermineAttribute_frame _).1, (LinkConversionArea_frame _ _).1,
        setArea_ConvAreas_other _ _ _ _ hk, a3 k hk]

theorem CreateConvAreaUndetermine_created (env : Env) (g g1 : CONSOLE_INFORMATION) (Status : NTSTATUS)
    (hc : CreateConvAreaUndetermine env g = some (Status, g1)) (hok : NT_SUCCESS Status = true) :
    g1.ConsoleIme.ConvAreaCompStr = g.ConsoleIme.ConvAreaCompStr ++ [g.nextArea] ∧
    g1.nextArea = g.nextArea + 1 ∧
    (g1.ConvAreas g.nextArea).ConversionAreaMode = CA_HIDDEN ∧
    (∀ k, k ≠ g.nextArea → (g1.ConvAreas k).ConversionAreaMode = (g.ConvAreas k).ConversionAreaMode) := by
  unfold CreateConvAreaUndetermine at hc
  rcases Option.eq_none_or_eq_some g.CurrentScreenBuffer with hs | ⟨scr, hs⟩
  · simp [hs] at hc
  · simp only [hs] at hc
    obtain ⟨_, a2, _, a4⟩ := SetUpConversionArea_spec env g { X := scr.ScreenBufferSize.X, Y := 1 }
      { Left := 0, Top := 0, Right := 0, Bottom := 0 } { X := 0, Y := 0 } CA_HIDDEN
    have hOk := SetUpConversionArea_ok env g { X := scr.ScreenBufferSize.X, Y := 1 }
      { Left := 0, Top := 0, Right := 0, Bottom := 0 } { X := 0, Y := 0 } CA_HIDDEN
    rcases hS : SetUpConversionArea env g { X := scr.ScreenBufferSize.X, Y := 1 }
      { Left := 0, Top := 0, Right := 0, Bottom := 0 } { X := 0, Y := 0 } CA_HIDDEN with ⟨g2, res⟩
    rw [hS] at hc a2 a4 hOk
    simp only at a2 a4 hOk
    cases res with
    | error st =>
      simp only [Option.some.injEq, Prod.mk.injEq] at hc
      obtain ⟨rfl, rfl⟩ := hc
      rw [a4 st rfl] at hok
      cases hok
    | ok h =>
      obtain ⟨b1, b2, b3, b4⟩ := hOk h rfl
      subst b1
      simp only at hc
      split_ifs at hc with hp
      · simp only [Option.some.injEq, Prod.mk.injEq] at hc
        obtain ⟨rfl, rfl⟩ := hc
        exact ⟨by simp only [a2], b2, b3, b4⟩
      · simp only [Option.some.injEq, Prod.mk.injEq] at hc
        obtain ⟨rfl, rfl⟩ := hc
        exact absurd hok hp

theorem getD_mem_drop (l : List Nat) (idx j : Nat) (hj : idx ≤ j) (hlen : j < l.length) :
    l.getD j 0 ∈ l.drop idx := by
  rw [List.getD_eq_getElem _ _ hlen]
  have hj2 : j - idx < (l.drop idx).length := by
    rw [List.length_drop]; omega
  have := List.getElem_mem hj2
  rw [List.getElem_drop] at this
  simpa [Nat.add_sub_cancel' hj] using this

/-- Growing the registry keeps the composition rows pairwise distinct and
allocated, and keeps the rows from index `idx` on hidden. -/
theorem growRegistry_hidden (env : Env) (g g1 : CONSOLE_INFORMATION) (idx : Nat) (Status : NTSTATUS)
    (hc : growRegistry env g idx = some (Status, g1)) (hok : NT_SUCCESS Status = true)
    (hnd : g.ConsoleIme.ConvAreaCompStr.Nodup)
    (hfresh : ∀ h ∈ g.ConsoleIme.ConvAreaCompStr, h < g.nextArea)
    (hidx : idx ≤ g.ConsoleIme.ConvAreaCompStr.length)
    (hhid : ∀ j, idx ≤ j → j < g.ConsoleIme.ConvAreaCompStr.length →
      (g.ConvAreas (g.ConsoleIme.ConvAreaCompStr.getD j 0)).ConversionAreaMode &&& CA_HIDDEN ≠ 0) :
    g1.ConsoleIme.ConvAreaCompStr.Nodup ∧
    (∀ h ∈ g1.ConsoleIme.ConvAreaCompStr, h < g1.nextArea) ∧
    idx < g1.ConsoleIme.ConvAreaCompStr.length ∧
    (∀ j, idx ≤ j → j < g1.ConsoleIme.ConvAreaCompStr.length →
      (g1.ConvAreas (g1.ConsoleIme.ConvAreaCompStr.getD j 0)).ConversionAreaMode &&& CA_HIDDEN ≠ 0) := by
  unfold growRegistry at hc
  split_ifs at hc with h1
  · obtain ⟨a1, a2, a3, a4⟩ := CreateConvAreaUndetermine_created env g g1 Status hc hok
    have hnot : g.nextArea ∉ g.ConsoleIme.ConvAreaCompStr := fun hm => Nat.lt_irrefl _ (hfresh _ hm)
    refine ⟨?_, ?_, ?_, ?_⟩
    · rw [a1]
      exact List.Nodup.append hnd (List.nodup_singleton _) (by
        intro x hx hx2
        rw [List.mem_singleton] at hx2
        subst hx2
        exact hnot hx)
    · intro h hh
      rw [a1] at hh
      rw [a2]
      rcases List.mem_append.1 hh with hh | hh
      · exact Nat.lt_succ_of_lt (hfresh h hh)
      · rw [List.mem_singleton] at hh; omega
    · rw [a1, List.length_append, List.length_singleton]; omega
    · intro j hj hlen
      rw [a1, List.length_append, List.length_singleton] at hlen
      have hje : j = g.ConsoleIme.ConvAreaCompStr.length := by omega
      rw [a1, List.getD_append_right _ _ _ _ (by omega), hje, Nat.sub_self]
      simp only [List.getD_cons_zero]
      rw [a3]
      decide
  · simp only [Option.some.injEq, Prod.mk.injEq] at hc
    obtain ⟨_, rfl⟩ := hc
    exact ⟨hnd, hfresh, by omega, hhid⟩

/-- When the composition rows are pairwise distinct, allocated and hidden from
index `idx` on, every success return of the row loop leaves the rows from
index `rows` on hidden. -/
theorem rowLoop_hidden (env : Env) (W : Int) (lpAtrIdx : Nat → WORD) (Y : Int) (up : Bool) :
    ∀ (fuel : Nat) (g : CONSOLE_INFORMATION) (idx : Nat) (rest : List (WCHAR × BYTE)) (X : Int)
      (writes : List IME_WRITE) (r : StreamResult),
      rowLoop env W lpAtrIdx Y up fuel g idx rest X writes = some r →
      g.ConsoleIme.ConvAreaCompStr.Nodup →
      (∀ h ∈ g.ConsoleIme.ConvAreaCompStr, h < g.nextArea) →
      idx ≤ g.ConsoleIme.ConvAreaCompStr.length →
      (∀ j, idx ≤ j → j < g.ConsoleIme.ConvAreaCompStr.length →
        (g.ConvAreas (g.ConsoleIme.ConvAreaCompStr.getD j 0)).ConversionAreaMode &&& CA_HIDDEN ≠ 0) →
      NT_SUCCESS r.Status = true →
      ∀ j, r.rows ≤ j → j < r.g.ConsoleIme.ConvAreaCompStr.length →
        (r.g.ConvAreas (r.g.ConsoleIme.ConvAreaCompStr.getD j 0)).ConversionAreaMode &&& CA_HIDDEN ≠ 0 := by
  intro fuel
  induction fuel with
  | zero => intro g idx rest X writes r hr; simp [rowLoop] at hr
  | succ fuel ih =>
    intro g idx rest X writes r hr hnd hfresh hidx hhid hok
    rw [rowLoop] at hr
    split_ifs at hr with h1
    · simp only [Option.some.injEq] at hr
      subst hr
      obtain ⟨b1, _, _, b4⟩ := hideRest_spec (g.ConsoleIme.ConvAreaCompStr.drop idx) g
      intro j hj hlen
      simp only at hj hlen ⊢
      rw [b4.1] at hlen ⊢
      exact b1 _ (getD_mem_drop _ idx j hj hlen)
    · rcases hgrow : growRegistry env g idx with _ | ⟨Status, g1⟩
      · simp [hgrow] at hr
      · simp only [hgrow] at hr
        split_ifs at hr with h2
        · simp only [Option.some.injEq] at hr
          subst hr
          simp only at hok
          simp [hok] at h2
        · have hst : NT_SUCCESS Status = true := by simpa using h2
          obtain ⟨c1, c2, c3, c4⟩ := growRegistry_hidden env g g1 idx Status hgrow hst hnd hfresh hidx hhid
          have hkeep : ∀ g4 : CONSOLE_INFORMATION,
              OnlyArea (g1.ConsoleIme.ConvAreaCompStr.getD idx 0) g1 g4 →
              g4.ConsoleIme.ConvAreaCompStr.Nodup ∧
              (∀ h ∈ g4.ConsoleIme.ConvAreaCompStr, h < g4.nextArea) ∧
              idx + 1 ≤ g4.ConsoleIme.ConvAreaCompStr.length ∧
              (∀ j, idx + 1 ≤ j → j < g4.ConsoleIme.ConvAreaCompStr.length →
                (g4.ConvAreas (g4.ConsoleIme.ConvAreaCompStr.getD j 0)).ConversionAreaMode &&& CA_HIDDEN ≠ 0) := by
            intro g4 ho
            have e1 : g4.ConsoleIme.ConvAreaCompStr = g1.ConsoleIme.ConvAreaCompStr := by rw [ho.1.1]
            rw [e1, ho.1.2.2.1]
            refine ⟨c1, c2, c3, ?_⟩
            intro j hj hlen
            have hne : g1.ConsoleIme.ConvAreaCompStr.getD j 0 ≠ g1.ConsoleIme.ConvAreaCompStr.getD idx 0 := by
              rw [List.getD_eq_getElem _ _ hlen, List.getD_eq_getElem _ _ c3]
              intro he
              have := (List.Nodup.getElem_inj_iff c1).1 he
              omega
            rw [ho.2 _ hne]
            exact c4 j (by omega) hlen
          split at hr
          · simp at hr
          · rename_i st g4 writes1 hchunk
            obtain ⟨d1, _, _, _⟩ := chunkLoop_inv env W lpAtrIdx idx _ _ fuel _ rest X writes _ hchunk
            simp only [ChunkExit.state] at d1
            simp only [Option.some.injEq] at hr
            subst hr
            obtain ⟨_, _, _, k4⟩ := hkeep g4 ((startRow_OnlyArea g1 _ idx X Y up).transArea d1)
            intro j hj hlen
            exact k4 j hj hlen
          · rename_i g4 rest1 X1 writes1 hchunk
            obtain ⟨d1, _, _, _⟩ := chunkLoop_inv env W lpAtrIdx idx _ _ fuel _ rest X writes _ hchunk
            simp only [ChunkExit.state] at d1
            obtain ⟨k1, k2, k3, k4⟩ := hkeep g4 ((startRow_OnlyArea g1 _ idx X Y up).transArea d1)
            exact ih g4 (idx + 1) rest1 X1 writes1 r hr k1 k2 k3 k4 hok


/-! ## The streamer: double-width pairs and the closing loop -/

/-- In the cells of a sequence of glyphs every leading cell is followed by the
trailing cell of the same character, and every trailing cell follows the
leading cell of the same character. -/
theorem glyphCells_pairs (gs : List (WCHAR × Bool)) :
    ∀ k : Nat,
      (((glyphCells gs).map Prod.snd).getD k 0 = ATTR_LEADING_BYTE →
        k + 1 < ((glyphCells gs).map Prod.snd).length ∧
        ((glyphCells gs).map Prod.snd).getD (k + 1) 0 = ATTR_TRAILING_BYTE ∧
        ((glyphCells gs).map Prod.fst).getD (k + 1) 0 = ((glyphCells gs).map Prod.fst).getD k 0) ∧
      (((glyphCells gs).map Prod.snd).getD k 0 = ATTR_TRAILING_BYTE →
        0 < k ∧
        ((glyphCells gs).map Prod.snd).getD (k - 1) 0 = ATTR_LEADING_BYTE ∧
        ((glyphCells gs).map Prod.fst).getD (k - 1) 0 = ((glyphCells gs).map Prod.fst).getD k 0) := by
  induction gs with
  | nil =>
    intro k
    simp [glyphCells, ATTR_LEADING_BYTE, ATTR_TRAILING_BYTE]
  | cons g gs ih =>
    obtain ⟨c, wide⟩ := g
    intro k
    cases wide with
    | false =>
      cases k with
      | zero => simp [glyphCells, ATTR_LEADING_BYTE, ATTR_TRAILING_BYTE]
      | succ n =>
        obtain ⟨i1, i2⟩ := ih n
        simp only [glyphCells, List.map_cons, List.getD_cons_succ, List.length_cons,
          Nat.add_lt_add_iff_right, Nat.add_sub_cancel]
        refine ⟨i1, ?_⟩
        intro ht
        obtain ⟨j1, j2, j3⟩ := i2 ht
        obtain ⟨m, rfl⟩ : ∃ m, n = m + 1 := ⟨n - 1, by omega⟩
        simp only [Nat.add_sub_cancel] at j2 j3
        simp only [List.getD_cons_succ]
        exact ⟨by omega, j2, j3⟩
    | true =>
      cases k with
      | zero => simp [glyphCells, ATTR_LEADING_BYTE, ATTR_TRAILING_BYTE]
      | succ n =>
        cases n with
        | zero => simp [glyphCells, ATTR_LEADING_BYTE, ATTR_TRAILING_BYTE]
        | succ n =>
          obtain ⟨i1, i2⟩ := ih n
          simp only [glyphCells, List.map_cons, List.getD_cons_succ, List.length_cons,
            Nat.add_lt_add_iff_right, Nat.add_sub_cancel]
          refine ⟨i1, ?_⟩
          intro ht
          obtain ⟨j1, j2, j3⟩ := i2 ht
          obtain ⟨m, rfl⟩ : ∃ m, n = m + 1 := ⟨n - 1, by omega⟩
          simp only [Nat.add_sub_cancel] at j2 j3
          simp only [List.getD_cons_succ]
          exact ⟨by omega, j2, j3⟩

theorem WriteUndetermineChars_rowLoop (env : Env) (fuel : Nat) (g : CONSOLE_INFORMATION)
    (lpString : List WCHAR) (lpAtr : List BYTE) (lpAtrIdx : Nat → WORD) (NumChars : Nat) (r : StreamResult)
    (hr : WriteUndetermineChars env fuel g lpString lpAtr lpAtrIdx NumChars = some r) :
    ∃ (W Y : Int) (up : Bool) (g0 : CONSOLE_INFORMATION) (X : Int),
      g0.ConsoleIme = g.ConsoleIme ∧ g0.ConvAreas = g.ConvAreas ∧
      rowLoop env W lpAtrIdx Y up fuel g0 0 (inputCells lpString lpAtr NumChars) X [] = some r := by
  unfold WriteUndetermineChars at hr
  rcases Option.eq_none_or_eq_some g.CurrentScreenBuffer with hs | ⟨scr, hs⟩
  · simp [hs] at hr
  · simp only [hs] at hr
    refine ⟨_, _, _, _, _, ?_, ?_, hr⟩ <;> rfl

/-- C2: in every chunk that the streamer hands to the row writer, a cell
tagged leading at index `k` is followed, in the same chunk, at index `k + 1`
by the trailing cell of the same character, and a cell tagged trailing at
index `k` follows, at index `k - 1`, the leading cell of the same character;
the chunk is written by one row writer call into one row, so the two cells
land in adjacent columns of the same composition row. -/
theorem C2_streamComposition_pairs (env : Env) (fuel : Nat) (g : CONSOLE_INFORMATION)
    (lpString : List WCHAR) (lpAtr : List BYTE) (lpAtrIdx : Nat → WORD) (NumChars : Nat) (r : StreamResult)
    (hr : WriteUndetermineChars env fuel g lpString lpAtr lpAtrIdx NumChars = some r)
    (w : IME_WRITE) (hw : w ∈ r.writes) (k : Nat) :
    w.String.length = w.StringA.length ∧
    (w.StringA.getD k 0 = ATTR_LEADING_BYTE →
      k + 1 < w.StringA.length ∧ w.StringA.getD (k + 1) 0 = ATTR_TRAILING_BYTE ∧
      w.String.getD (k + 1) 0 = w.String.getD k 0) ∧
    (w.StringA.getD k 0 = ATTR_TRAILING_BYTE →
      0 < k ∧ w.StringA.getD (k - 1) 0 = ATTR_LEADING_BYTE ∧
      w.String.getD (k - 1) 0 = w.String.getD k 0) := by
  obtain ⟨W, Y, up, g0, X, _, _, hloop⟩ := WriteUndetermineChars_rowLoop env fuel g lpString lpAtr lpAtrIdx
    NumChars r hr
  obtain ⟨⟨ws, h1, h2⟩, _, _⟩ := rowLoop_inv env W lpAtrIdx Y up fuel g0 0 _ X [] r hloop
  rw [h1, List.nil_append] at hw
  obtain ⟨gs, e1, e2⟩ := h2 w hw
  rw [e1, e2]
  exact ⟨by simp, glyphCells_pairs gs k⟩

/-- C2 at a concrete console: a double-width character followed by `a`,
streamed from column 0, is one chunk of three cells. -/
theorem C2_streamComposition_pairs_witness :
    ([12354, 12354, 97] : List WCHAR).length = ([1, 2, 0] : List BYTE).length ∧
    (([1, 2, 0] : List BYTE).getD 0 0 = ATTR_LEADING_BYTE →
      0 + 1 < ([1, 2, 0] : List BYTE).length ∧ ([1, 2, 0] : List BYTE).getD (0 + 1) 0 = ATTR_TRAILING_BYTE ∧
      ([12354, 12354, 97] : List WCHAR).getD (0 + 1) 0 = ([12354, 12354, 97] : List WCHAR).getD 0 0) ∧
    (([1, 2, 0] : List BYTE).getD 0 0 = ATTR_TRAILING_BYTE →
      0 < 0 ∧ ([1, 2, 0] : List BYTE).getD (0 - 1) 0 = ATTR_LEADING_BYTE ∧
      ([12354, 12354, 97] : List WCHAR).getD (0 - 1) 0 = ([12354, 12354, 97] : List WCHAR).getD 0 0) :=
  C2_streamComposition_pairs exEnv 5 (exConsole 0 []) [12354, 97] [0, 0] (fun _ => 7) 2
    ((WriteUndetermineChars exEnv 5 (exConsole 0 []) [12354, 97] [0, 0] (fun _ => 7) 2).get (by decide))
    (Option.some_get _).symm
    { ConvAreaIndex := 0, area := 0, TargetX := 0, String := [12354, 12354, 97], StringA := [1, 2, 0],
      Attr := 0, wLegacyAttr := 7 }
    (by decide) 0

theorem inputCells_EndsPrintable (lpString : List WCHAR) (lpAtr : List BYTE) (NumChars : Nat)
    (hlast : NumChars = 0 ∨ UNICODE_SPACE ≤ lpString.getD (NumChars - 1) 0) :
    EndsPrintable (inputCells lpString lpAtr NumChars) := by
  intro p hp
  cases NumChars with
  | zero => simp [inputCells] at hp
  | succ n =>
    simp only [inputCells, List.range_succ, List.map_append, List.map_cons, List.map_nil,
      List.getLast?_append, List.getLast?_singleton, Option.or, Option.some.injEq] at hp
    subst hp
    rcases hlast with h | h
    · omega
    · simpa using h

/-- The row loop of the streamer starts from the state on entry with another
primary surface only: the registry, the conversion areas and the allocation
counter are those of the entry. -/
theorem WriteUndetermineChars_rowLoop_entry (env : Env) (fuel : Nat) (g : CONSOLE_INFORMATION)
    (lpString : List WCHAR) (lpAtr : List BYTE) (lpAtrIdx : Nat → WORD) (NumChars : Nat) (r : StreamResult)
    (hr : WriteUndetermineChars env fuel g lpString lpAtr lpAtrIdx NumChars = some r) :
    ∃ (W Y : Int) (up : Bool) (g0 : CONSOLE_INFORMATION) (X : Int),
      g0.ConsoleIme = g.ConsoleIme ∧ g0.ConvAreas = g.ConvAreas ∧ g0.nextArea = g.nextArea ∧
      rowLoop env W lpAtrIdx Y up fuel g0 0 (inputCells lpString lpAtr NumChars) X [] = some r := by
  unfold WriteUndetermineChars at hr
  rcases Option.eq_none_or_eq_some g.CurrentScreenBuffer with hs | ⟨scr, hs⟩
  · simp [hs] at hr
  · simp only [hs] at hr
    refine ⟨_, _, _, _, _, ?_, ?_, ?_, hr⟩ <;> rfl

/-- C4 (amended): when the input is empty or ends in a character that is not
below the space character, or when on entry the composition rows are pairwise
distinct, allocated earlier and all hidden, a success return of
`WriteUndetermineChars` leaves every conversion area of `ConvAreaCompStr`
whose index is beyond the last row used (index `rows` and up) with its hidden
flag set. -/
theorem C4_streamComposition_hides_rest (env : Env) (fuel : Nat) (g : CONSOLE_INFORMATION)
    (lpString : List WCHAR) (lpAtr : List BYTE) (lpAtrIdx : Nat → WORD) (NumChars : Nat) (r : StreamResult)
    (hpre : (NumChars = 0 ∨ UNICODE_SPACE ≤ lpString.getD (NumChars - 1) 0) ∨ CompStrAllHidden g)
    (hr : WriteUndetermineChars env fuel g lpString lpAtr lpAtrIdx NumChars = some r)
    (hok : NT_SUCCESS r.Status = true) (j : Nat) (hj : r.rows ≤ j)
    (hlen : j < r.g.ConsoleIme.ConvAreaCompStr.length) :
    (r.g.ConvAreas (r.g.ConsoleIme.ConvAreaCompStr.getD j 0)).ConversionAreaMode &&& CA_HIDDEN ≠ 0 := by
  obtain ⟨W, Y, up, g0, X, e1, e2, e3, hloop⟩ := WriteUndetermineChars_rowLoop_entry env fuel g lpString lpAtr
    lpAtrIdx NumChars r hr
  rcases hpre with hlast | ⟨hnd, hfresh, hhid⟩
  · obtain ⟨_, _, h3⟩ := rowLoop_inv env W lpAtrIdx Y up fuel g0 0 _ X [] r hloop
    apply h3 (inputCells_EndsPrintable lpString lpAtr NumChars hlast) hok
    exact getD_mem_drop _ r.rows j hj hlen
  · refine rowLoop_hidden env W lpAtrIdx Y up fuel g0 0 _ X [] r hloop ?_ ?_ (Nat.zero_le _) ?_ hok j hj hlen
    · rw [e1]; exact hnd
    · rw [e1, e3]; exact hfresh
    · intro k _ hk
      rw [e1] at hk ⊢
      rw [e2]
      exact hhid _ (by rw [List.getD_eq_getElem _ _ hk]; exact List.getElem_mem hk)

/-- C4 at a concrete console with two hidden composition rows and a text that
is one control character (code 7): the row of index 1 is hidden afterwards. -/
theorem C4_streamComposition_hides_rest_witness :
    (((WriteUndetermineChars exEnv 5 (exConsole 0 [exHidden, exHidden]) [7] [0] (fun _ => 7) 1).get
          (by decide)).g.ConvAreas
        (((WriteUndetermineChars exEnv 5 (exConsole 0 [exHidden, exHidden]) [7] [0] (fun _ => 7) 1).get
          (by decide)).g.ConsoleIme.ConvAreaCompStr.getD 1 0)).ConversionAreaMode &&& CA_HIDDEN ≠ 0 :=
  C4_streamComposition_hides_rest exEnv 5 (exConsole 0 [exHidden, exHidden]) [7] [0] (fun _ => 7) 1
    ((WriteUndetermineChars exEnv 5 (exConsole 0 [exHidden, exHidden]) [7] [0] (fun _ => 7) 1).get
      (by decide))
    (Or.inr (by decide)) (Option.some_get _).symm (by decide) 1 (by decide) (by decide)

/-- C4 fails as stated: with two visible composition rows and a text that is
one control character (code 7), `WriteUndetermineChars` returns
`STATUS_SUCCESS` after one row pass (row 0 is the last row used), and the row
of index 1 still has its hidden flag clear. -/
theorem C4_counterexample :
    (WriteUndetermineChars exEnv 5 (exConsole 0 [exVisible, exVisible]) [7] [0] (fun _ => 7) 1).map
        (fun r => (r.Status, r.rows, r.g.ConsoleIme.ConvAreaCompStr,
          (r.g.ConvAreas (r.g.ConsoleIme.ConvAreaCompStr.getD 1 0)).ConversionAreaMode &&& CA_HIDDEN)) =
      some (STATUS_SUCCESS, 1, [0, 1], 0) := by
  decide

/-- C3 fails as stated: with window width 20, the cursor at column 18 and the
text `ab` under one attribute, both characters are written by one row writer
call at column 18 of the first composition row, so that `b` lands in column
19 of that row; one row is used and no second conversion area is created. -/
theorem C3_counterexample :
    (WriteUndetermineChars exEnv 5 (exConsole 18 []) [97, 98] [0, 0] (fun _ => 7) 2).map
        (fun r => (r.Status, r.rows, r.g.ConsoleIme.ConvAreaCompStr,
          r.writes.map (fun w => (w.ConvAreaIndex, w.TargetX, w.String)),
          ((r.g.ConvAreas 0).ScreenBuffer.Row.CharRow.Chars.drop 18))) =
      some (STATUS_SUCCESS, 1, [0], [(0, 18, [97, 98])], [97, 98]) := by
  rfl

/-! ## Streaming single-width text -/

theorem AllSingle_suffix {env : Env} {l1 l2 : List (WCHAR × BYTE)} (hs : l1 <:+ l2)
    (h : AllSingle env l2) : AllSingle env l1 :=
  fun p hp => h p (hs.subset hp)

/-- On single-width printable input the character loop consumes `k`
characters into `k` cells and advances the column by `k`, never past the
window width. -/
theorem charLoop_single (env : Env) (W : Int) (rest : List (WCHAR × BYTE)) :
    ∀ (i : Nat) (X : Int) (Char : WCHAR) (Attr : WORD) (buf : List WCHAR) (bufA : List BYTE),
      AllSingle env rest →
      ∃ k : Nat, k ≤ rest.length ∧
        (charLoop env W rest i X Char Attr buf bufA).rest = rest.drop k ∧
        (charLoop env W rest i X Char Attr buf bufA).i = i + k ∧
        (charLoop env W rest i X Char Attr buf bufA).PositionX = X + k ∧
        (rest ≠ [] → i < LOCAL_BUFFER_SIZE → X < W → 0 < k) ∧
        (X ≤ W → X + k ≤ W) ∧
        ((charLoop env W rest i X Char Attr buf bufA).Char = Char ∨
          env.IsCharFullWidth (charLoop env W rest i X Char Attr buf bufA).Char = false) := by
  induction rest with
  | nil =>
    intro i X Char Attr buf bufA _
    exact ⟨0, by simp, by simp [charLoop], by simp [charLoop], by simp [charLoop], by simp,
      by simp, Or.inl (by simp [charLoop])⟩
  | cons p rest ih =>
    obtain ⟨c, a⟩ := p
    intro i X Char Attr buf bufA hall
    have hc : UNICODE_SPACE ≤ c ∧ env.IsCharFullWidth c = false := hall (c, a) (List.mem_cons_self _ _)
    have hrest : AllSingle env rest := fun q hq => hall q (List.mem_cons_of_mem _ hq)
    by_cases hguard : i < LOCAL_BUFFER_SIZE ∧ X < W
    · by_cases hbrk : attrChanges a rest = true
      · refine ⟨1, by simp, ?_, ?_, ?_, fun _ _ _ => by omega, fun _ => by omega, Or.inr ?_⟩
        all_goals simp [charLoop, hguard, hc.1, hc.2, hbrk]
      · obtain ⟨k, k1, k2, k3, k4, _, k6, k7⟩ := ih (i + 1) (X + 1) c a (buf ++ [c]) (bufA ++ [0]) hrest
        have e : charLoop env W ((c, a) :: rest) i X Char Attr buf bufA =
            charLoop env W rest (i + 1) (X + 1) c a (buf ++ [c]) (bufA ++ [0]) := by
          simp [charLoop, hguard, hc.1, hc.2, hbrk]
        rw [e]
        refine ⟨k + 1, by simp; omega, by simpa using k2, by rw [k3]; omega, by rw [k4]; push_cast; ring,
          fun _ _ _ => by omega, fun _ => ?_, ?_⟩
        · have := k6 (by omega)
          push_cast
          omega
        · rcases k7 with h | h
          · exact Or.inr (by rw [h]; exact hc.2)
          · exact Or.inr h
    · refine ⟨0, by simp, ?_, ?_, ?_, fun _ h1 h2 => absurd ⟨h1, h2⟩ hguard, fun h => by simpa using h,
        Or.inl ?_⟩
      all_goals simp [charLoop, hguard]

/-- On single-width printable input the chunk loop fills the row up to the
window width, or to the end of the input, and goes on to the next row. -/
theorem chunkLoop_single (env : Env) (W : Int) (lpAtrIdx : Nat → WORD) (idx h : Nat) (RegionLeft : Int) :
    ∀ (fuel : Nat) (g : CONSOLE_INFORMATION) (rest : List (WCHAR × BYTE)) (X : Int) (writes : List IME_WRITE),
      AllSingle env rest → rest ≠ [] → X < W → rest.length ≤ fuel →
      ∃ g1 rest1 writes1,
        chunkLoop env W lpAtrIdx idx h RegionLeft fuel g rest X writes =
          some (ChunkExit.toRowLoop g1 rest1 0 writes1) ∧
        rest1.length = rest.length - min (W - X).toNat rest.length ∧
        rest1 <:+ rest := by
  intro fuel
  induction fuel with
  | zero =>
    intro g rest X writes _ hne _ hlen
    cases rest with
    | nil => exact absurd rfl hne
    | cons p l => simp at hlen
  | succ fuel ih =>
    intro g rest X writes hall hne hX hlen
    obtain ⟨k, k1, k2, k3, k4, k5, k6, k7⟩ := charLoop_single env W rest 0 X 0 0 [] [] hall
    have hk : 0 < k := k5 hne (by simp [LOCAL_BUFFER_SIZE]) hX
    have hXk := k6 (le_of_lt hX)
    have hemp : rest.isEmpty = false := by
      cases rest with
      | nil => exact absurd rfl hne
      | cons p l => rfl
    have hi : (charLoop env W rest 0 X 0 0 [] []).i ≠ 0 := by rw [k3]; omega
    have hdw : ¬ ((charLoop env W rest 0 X 0 0 [] []).Char ≥ UNICODE_SPACE ∧
        env.IsCharFullWidth (charLoop env W rest 0 X 0 0 [] []).Char = true ∧
        (charLoop env W rest 0 X 0 0 [] []).PositionX ≥ W - 1) := by
      rintro ⟨d1, d2, _⟩
      rcases k7 with e | e
      · rw [e] at d1; simp [UNICODE_SPACE] at d1
      · rw [e] at d2; cases d2
    have hsuf : (charLoop env W rest 0 X 0 0 [] []).rest <:+ rest := charLoop_suffix env W rest 0 X 0 0 [] []
    have hlen2 : (charLoop env W rest 0 X 0 0 [] []).rest.length = rest.length - k := by
      rw [k2, List.length_drop]
    by_cases hfin : (charLoop env W rest 0 X 0 0 [] []).rest.isEmpty = true ∨
        (charLoop env W rest 0 X 0 0 [] []).PositionX ≥ W
    · refine ⟨finalizeRow (writeChunk env lpAtrIdx g h (charLoop env W rest 0 X 0 0 [] [])) h RegionLeft,
        (charLoop env W rest 0 X 0 0 [] []).rest,
        writes ++ [chunkRecord lpAtrIdx g idx h (charLoop env W rest 0 X 0 0 [] [])], ?_, ?_, hsuf⟩
      · rw [chunkLoop]
        simp only [hemp, Bool.false_eq_true, if_false, hi, ne_eq, not_false_eq_true, if_true]
        rw [if_pos]
        rcases hfin with h1 | h1
        · exact Or.inl h1
        · exact Or.inr (Or.inl h1)
      · rw [hlen2]
        rcases hfin with h1 | h1
        · have : (charLoop env W rest 0 X 0 0 [] []).rest.length = 0 := by
            rw [List.isEmpty_iff] at h1; rw [h1]; rfl
          omega
        · rw [k4] at h1
          omega
    · have hfin1 : ¬ (charLoop env W rest 0 X 0 0 [] []).rest.isEmpty = true := fun e => hfin (Or.inl e)
      have hfin2 : ¬ (charLoop env W rest 0 X 0 0 [] []).PositionX ≥ W := fun e => hfin (Or.inr e)
      have hne2 : (charLoop env W rest 0 X 0 0 [] []).rest ≠ [] := by
        intro e; apply hfin1; rw [e]; rfl
      obtain ⟨g1, rest1, writes1, e1, e2, e3⟩ := ih (writeChunk env lpAtrIdx g h (charLoop env W rest 0 X 0 0 [] []))
        (charLoop env W rest 0 X 0 0 [] []).rest (charLoop env W rest 0 X 0 0 [] []).PositionX
        (writes ++ [chunkRecord lpAtrIdx g idx h (charLoop env W rest 0 X 0 0 [] [])])
        (AllSingle_suffix hsuf hall) hne2 (by omega) (by omega)
      refine ⟨g1, rest1, writes1, ?_, ?_, e3.trans hsuf⟩
      · rw [chunkLoop]
        simp only [hemp, Bool.false_eq_true, if_false, hi, ne_eq, not_false_eq_true, if_true]
        rw [if_neg, if_neg hfin1]
        · exact e1
        · rintro (h1 | h1 | h1)
          · exact hfin1 h1
          · exact hfin2 h1
          · exact hdw h1
      · rw [e2, hlen2, k4]
        rw [k4] at hfin2
        omega

theorem CreateConvAreaUndetermine_isSome (env : Env) (g : CONSOLE_INFORMATION) (scr : SCREEN_INFORMATION)
    (hs : g.CurrentScreenBuffer = some scr) : ∃ Status g1, CreateConvAreaUndetermine env g = some (Status, g1) := by
  unfold CreateConvAreaUndetermine
  simp only [hs]
  split
  · exact ⟨_, _, rfl⟩
  · split
    · exact ⟨_, _, rfl⟩
    · exact ⟨_, _, rfl⟩

theorem growRegistry_isSome (env : Env) (g : CONSOLE_INFORMATION) (idx : Nat) (scr : SCREEN_INFORMATION)
    (hs : g.CurrentScreenBuffer = some scr) : ∃ Status g1, growRegistry env g idx = some (Status, g1) := by
  unfold growRegistry
  split
  · exact CreateConvAreaUndetermine_isSome env g scr hs
  · exact ⟨_, _, rfl⟩

/-- On single-width printable input the row loop returns, and on success the
number `rows` of rows it used satisfies
`(rows - idx - 1) * W < X + n ≤ (rows - idx) * W` for the `n ≥ 1` characters
streamed from column `X` on, and `ConvAreaCompStr` has grown to `rows` areas
when it had fewer. -/
theorem rowLoop_single (env : Env) (W : Int) (lpAtrIdx : Nat → WORD) (Y : Int) (up : Bool) :
    ∀ (fuel : Nat) (g : CONSOLE_INFORMATION) (idx : Nat) (rest : List (WCHAR × BYTE)) (X : Int)
      (writes : List IME_WRITE) (scr : SCREEN_INFORMATION),
      g.CurrentScreenBuffer = some scr → AllSingle env rest → (rest ≠ [] → 0 ≤ X ∧ X < W) →
      rest.length < fuel → idx ≤ g.ConsoleIme.ConvAreaCompStr.length →
      ∃ r, rowLoop env W lpAtrIdx Y up fuel g idx rest X writes = some r ∧
        (NT_SUCCESS r.Status = true →
          (rest = [] → r.rows = idx) ∧
          (rest ≠ [] → ((r.rows : Int) - idx - 1) * W < X + rest.length ∧
            X + rest.length ≤ ((r.rows : Int) - idx) * W) ∧
          idx ≤ r.rows ∧
          r.g.ConsoleIme.ConvAreaCompStr.length = max g.ConsoleIme.ConvAreaCompStr.length r.rows) := by
  intro fuel
  induction fuel with
  | zero => intro g idx rest X writes scr _ _ _ hlen; omega
  | succ fuel ih =>
    intro g idx rest X writes scr hs hall hX hlen hidx
    by_cases hne : rest = []
    · subst hne
      refine ⟨⟨STATUS_SUCCESS, hideRest g (g.ConsoleIme.ConvAreaCompStr.drop idx), idx, writes⟩,
        by simp [rowLoop], ?_⟩
      intro _
      refine ⟨fun _ => rfl, fun h => absurd rfl h, le_refl _, ?_⟩
      simp only
      rw [(hideRest_spec _ g).2.2.2.1]
      omega
    · have hemp : rest.isEmpty = false := by
        cases rest with
        | nil => exact absurd rfl hne
        | cons p l => rfl
      obtain ⟨hX0, hXW⟩ := hX hne
      obtain ⟨Status, g1, hgrow⟩ := growRegistry_isSome env g idx scr hs
      obtain ⟨c1, c2, c3⟩ := growRegistry_spec env g g1 idx Status hgrow
      by_cases hst : NT_SUCCESS Status = true
      · obtain ⟨g4, rest1, writes1, d1, d2, d3⟩ := chunkLoop_single env W lpAtrIdx idx
          (g1.ConsoleIme.ConvAreaCompStr.getD idx 0)
          ((startRow g1 (g1.ConsoleIme.ConvAreaCompStr.getD idx 0) idx X Y up).ConvAreas
            (g1.ConsoleIme.ConvAreaCompStr.getD idx 0)).ScreenBuffer.CursorPosition.X
          fuel (startRow g1 (g1.ConsoleIme.ConvAreaCompStr.getD idx 0) idx X Y up) rest X writes
          hall hne hXW (by omega)
        obtain ⟨f1, _, _, _⟩ := chunkLoop_inv env W lpAtrIdx idx _ _ fuel _ rest X writes _ d1
        simp only [ChunkExit.state] at f1
        have hreg : g4.ConsoleIme = g1.ConsoleIme := by
          rw [f1.1.1, (startRow_OnlyArea g1 _ idx X Y up).1.1]
        have hscr : g4.CurrentScreenBuffer = some scr := by
          rw [f1.1.2.1, (startRow_OnlyArea g1 _ idx X Y up).1.2.1, c1, hs]
        have hlen1 := c3 hst hidx
        have hnpos : 0 < rest.length := List.length_pos.2 hne
        obtain ⟨r, hr, hprop⟩ := ih g4 (idx + 1) rest1 0 writes1 scr hscr (AllSingle_suffix d3 hall)
          (fun _ => ⟨le_refl _, by omega⟩) (by omega) (by rw [hreg, hlen1]; omega)
        refine ⟨r, ?_, ?_⟩
        · rw [rowLoop]
          simp only [hemp, Bool.false_eq_true, if_false, hgrow, hst, Bool.not_true, d1]
          exact hr
        · intro hok
          obtain ⟨p1, p2, p3, p4⟩ := hprop hok
          refine ⟨fun h => absurd h hne, fun _ => ?_, by omega, ?_⟩
          · by_cases h1 : rest1 = []
            · have hrows := p1 h1
              have hl : rest1.length = 0 := by rw [h1]; rfl
              rw [hrows]
              push_cast
              constructor
              · have : ((idx : Int) + 1 - idx - 1) * W = 0 := by ring
                rw [this]; omega
              · have : ((idx : Int) + 1 - idx) * W = W := by ring
                rw [this]; omega
            · obtain ⟨q1, q2⟩ := p2 h1
              have hl : 0 < rest1.length := List.length_pos.2 h1
              have hl2 : (rest1.length : Int) = X + rest.length - W := by omega
              have e1 : ((r.rows : Int) - (idx + 1 : Nat) - 1) * W = ((r.rows : Int) - idx - 1) * W - W := by
                push_cast; ring
              have e2 : ((r.rows : Int) - (idx + 1 : Nat)) * W = ((r.rows : Int) - idx) * W - W := by
                push_cast; ring
              rw [e1] at q1
              rw [e2] at q2
              constructor
              · linarith
              · linarith
          · rw [p4, hreg, hlen1]
            omega
      · refine ⟨{ Status := Status, g := g1, rows := idx + 1, writes := writes }, ?_, ?_⟩
        · rw [rowLoop]
          simp only [hemp, Bool.false_eq_true, if_false, hgrow]
          simp [hst]
        · intro hok
          exact absurd hok hst

/-! ## The number of rows used -/

theorem WriteUndetermineChars_inside (env : Env) (fuel : Nat) (g : CONSOLE_INFORMATION)
    (scr : SCREEN_INFORMATION) (lpString : List WCHAR) (lpAtr : List BYTE) (lpAtrIdx : Nat → WORD)
    (NumChars : Nat) (hs : g.CurrentScreenBuffer = some scr)
    (hin : (scr.BufferViewport.Left ≤ scr.CursorPosition.X ∧ scr.CursorPosition.X ≤ scr.BufferViewport.Right) ∧
      (scr.BufferViewport.Top ≤ scr.CursorPosition.Y ∧ scr.CursorPosition.Y ≤ scr.BufferViewport.Bottom)) :
    ∃ (Y : Int) (up : Bool),
      WriteUndetermineChars env fuel g lpString lpAtr lpAtrIdx NumChars =
        rowLoop env scr.ScreenWindowSizeX lpAtrIdx Y up fuel { g with CurrentScreenBuffer := some scr } 0
          (inputCells lpString lpAtr NumChars) (scr.CursorPosition.X - scr.BufferViewport.Left) [] := by
  unfold WriteUndetermineChars
  simp only [hs, if_pos hin]
  exact ⟨_, _, rfl⟩

theorem inputCells_length (lpString : List WCHAR) (lpAtr : List BYTE) (NumChars : Nat) :
    (inputCells lpString lpAtr NumChars).length = NumChars := by
  simp [inputCells]

theorem inputCells_AllSingle (env : Env) (lpString : List WCHAR) (lpAtr : List BYTE)
    (hsingle : ∀ c ∈ lpString, UNICODE_SPACE ≤ c ∧ env.IsCharFullWidth c = false) :
    AllSingle env (inputCells lpString lpAtr lpString.length) := by
  intro p hp
  simp only [inputCells, List.mem_map, List.mem_range] at hp
  obtain ⟨k, hk, rfl⟩ := hp
  apply hsingle
  rw [List.getD_eq_getElem _ _ hk]
  exact List.getElem_mem hk

theorem columnCount_single (env : Env) (lpString : List WCHAR)
    (hsingle : ∀ c ∈ lpString, UNICODE_SPACE ≤ c ∧ env.IsCharFullWidth c = false) :
    columnCount env lpString = lpString.length := by
  induction lpString with
  | nil => rfl
  | cons c rest ih =>
    have h1 := (hsingle c (List.mem_cons_self _ _)).2
    have h2 := ih (fun d hd => hsingle d (List.mem_cons_of_mem _ hd))
    simp only [columnCount, h1, h2, List.length_cons]
    push_cast
    ring

theorem ceil_div_of_bounds (a W k : Int) (hW : 0 < W) (h1 : (k - 1) * W < a) (h2 : a ≤ k * W) :
    (a + W - 1) / W = k := by
  apply le_antisymm
  · have : (a + W - 1) / W < k + 1 := by
      rw [Int.ediv_lt_iff_lt_mul hW]
      have e : (k + 1) * W = k * W + W := by ring
      rw [e]; omega
    omega
  · rw [Int.le_ediv_iff_mul_le hW]
    have e : (k - 1) * W = k * W - W := by ring
    rw [e] at h1
    omega

/-- C1 (amended): for a text of `n ≥ 1` single-width printable characters,
streamed with the cursor inside the viewport at a column `X` below the window
width `W`, `WriteUndetermineChars` returns, and on success it has laid the
text over exactly `ceil((X + requiredColumns) / W)` composition rows (for
`X = 0` this is `ceil(requiredColumns / W)`), `ConvAreaCompStr` keeping its
former areas and growing only by the rows that did not exist. -/
theorem C1_streamComposition_rows (env : Env) (fuel : Nat) (g : CONSOLE_INFORMATION)
    (scr : SCREEN_INFORMATION) (lpString : List WCHAR) (lpAtr : List BYTE) (lpAtrIdx : Nat → WORD)
    (hs : g.CurrentScreenBuffer = some scr)
    (hin : (scr.BufferViewport.Left ≤ scr.CursorPosition.X ∧ scr.CursorPosition.X ≤ scr.BufferViewport.Right) ∧
      (scr.BufferViewport.Top ≤ scr.CursorPosition.Y ∧ scr.CursorPosition.Y ≤ scr.BufferViewport.Bottom))
    (hW : scr.CursorPosition.X - scr.BufferViewport.Left < scr.ScreenWindowSizeX)
    (hne : lpString ≠ [])
    (hsingle : ∀ c ∈ lpString, UNICODE_SPACE ≤ c ∧ env.IsCharFullWidth c = false)
    (hfuel : lpString.length < fuel) :
    ∃ r, WriteUndetermineChars env fuel g lpString lpAtr lpAtrIdx lpString.length = some r ∧
      (NT_SUCCESS r.Status = true →
        (r.rows : Int) =
          (scr.CursorPosition.X - scr.BufferViewport.Left + columnCount env lpString +
            scr.ScreenWindowSizeX - 1) / scr.ScreenWindowSizeX ∧
        r.g.ConsoleIme.ConvAreaCompStr.length = max g.ConsoleIme.ConvAreaCompStr.length r.rows ∧
        g.ConsoleIme.ConvAreaCompStr <+: r.g.ConsoleIme.ConvAreaCompStr) := by
  obtain ⟨Y, up, heq⟩ := WriteUndetermineChars_inside env fuel g scr lpString lpAtr lpAtrIdx lpString.length
    hs hin
  have hX0 : 0 ≤ scr.CursorPosition.X - scr.BufferViewport.Left := by omega
  obtain ⟨r, hr, hprop⟩ := rowLoop_single env scr.ScreenWindowSizeX lpAtrIdx Y up fuel
    { g with CurrentScreenBuffer := some scr } 0 (inputCells lpString lpAtr lpString.length)
    (scr.CursorPosition.X - scr.BufferViewport.Left) [] scr rfl
    (inputCells_AllSingle env lpString lpAtr hsingle) (fun _ => ⟨hX0, hW⟩)
    (by rw [inputCells_length]; exact hfuel) (Nat.zero_le _)
  refine ⟨r, heq.trans hr, ?_⟩
  intro hok
  obtain ⟨_, p2, _, p4⟩ := hprop hok
  have hne2 : inputCells lpString lpAtr lpString.length ≠ [] := by
    intro e
    have := inputCells_length lpString lpAtr lpString.length
    rw [e] at this
    exact hne (List.length_eq_zero.1 this.symm)
  obtain ⟨q1, q2⟩ := p2 hne2
  rw [inputCells_length] at q1 q2
  simp only [Nat.cast_zero, sub_zero] at q1 q2
  refine ⟨?_, p4, (rowLoop_inv env _ lpAtrIdx Y up fuel _ 0 _ _ [] r hr).2.1⟩
  rw [columnCount_single env lpString hsingle]
  exact (ceil_div_of_bounds _ _ _ (by omega) q1 q2).symm

/-- C1 at a concrete console: 22 copies of `a` streamed from column 0 of a
window of width 20. -/
theorem C1_streamComposition_rows_witness :
    ∃ r, WriteUndetermineChars exEnv 30 (exConsole 0 []) (List.replicate 22 97) [] (fun _ => 7)
        (List.replicate 22 97).length = some r ∧
      (NT_SUCCESS r.Status = true →
        (r.rows : Int) =
          ((exScreen 20 10 0 3).CursorPosition.X - (exScreen 20 10 0 3).BufferViewport.Left +
            columnCount exEnv (List.replicate 22 97) +
            (exScreen 20 10 0 3).ScreenWindowSizeX - 1) / (exScreen 20 10 0 3).ScreenWindowSizeX ∧
        r.g.ConsoleIme.ConvAreaCompStr.length = max (exConsole 0 []).ConsoleIme.ConvAreaCompStr.length r.rows ∧
        (exConsole 0 []).ConsoleIme.ConvAreaCompStr <+: r.g.ConsoleIme.ConvAreaCompStr) :=
  C1_streamComposition_rows exEnv 30 (exConsole 0 []) (exScreen 20 10 0 3) (List.replicate 22 97) []
    (fun _ => 7) rfl (by decide) (by decide) (by decide) (by decide) (by decide)

/-- C1 fails as stated, in a window of width 20.  With the cursor at column
19, a text of 22 single-width characters (22 columns) is laid over 3 rows,
not `ceil(22 / 20) = 2`.  With the cursor at column 0, the text `exMixedText`
(40 columns) is laid over 3 rows, not `ceil(40 / 20) = 2`, because a
double-width character that does not fit the last column starts the next row. -/
theorem C1_counterexample :
    ((WriteUndetermineChars exEnv 30 (exConsole 19 []) (List.replicate 22 97) (List.replicate 22 0)
        (fun _ => 7) 22).map (fun r => (r.Status, r.rows)) = some (STATUS_SUCCESS, 3) ∧
      (columnCount exEnv (List.replicate 22 97) + 20 - 1) / 20 = 2) ∧
    ((WriteUndetermineChars exEnv 30 (exConsole 0 []) exMixedText (List.replicate 21 0)
        (fun _ => 7) 21).map (fun r => (r.Status, r.rows)) = some (STATUS_SUCCESS, 3) ∧
      (columnCount exEnv exMixedText + 20 - 1) / 20 = 2) := by
  refine ⟨⟨?_, ?_⟩, ⟨?_, ?_⟩⟩ <;> decide

/-! ## The wrap scenario -/

theorem startRow_cursorX (g : CONSOLE_INFORMATION) (h idx : Nat) (X Y : Int) (up : Bool) :
    ((startRow g h idx X Y up).ConvAreas h).ScreenBuffer.CursorPosition.X = X := by
  simp only [startRow]
  split
  · simp only [ConsoleImeViewInfo]
    split <;> simp [setArea]
  · simp [setArea]

/-- One pass of the row loop whose first chunk ends the row: either the row
cannot be created and the failure is returned, or the chunk is written at
column `X` of row `idx` and the loop goes on with the next row at column 0. -/
theorem rowLoop_one_chunk_row (env : Env) (W : Int) (lpAtrIdx : Nat → WORD) (Y : Int) (up : Bool)
    (fuel : Nat) (g : CONSOLE_INFORMATION) (idx : Nat) (rest : List (WCHAR × BYTE)) (X : Int)
    (writes : List IME_WRITE) (scr : SCREEN_INFORMATION)
    (hs : g.CurrentScreenBuffer = some scr) (hne : rest ≠ [])
    (hi : (charLoop env W rest 0 X 0 0 [] []).i ≠ 0)
    (hfin : (charLoop env W rest 0 X 0 0 [] []).rest.isEmpty = true ∨
      (charLoop env W rest 0 X 0 0 [] []).PositionX ≥ W)
    (hidx : idx ≤ g.ConsoleIme.ConvAreaCompStr.length) :
    (∃ r, rowLoop env W lpAtrIdx Y up (fuel + 2) g idx rest X writes = some r ∧ NT_SUCCESS r.Status = false) ∨
    (∃ g4 rec,
      rowLoop env W lpAtrIdx Y up (fuel + 2) g idx rest X writes =
        rowLoop env W lpAtrIdx Y up (fuel + 1) g4 (idx + 1) (charLoop env W rest 0 X 0 0 [] []).rest 0
          (writes ++ [rec]) ∧
      rec.ConvAreaIndex = idx ∧ rec.TargetX = X ∧
      rec.String = (charLoop env W rest 0 X 0 0 [] []).LocalBuffer ∧
      rec.StringA = (charLoop env W rest 0 X 0 0 [] []).LocalBufferA ∧
      g4.CurrentScreenBuffer = some scr ∧
      g4.ConsoleIme.ConvAreaCompStr.length = max g.ConsoleIme.ConvAreaCompStr.length (idx + 1)) := by
  have hemp : rest.isEmpty = false := by
    cases rest with
    | nil => exact absurd rfl hne
    | cons p l => rfl
  obtain ⟨Status, g1, hgrow⟩ := growRegistry_isSome env g idx scr hs
  obtain ⟨c1, _, c3⟩ := growRegistry_spec env g g1 idx Status hgrow
  by_cases hst : NT_SUCCESS Status = true
  · right
    have hchunk : chunkLoop env W lpAtrIdx idx (g1.ConsoleIme.ConvAreaCompStr.getD idx 0)
        ((startRow g1 (g1.ConsoleIme.ConvAreaCompStr.getD idx 0) idx X Y up).ConvAreas
          (g1.ConsoleIme.ConvAreaCompStr.getD idx 0)).ScreenBuffer.CursorPosition.X
        (fuel + 1) (startRow g1 (g1.ConsoleIme.ConvAreaCompStr.getD idx 0) idx X Y up) rest X writes =
        some (ChunkExit.toRowLoop
          (finalizeRow (writeChunk env lpAtrIdx (startRow g1 (g1.ConsoleIme.ConvAreaCompStr.getD idx 0) idx X Y up)
              (g1.ConsoleIme.ConvAreaCompStr.getD idx 0) (charLoop env W rest 0 X 0 0 [] []))
            (g1.ConsoleIme.ConvAreaCompStr.getD idx 0)
            ((startRow g1 (g1.ConsoleIme.ConvAreaCompStr.getD idx 0) idx X Y up).ConvAreas
              (g1.ConsoleIme.ConvAreaCompStr.getD idx 0)).ScreenBuffer.CursorPosition.X)
          (charLoop env W rest 0 X 0 0 [] []).rest 0
          (writes ++ [chunkRecord lpAtrIdx (startRow g1 (g1.ConsoleIme.ConvAreaCompStr.getD idx 0) idx X Y up)
            idx (g1.ConsoleIme.ConvAreaCompStr.getD idx 0) (charLoop env W rest 0 X 0 0 [] [])])) := by
      rw [chunkLoop]
      simp only [hemp, Bool.false_eq_true, if_false, hi, ne_eq, not_false_eq_true, if_true]
      rw [if_pos]
      rcases hfin with h1 | h1
      · exact Or.inl h1
      · exact Or.inr (Or.inl h1)
    obtain ⟨f1, _, _, _⟩ := chunkLoop_inv env W lpAtrIdx idx _ _ (fuel + 1) _ rest X writes _ hchunk
    simp only [ChunkExit.state] at f1
    refine ⟨finalizeRow (writeChunk env lpAtrIdx
          (startRow g1 (g1.ConsoleIme.ConvAreaCompStr.getD idx 0) idx X Y up)
          (g1.ConsoleIme.ConvAreaCompStr.getD idx 0) (charLoop env W rest 0 X 0 0 [] []))
        (g1.ConsoleIme.ConvAreaCompStr.getD idx 0)
        ((startRow g1 (g1.ConsoleIme.ConvAreaCompStr.getD idx 0) idx X Y up).ConvAreas
          (g1.ConsoleIme.ConvAreaCompStr.getD idx 0)).ScreenBuffer.CursorPosition.X,
      chunkRecord lpAtrIdx (startRow g1 (g1.ConsoleIme.ConvAreaCompStr.getD idx 0) idx X Y up)
        idx (g1.ConsoleIme.ConvAreaCompStr.getD idx 0) (charLoop env W rest 0 X 0 0 [] []),
      ?_, rfl, ?_, rfl, rfl, ?_, ?_⟩
    · rw [rowLoop]
      simp only [hemp, Bool.false_eq_true, if_false, hgrow, hst, Bool.not_true, hchunk]
    · simp only [chunkRecord]
      exact startRow_cursorX g1 _ idx X Y up
    · rw [f1.1.2.1, (startRow_OnlyArea g1 _ idx X Y up).1.2.1, c1, hs]
    · rw [f1.1.1, (startRow_OnlyArea g1 _ idx X Y up).1.1]
      exact c3 hst hidx
  · left
    refine ⟨⟨Status, g1, idx + 1, writes⟩, ?_, by simpa using hst⟩
    rw [rowLoop]
    simp only [hemp, Bool.false_eq_true, if_false, hgrow]
    simp [hst]

theorem rowLoop_done (env : Env) (W : Int) (lpAtrIdx : Nat → WORD) (Y : Int) (up : Bool) (fuel : Nat)
    (g : CONSOLE_INFORMATION) (idx : Nat) (X : Int) (writes : List IME_WRITE) :
    rowLoop env W lpAtrIdx Y up (fuel + 1) g idx [] X writes =
      some ⟨STATUS_SUCCESS, hideRest g (g.ConsoleIme.ConvAreaCompStr.drop idx), idx, writes⟩ := by
  simp [rowLoop]

theorem inputCells_two (c1 c2 : WCHAR) (a b : BYTE) :
    inputCells [c1, c2] [a, b] 2 = [(c1, a), (c2, b)] := by
  rfl

/-- C3 (amended): with window width 20, the cursor inside the viewport and a
text of two single-width printable characters under one attribute, the call
returns and, on success: with the cursor at column 18 both characters are
written by one row writer call at column 18 of the first composition row (the
second lands in column 19) and one row is used; with the cursor at column 19
the first character is written at column 19 of the first composition row and
the second at column 0 of a second composition row, which is created if it did
not exist. -/
theorem C3_streamComposition_wrap (env : Env) (fuel : Nat) (g : CONSOLE_INFORMATION)
    (scr : SCREEN_INFORMATION) (c1 c2 : WCHAR) (a : BYTE) (lpAtrIdx : Nat → WORD)
    (hs : g.CurrentScreenBuffer = some scr)
    (hin : (scr.BufferViewport.Left ≤ scr.CursorPosition.X ∧ scr.CursorPosition.X ≤ scr.BufferViewport.Right) ∧
      (scr.BufferViewport.Top ≤ scr.CursorPosition.Y ∧ scr.CursorPosition.Y ≤ scr.BufferViewport.Bottom))
    (hW : scr.ScreenWindowSizeX = 20)
    (h1 : UNICODE_SPACE ≤ c1 ∧ env.IsCharFullWidth c1 = false)
    (h2 : UNICODE_SPACE ≤ c2 ∧ env.IsCharFullWidth c2 = false)
    (hX : scr.CursorPosition.X - scr.BufferViewport.Left = 18 ∨
      scr.CursorPosition.X - scr.BufferViewport.Left = 19) :
    ∃ r, WriteUndetermineChars env (fuel + 3) g [c1, c2] [a, a] lpAtrIdx 2 = some r ∧
      (NT_SUCCESS r.Status = true →
        (scr.CursorPosition.X - scr.BufferViewport.Left = 18 →
          r.rows = 1 ∧
          r.writes.map (fun w => (w.ConvAreaIndex, w.TargetX, w.String, w.StringA)) =
            [(0, 18, [c1, c2], [0, 0])]) ∧
        (scr.CursorPosition.X - scr.BufferViewport.Left = 19 →
          r.rows = 2 ∧
          r.writes.map (fun w => (w.ConvAreaIndex, w.TargetX, w.String, w.StringA)) =
            [(0, 19, [c1], [0]), (1, 0, [c2], [0])] ∧
          r.g.ConsoleIme.ConvAreaCompStr.length = max g.ConsoleIme.ConvAreaCompStr.length 2)) := by
  obtain ⟨Y, up, heq⟩ := WriteUndetermineChars_inside env (fuel + 3) g scr [c1, c2] [a, a] lpAtrIdx 2 hs hin
  rw [heq, inputCells_two, hW]
  have hfail : ∀ (r : StreamResult) (P : Prop), NT_SUCCESS r.Status = false →
      NT_SUCCESS r.Status = true → P := by
    intro r P hf ht
    rw [hf] at ht
    cases ht
  rcases hX with h18 | h19
  · rw [h18]
    have hc : charLoop env 20 [(c1, a), (c2, a)] 0 18 0 0 [] [] = ⟨[], 2, 20, c2, a, [c1, c2], [0, 0]⟩ := by
      simp [charLoop, attrChanges, h1.1, h1.2, h2.1, h2.2, LOCAL_BUFFER_SIZE]
    rcases rowLoop_one_chunk_row env 20 lpAtrIdx Y up (fuel + 1) { g with CurrentScreenBuffer := some scr } 0
        [(c1, a), (c2, a)] 18 [] scr rfl (List.cons_ne_nil _ _) (by rw [hc]; simp)
        (Or.inl (by rw [hc]; rfl)) (Nat.zero_le _) with ⟨r, hr, hf⟩ | ⟨g4, rec, hr, e1, e2, e3, e4, _, _⟩
    · exact ⟨r, hr, fun hok => hfail r _ hf hok⟩
    · rw [hr, hc, rowLoop_done]
      refine ⟨_, rfl, fun _ => ⟨fun _ => ⟨rfl, ?_⟩, fun h => ?_⟩⟩
      · simp [e1, e2, e3, e4, hc]
      · omega
  · rw [h19]
    have hc : charLoop env 20 [(c1, a), (c2, a)] 0 19 0 0 [] [] = ⟨[(c2, a)], 1, 20, c1, a, [c1], [0]⟩ := by
      simp [charLoop, attrChanges, h1.1, h1.2, LOCAL_BUFFER_SIZE]
    have hc2 : charLoop env 20 [(c2, a)] 0 0 0 0 [] [] = ⟨[], 1, 1, c2, a, [c2], [0]⟩ := by
      simp [charLoop, attrChanges, h2.1, h2.2, LOCAL_BUFFER_SIZE]
    rcases rowLoop_one_chunk_row env 20 lpAtrIdx Y up (fuel + 1) { g with CurrentScreenBuffer := some scr } 0
        [(c1, a), (c2, a)] 19 [] scr rfl (List.cons_ne_nil _ _) (by rw [hc]; simp)
        (Or.inr (by rw [hc])) (Nat.zero_le _) with ⟨r, hr, hf⟩ | ⟨g4, rec, hr, e1, e2, e3, e4, e5, e6⟩
    · exact ⟨r, hr, fun hok => hfail r _ hf hok⟩
    · rw [hr, hc]
      rcases rowLoop_one_chunk_row env 20 lpAtrIdx Y up fuel g4 1 [(c2, a)] 0 ([] ++ [rec]) scr e5
          (List.cons_ne_nil _ _) (by rw [hc2]; simp) (Or.inl (by rw [hc2]; rfl))
          (by rw [e6]; simp) with ⟨r, hr2, hf⟩ | ⟨g5, rec2, hr2, d1, d2, d3, d4, _, d6⟩
      · exact ⟨r, hr2, fun hok => hfail r _ hf hok⟩
      · rw [hr2, hc2, rowLoop_done]
        refine ⟨_, rfl, fun _ => ⟨fun h => ?_, fun _ => ⟨rfl, ?_, ?_⟩⟩⟩
        · omega
        · simp [e1, e2, e3, e4, d1, d2, d3, d4, hc, hc2]
        · simp only
          rw [(hideRest_spec _ g5).2.2.2.1, d6, e6]
          simp only [zero_add]
          omega

/-- C3 (amended) at a concrete console: the text `ab` with the cursor at
column 19 of a window of width 20. -/
theorem C3_streamComposition_wrap_witness :
    ∃ r, WriteUndetermineChars exEnv (0 + 3) (exConsole 19 []) [97, 98] [0, 0] (fun _ => 7) 2 = some r ∧
      (NT_SUCCESS r.Status = true →
        ((exScreen 20 10 19 3).CursorPosition.X - (exScreen 20 10 19 3).BufferViewport.Left = 18 →
          r.rows = 1 ∧
          r.writes.map (fun w => (w.ConvAreaIndex, w.TargetX, w.String, w.StringA)) =
            [(0, 18, [97, 98], [0, 0])]) ∧
        ((exScreen 20 10 19 3).CursorPosition.X - (exScreen 20 10 19 3).BufferViewport.Left = 19 →
          r.rows = 2 ∧
          r.writes.map (fun w => (w.ConvAreaIndex, w.TargetX, w.String, w.StringA)) =
            [(0, 19, [97], [0]), (1, 0, [98], [0])] ∧
          r.g.ConsoleIme.ConvAreaCompStr.length = max (exConsole 19 []).ConsoleIme.ConvAreaCompStr.length 2)) :=
  C3_streamComposition_wrap exEnv 0 (exConsole 19 []) (exScreen 20 10 19 3) 97 98 0 (fun _ => 7) rfl
    (by decide) rfl (by decide) (by decide) (Or.inr (by decide))
/-! ## Overlay factory: failure, linking, created rows -/

theorem AllocateConversionArea_error (env : Env) (g : CONSOLE_INFORMATION) (size : COORD) (Status : NTSTATUS)
    (he : (AllocateConversionArea env g size).2 = Except.error Status) :
    (AllocateConversionArea env g size).1.ConvAreas = g.ConvAreas ∧
    (AllocateConversionArea env g size).1.nextArea = g.nextArea := by
  rcases Option.eq_none_or_eq_some g.CurrentScreenBuffer with hs | ⟨scr, hs⟩
  · simp [AllocateConversionArea, hs]
  · simp only [AllocateConversionArea, hs] at he ⊢
    split_ifs at he ⊢
    all_goals exact ⟨rfl, rfl⟩

/-- C15: with no primary surface `AllocateConversionArea` fails with
`STATUS_UNSUCCESSFUL` and changes nothing; and whenever
`AllocateConversionArea` fails, `SetUpConversionArea` returns that failing
status and leaves the chain `ConvAreaRoot`, the composition rows, the
conversion areas and the handle counter as they were. -/
theorem C15_SetUpConversionArea_failure (env : Env) (g : CONSOLE_INFORMATION) (size : COORD) (rc : SMALL_RECT)
    (view : COORD) (opt : Nat) :
    (g.CurrentScreenBuffer = none →
      (AllocateConversionArea env g size).2 = Except.error STATUS_UNSUCCESSFUL) ∧
    (∀ Status, (AllocateConversionArea env g size).2 = Except.error Status →
      (SetUpConversionArea env g size rc view opt).2 = Except.error Status ∧
      NT_SUCCESS Status = false ∧
      (SetUpConversionArea env g size rc view opt).1.ConsoleIme.ConvAreaRoot = g.ConsoleIme.ConvAreaRoot ∧
      (SetUpConversionArea env g size rc view opt).1.ConsoleIme.ConvAreaCompStr = g.ConsoleIme.ConvAreaCompStr ∧
      (SetUpConversionArea env g size rc view opt).1.ConvAreas = g.ConvAreas ∧
      (SetUpConversionArea env g size rc view opt).1.nextArea = g.nextArea) := by
  constructor
  · intro hs
    simp [AllocateConversionArea, hs]
  · intro Status he
    obtain ⟨_, a2, a3⟩ := AllocateConversionArea_spec env g size
    obtain ⟨b1, b2⟩ := AllocateConversionArea_error env g size Status he
    unfold SetUpConversionArea
    rcases hA : AllocateConversionArea env g size with ⟨g1, res⟩
    rw [hA] at he a2 a3 b1 b2
    simp only at he a2 a3 b1 b2
    subst he
    refine ⟨rfl, a3 Status rfl, ?_, ?_, b1, b2⟩
    · show g1.ConsoleIme.ConvAreaRoot = _
      rw [a2]
    · show g1.ConsoleIme.ConvAreaCompStr = _
      rw [a2]

/-- C15 at a console with two conversion areas and no primary surface:
`SetUpConversionArea` returns `STATUS_UNSUCCESSFUL` and the chain is still
`[0, 1]`. -/
theorem C15_SetUpConversionArea_failure_witness :
    (SetUpConversionArea exEnv { exConsole 0 [exVisible, exHidden] with CurrentScreenBuffer := none }
        { X := 20, Y := 1 } { Left := 0, Top := 0, Right := 0, Bottom := 0 } { X := 0, Y := 0 } CA_HIDDEN).2 =
      Except.error STATUS_UNSUCCESSFUL ∧
    (SetUpConversionArea exEnv { exConsole 0 [exVisible, exHidden] with CurrentScreenBuffer := none }
        { X := 20, Y := 1 } { Left := 0, Top := 0, Right := 0, Bottom := 0 } { X := 0, Y := 0 }
        CA_HIDDEN).1.ConsoleIme.ConvAreaRoot = [0, 1] :=
  ⟨((C15_SetUpConversionArea_failure exEnv { exConsole 0 [exVisible, exHidden] with CurrentScreenBuffer := none }
      { X := 20, Y := 1 } { Left := 0, Top := 0, Right := 0, Bottom := 0 } { X := 0, Y := 0 } CA_HIDDEN).2
      STATUS_UNSUCCESSFUL rfl).1,
   ((C15_SetUpConversionArea_failure exEnv { exConsole 0 [exVisible, exHidden] with CurrentScreenBuffer := none }
      { X := 20, Y := 1 } { Left := 0, Top := 0, Right := 0, Bottom := 0 } { X := 0, Y := 0 } CA_HIDDEN).2
      STATUS_UNSUCCESSFUL rfl).2.2.1⟩

theorem IsChain_unique (next : Nat → Option Nat) :
    ∀ (c c2 : List Nat) (p : Option Nat), IsChain next p c → IsChain next p c2 → c = c2
  | [], [], _, _, _ => rfl
  | [], _ :: _, p, h1, h2 => by
    simp only [IsChain] at h1 h2
    rw [h1] at h2
    cases h2.1
  | _ :: _, [], p, h1, h2 => by
    simp only [IsChain] at h1 h2
    rw [h2] at h1
    cases h1.1
  | a :: r, b :: r2, p, h1, h2 => by
    simp only [IsChain] at h1 h2
    have hab : a = b := Option.some.inj (h1.1.symm.trans h2.1)
    subst hab
    rw [IsChain_unique next r r2 _ h1.2 h2.2]

theorem IsChain_mem_suffix (next : Nat → Option Nat) :
    ∀ (c : List Nat) (p : Option Nat) (h : Nat), IsChain next p c → h ∈ c →
      ∃ b : List Nat, b.length < c.length ∧ IsChain next (next h) b
  | [], _, _, _, hm => by cases hm
  | a :: r, p, h, hc, hm => by
    simp only [IsChain] at hc
    by_cases hah : h = a
    · subst hah
      exact ⟨r, by simp, hc.2⟩
    · have hr : h ∈ r := by
        rcases List.mem_cons.1 hm with e | e
        · exact absurd e hah
        · exact e
      obtain ⟨b, hb1, hb2⟩ := IsChain_mem_suffix next r _ h hc.2 hr
      exact ⟨b, by simp only [List.length_cons]; omega, hb2⟩

/-- A chain that ends in a null link meets no conversion area twice. -/
theorem IsChain_nodup (next : Nat → Option Nat) :
    ∀ (c : List Nat) (p : Option Nat), IsChain next p c → c.Nodup
  | [], _, _ => List.nodup_nil
  | a :: r, p, hc => by
    have hc2 := hc
    simp only [IsChain] at hc2
    refine List.nodup_cons.2 ⟨?_, IsChain_nodup next r _ hc2.2⟩
    intro hm
    obtain ⟨b, hb1, hb2⟩ := IsChain_mem_suffix next r _ a hc2.2 hm
    have := IsChain_unique next r b _ hc2.2 hb2
    rw [this] at hb1
    exact Nat.lt_irrefl _ hb1

/-- The walk of `LinkConversionArea` along a chain `a :: c` stops at a
conversion area of the chain, and setting the link of that conversion area to
`o` makes the chain `a :: c ++ [o]`. -/
theorem LinkConversionArea_walk_spec (next : Nat → Option Nat) (o : Nat) (ho : next o = none) :
    ∀ (c : List Nat) (a : Nat), IsChain next (some a) (a :: c) → o ∉ a :: c →
      ∃ Prev, LinkConversionArea_walk next (c.length + 1) a = some Prev ∧ Prev ∈ a :: c ∧
        IsChain (fun k => if k = Prev then some o else next k) (some a) (a :: c ++ [o])
  | [], a, hc, hn => by
    simp only [IsChain, true_and] at hc
    have hoa : o ≠ a := fun e => hn (by rw [e]; exact List.mem_singleton.2 rfl)
    refine ⟨a, ?_, List.mem_singleton.2 rfl, ?_⟩
    · simp [LinkConversionArea_walk, hc]
    · simp only [List.nil_append, List.cons_append, IsChain, true_and, if_true, if_neg hoa, ho]
  | b :: r, a, hc, hn => by
    have hnd := IsChain_nodup next _ _ hc
    simp only [IsChain, true_and] at hc
    have hcb : IsChain next (some b) (b :: r) := by
      simp only [IsChain, true_and]
      exact hc.2
    have hnb : o ∉ b :: r := fun hm => hn (List.mem_cons_of_mem _ hm)
    obtain ⟨Prev, w1, w2, w3⟩ := LinkConversionArea_walk_spec next o ho r b hcb hnb
    have haP : a ≠ Prev := by
      intro e
      rw [← e] at w2
      exact (List.nodup_cons.1 hnd).1 w2
    refine ⟨Prev, ?_, List.mem_cons_of_mem _ w2, ?_⟩
    · simp only [List.length_cons, LinkConversionArea_walk, hc.1]
      exact w1
    · have : IsChain (fun k => if k = Prev then some o else next k) (some a) (a :: (b :: r ++ [o])) := by
        rw [IsChain]
        refine ⟨rfl, ?_⟩
        simp only [if_neg haP, hc.1]
        exact w3
      exact this

/-- `LinkConversionArea` on the links: when the links represent the chain `c`
and `o` is a conversion area outside the chain whose own link is null, the
routine returns (within `c.length` steps of its walk) and the links then
represent `c ++ [o]`; the link of `o` is still null. -/
theorem LinkConversionArea_links_spec (s : ChainLinks) (c : List Nat) (o : Nat)
    (hc : IsChain s.ConvAreaNext s.ConvAreaRoot c) (hn : o ∉ c) (ho : s.ConvAreaNext o = none) :
    ∃ s1, LinkConversionArea_links c.length s o = some s1 ∧
      IsChain s1.ConvAreaNext s1.ConvAreaRoot (c ++ [o]) ∧ s1.ConvAreaNext o = none := by
  cases c with
  | nil =>
    simp only [IsChain] at hc
    refine ⟨{ s with ConvAreaRoot := some o }, ?_, ?_, ho⟩
    · simp [LinkConversionArea_links, hc]
    · simp only [List.nil_append, IsChain, true_and]
      exact ho
  | cons a r =>
    have hc2 := hc
    simp only [IsChain] at hc2
    have hca : IsChain s.ConvAreaNext (some a) (a :: r) := by
      rw [← hc2.1]; exact hc
    obtain ⟨Prev, w1, w2, w3⟩ := LinkConversionArea_walk_spec s.ConvAreaNext o ho r a hca hn
    have hoP : o ≠ Prev := fun e => hn (by rw [e]; exact w2)
    refine ⟨{ s with ConvAreaNext := fun k => if k = Prev then some o else s.ConvAreaNext k }, ?_, ?_, ?_⟩
    · simp only [LinkConversionArea_links, hc2.1, List.length_cons] at w1 ⊢
      rw [w1]
    · simp only [hc2.1]
      exact w3
    · simp only [if_neg hoP]
      exact ho

theorem LinkConversionArea_chain (g : CONSOLE_INFORMATION) (h : Nat) :
    (LinkConversionArea g h).ConsoleIme.ConvAreaRoot = g.ConsoleIme.ConvAreaRoot ++ [h] ∧
    (LinkConversionArea g h).ConsoleIme.ConvAreaCompStr = g.ConsoleIme.ConvAreaCompStr ∧
    (LinkConversionArea g h).CurrentScreenBuffer = g.CurrentScreenBuffer := by
  unfold LinkConversionArea
  split
  · rename_i he
    simp [he]
  · exact ⟨rfl, rfl, rfl⟩

theorem SetUndetermineAttribute_area (g : CONSOLE_INFORMATION) :
    (SetUndetermineAttribute g).ConsoleIme = g.ConsoleIme ∧
    (∀ k, ((SetUndetermineAttribute g).ConvAreas k).CaInfo = (g.ConvAreas k).CaInfo ∧
      ((SetUndetermineAttribute g).ConvAreas k).ScreenBuffer.ScreenBufferSize =
        (g.ConvAreas k).ScreenBuffer.ScreenBufferSize ∧
      ((SetUndetermineAttribute g).ConvAreas k).ScreenBuffer.ScreenWindowSizeX =
        (g.ConvAreas k).ScreenBuffer.ScreenWindowSizeX ∧
      ((SetUndetermineAttribute g).ConvAreas k).ScreenBuffer.ScreenWindowSizeY =
        (g.ConvAreas k).ScreenBuffer.ScreenWindowSizeY) := by
  unfold SetUndetermineAttribute
  split
  · exact ⟨rfl, fun _ => ⟨rfl, rfl, rfl, rfl⟩⟩
  · refine ⟨rfl, fun k => ?_⟩
    simp only
    split <;> exact ⟨rfl, rfl, rfl, rfl⟩

theorem AllocateConversionArea_buffer (env : Env) (g : CONSOLE_INFORMATION) (size : COORD) (h : Nat)
    (hok : (AllocateConversionArea env g size).2 = Except.ok h) :
    ((AllocateConversionArea env g size).1.ConvAreas h).ScreenBuffer.ScreenBufferSize = size ∧
    ∃ cur, g.CurrentScreenBuffer = some cur ∧
      ((AllocateConversionArea env g size).1.ConvAreas h).ScreenBuffer.ScreenWindowSizeX = cur.ScreenWindowSizeX ∧
      ((AllocateConversionArea env g size).1.ConvAreas h).ScreenBuffer.ScreenWindowSizeY = cur.ScreenWindowSizeY := by
  rcases Option.eq_none_or_eq_some g.CurrentScreenBuffer with hs | ⟨scr, hs⟩
  · simp [AllocateConversionArea, hs] at hok
  · simp only [AllocateConversionArea, hs] at hok ⊢
    split_ifs at hok ⊢
    simp only [Except.ok.injEq] at hok
    subst hok
    rw [setArea_ConvAreas_self]
    exact ⟨rfl, scr, rfl, rfl, rfl⟩

/-- What a successful `SetUpConversionArea` leaves: the new conversion area
has the handle `nextArea`, is linked behind the chain, and carries the
placement, the mode and the buffer size that were asked for. -/
theorem SetUpConversionArea_result (env : Env) (g g1 : CONSOLE_INFORMATION) (size : COORD) (rc : SMALL_RECT)
    (view : COORD) (opt : Nat) (h : Nat)
    (hset : SetUpConversionArea env g size rc view opt = (g1, Except.ok h)) :
    h = g.nextArea ∧
    g1.ConsoleIme.ConvAreaRoot = g.ConsoleIme.ConvAreaRoot ++ [h] ∧
    (g1.ConvAreas h).CaInfo = { coordCaBuffer := size, rcViewCaWindow := rc, coordConView := view } ∧
    (g1.ConvAreas h).ConversionAreaMode = opt ∧
    (g1.ConvAreas h).ScreenBuffer.ScreenBufferSize = size ∧
    ∃ cur, g.CurrentScreenBuffer = some cur ∧
      (g1.ConvAreas h).ScreenBuffer.ScreenWindowSizeX = cur.ScreenWindowSizeX ∧
      (g1.ConvAreas h).ScreenBuffer.ScreenWindowSizeY = cur.ScreenWindowSizeY := by
  have hmode := SetUpConversionArea_ok env g size rc view opt h (by rw [hset])
  rw [hset] at hmode
  simp only at hmode
  obtain ⟨_, a1, _⟩ := AllocateConversionArea_spec env g size
  unfold SetUpConversionArea at hset
  rcases hA : AllocateConversionArea env g size with ⟨g0, res⟩
  rw [hA] at hset a1
  simp only at a1
  cases res with
  | error st => simp only [Prod.mk.injEq] at hset; cases hset.2
  | ok h1 =>
    simp only [Prod.mk.injEq, Except.ok.injEq] at hset
    obtain ⟨hg, hh⟩ := hset
    subst hh
    have hsz := AllocateConversionArea_buffer env g size h1 (by rw [hA])
    rw [hA] at hsz
    simp only at hsz
    subst hg
    obtain ⟨s1, s2⟩ := SetUndetermineAttribute_area
      (LinkConversionArea (setArea g0 h1
        { g0.ConvAreas h1 with
          ConversionAreaMode := opt
          CaInfo := { coordCaBuffer := size, rcViewCaWindow := rc, coordConView := view } }) h1)
    obtain ⟨l1, _, _⟩ := LinkConversionArea_chain (setArea g0 h1
        { g0.ConvAreas h1 with
          ConversionAreaMode := opt
          CaInfo := { coordCaBuffer := size, rcViewCaWindow := rc, coordConView := view } }) h1
    obtain ⟨f1, _⟩ := LinkConversionArea_frame (setArea g0 h1
        { g0.ConvAreas h1 with
          ConversionAreaMode := opt
          CaInfo := { coordCaBuffer := size, rcViewCaWindow := rc, coordConView := view } }) h1
    obtain ⟨k1, k2, k3, k4⟩ := s2 h1
    rw [f1, setArea_ConvAreas_self] at k1 k2 k3 k4
    refine ⟨hmode.1, ?_, k1, hmode.2.2.1, ?_, ?_⟩
    · rw [s1, l1]
      show g0.ConsoleIme.ConvAreaRoot ++ [h1] = _
      rw [a1]
    · rw [k2]; exact hsz.1
    · obtain ⟨cur, c1, c2, c3⟩ := hsz.2
      exact ⟨cur, c1, by rw [k3]; exact c2, by rw [k4]; exact c3⟩

theorem IsChain_update (next : Nat → Option Nat) (h : Nat) :
    ∀ (c : List Nat) (p : Option Nat), IsChain next p c → h ∉ c →
      IsChain (fun k => if k = h then none else next k) p c
  | [], _, hc, _ => hc
  | a :: r, p, hc, hn => by
    simp only [IsChain] at hc ⊢
    have hah : a ≠ h := fun e => hn (by rw [e]; exact List.mem_cons_self _ _)
    refine ⟨hc.1, ?_⟩
    simp only [if_neg hah]
    exact IsChain_update next h r _ hc.2 (fun hm => hn (List.mem_cons_of_mem _ hm))

theorem chainFrom_append_self (c : List Nat) (h : Nat) (hn : h ∉ c) : chainFrom (c ++ [h]) h = [h] := by
  have hd : (c ++ [h]).dropWhile (fun k => k != h) = [h] := by
    induction c with
    | nil => simp [List.dropWhile]
    | cons a r ih =>
      have hah : a ≠ h := fun e => hn (by rw [e]; exact List.mem_cons_self _ _)
      have hr : h ∉ r := fun hm => hn (List.mem_cons_of_mem _ hm)
      simp only [List.cons_append, List.dropWhile_cons, bne_iff_ne, ne_eq, hah, not_false_eq_true,
        if_true, decide_True]
      simpa using ih hr
  unfold chainFrom
  rw [hd]

/-- C17: when `SetUpConversionArea` succeeds with the new conversion area `h`,
the chain is the previous chain followed by `h` (all previous conversion areas
in their previous order, `h` last); `h` was not in the chain before (the
handles of the chain being allocated ones), nothing is linked behind `h`, and
on links that represent the previous chain the walk of `LinkConversionArea`
returns and leaves links that represent the new chain, with the link of `h`
null. -/
theorem C17_SetUpConversionArea_appends (env : Env) (g g1 : CONSOLE_INFORMATION) (size : COORD)
    (rc : SMALL_RECT) (view : COORD) (opt : Nat) (h : Nat)
    (hfresh : ∀ k ∈ g.ConsoleIme.ConvAreaRoot, k < g.nextArea)
    (hset : SetUpConversionArea env g size rc view opt = (g1, Except.ok h)) :
    g1.ConsoleIme.ConvAreaRoot = g.ConsoleIme.ConvAreaRoot ++ [h] ∧
    h ∉ g.ConsoleIme.ConvAreaRoot ∧
    chainFrom g1.ConsoleIme.ConvAreaRoot h = [h] ∧
    ∀ s : ChainLinks, IsChain s.ConvAreaNext s.ConvAreaRoot g.ConsoleIme.ConvAreaRoot →
      ∃ s1, LinkConversionArea_links g.ConsoleIme.ConvAreaRoot.length
          { s with ConvAreaNext := fun k => if k = h then none else s.ConvAreaNext k } h = some s1 ∧
        IsChain s1.ConvAreaNext s1.ConvAreaRoot g1.ConsoleIme.ConvAreaRoot ∧
        s1.ConvAreaNext h = none := by
  obtain ⟨r1, r2, _⟩ := SetUpConversionArea_result env g g1 size rc view opt h hset
  have hn : h ∉ g.ConsoleIme.ConvAreaRoot := by
    intro hm
    have := hfresh h hm
    omega
  refine ⟨r2, hn, ?_, ?_⟩
  · rw [r2]
    exact chainFrom_append_self _ _ hn
  · intro s hc
    rw [r2]
    exact LinkConversionArea_links_spec
      { s with ConvAreaNext := fun k => if k = h then none else s.ConvAreaNext k }
      g.ConsoleIme.ConvAreaRoot h (IsChain_update s.ConvAreaNext h _ _ hc hn) hn (by simp)

/-- C17 at a console whose chain is `[0, 1]`: the new conversion area is `2`
and the chain becomes `[0, 1, 2]`. -/
theorem C17_SetUpConversionArea_appends_witness :
    (SetUpConversionArea exEnv (exConsole 0 [exVisible, exHidden]) { X := 20, Y := 1 }
      { Left := 0, Top := 0, Right := 0, Bottom := 0 } { X := 0, Y := 0 } CA_HIDDEN).1.ConsoleIme.ConvAreaRoot =
      [0, 1, 2] :=
  (C17_SetUpConversionArea_appends exEnv (exConsole 0 [exVisible, exHidden])
    (SetUpConversionArea exEnv (exConsole 0 [exVisible, exHidden]) { X := 20, Y := 1 }
      { Left := 0, Top := 0, Right := 0, Bottom := 0 } { X := 0, Y := 0 } CA_HIDDEN).1
    { X := 20, Y := 1 } { Left := 0, Top := 0, Right := 0, Bottom := 0 } { X := 0, Y := 0 } CA_HIDDEN 2
    (by decide) rfl).1

/-- C18 (amended): the conversion area that `CreateConvAreaUndetermine`
creates is one row tall and as many columns wide as the buffer of the primary
surface (`ScreenBufferSize.X`), both in its placement data and in its own
buffer; its rectangle and offset are zero and its hidden flag is set; on
success it is the last element of `ConvAreaCompStr` and the last element of
the chain. -/
theorem C18_CreateConvAreaUndetermine_row (env : Env) (g g1 : CONSOLE_INFORMATION) (Status : NTSTATUS)
    (cur : SCREEN_INFORMATION) (hs : g.CurrentScreenBuffer = some cur)
    (hc : CreateConvAreaUndetermine env g = some (Status, g1)) (hok : NT_SUCCESS Status = true) :
    g1.ConsoleIme.ConvAreaCompStr = g.ConsoleIme.ConvAreaCompStr ++ [g.nextArea] ∧
    g1.ConsoleIme.ConvAreaRoot = g.ConsoleIme.ConvAreaRoot ++ [g.nextArea] ∧
    (g1.ConvAreas g.nextArea).CaInfo =
      { coordCaBuffer := { X := cur.ScreenBufferSize.X, Y := 1 },
        rcViewCaWindow := { Left := 0, Top := 0, Right := 0, Bottom := 0 },
        coordConView := { X := 0, Y := 0 } } ∧
    (g1.ConvAreas g.nextArea).ScreenBuffer.ScreenBufferSize = { X := cur.ScreenBufferSize.X, Y := 1 } ∧
    (g1.ConvAreas g.nextArea).ConversionAreaMode &&& CA_HIDDEN ≠ 0 := by
  obtain ⟨c1, _, c3, _⟩ := CreateConvAreaUndetermine_created env g g1 Status hc hok
  unfold CreateConvAreaUndetermine at hc
  simp only [hs] at hc
  rcases hS : SetUpConversionArea env g { X := cur.ScreenBufferSize.X, Y := 1 }
      { Left := 0, Top := 0, Right := 0, Bottom := 0 } { X := 0, Y := 0 } CA_HIDDEN with ⟨g2, res⟩
  rw [hS] at hc
  cases res with
  | error st =>
    obtain ⟨_, _, _, a4⟩ := SetUpConversionArea_spec env g { X := cur.ScreenBufferSize.X, Y := 1 }
      { Left := 0, Top := 0, Right := 0, Bottom := 0 } { X := 0, Y := 0 } CA_HIDDEN
    rw [hS] at a4
    simp only [Option.some.injEq, Prod.mk.injEq] at hc
    obtain ⟨rfl, _⟩ := hc
    rw [a4 st rfl] at hok
    cases hok
  | ok h =>
    obtain ⟨r1, r2, r3, _, r5, _⟩ := SetUpConversionArea_result env g g2 _ _ _ _ h hS
    subst r1
    simp only at hc
    split_ifs at hc with hp
    · simp only [Option.some.injEq, Prod.mk.injEq] at hc
      obtain ⟨_, rfl⟩ := hc
      refine ⟨c1, r2, r3, r5, ?_⟩
      rw [c3]
      decide
    · simp only [Option.some.injEq, Prod.mk.injEq] at hc
      obtain ⟨rfl, _⟩ := hc
      exact absurd hok hp

/-- C18 at a console without conversion areas: the created row is the
conversion area `0`, is 20 columns wide and one row tall, and is the only
element of `ConvAreaCompStr`. -/
theorem C18_CreateConvAreaUndetermine_row_witness :
    ((CreateConvAreaUndetermine exEnv (exConsole 0 [])).get (by decide)).2.ConsoleIme.ConvAreaCompStr = [0] ∧
    (((CreateConvAreaUndetermine exEnv (exConsole 0 [])).get (by decide)).2.ConvAreas 0).CaInfo.coordCaBuffer =
      { X := 20, Y := 1 } :=
  ⟨(C18_CreateConvAreaUndetermine_row exEnv (exConsole 0 [])
      ((CreateConvAreaUndetermine exEnv (exConsole 0 [])).get (by decide)).2 STATUS_SUCCESS
      (exScreen 20 10 0 3) rfl rfl (by decide)).1,
   congrArg CONVAREA_BUFFER_INFO.coordCaBuffer
    (C18_CreateConvAreaUndetermine_row exEnv (exConsole 0 [])
      ((CreateConvAreaUndetermine exEnv (exConsole 0 [])).get (by decide)).2 STATUS_SUCCESS
      (exScreen 20 10 0 3) rfl rfl (by decide)).2.2.1⟩

/-- C18 fails as stated: on a primary surface whose window is 20 columns wide
and whose buffer is 40 columns wide, the conversion area created by
`CreateConvAreaUndetermine` is 40 columns wide, not 20. -/
theorem C18_counterexample :
    (CreateConvAreaUndetermine exEnv exWide).map
        (fun r => (r.1, r.2.ConsoleIme.ConvAreaCompStr, (r.2.ConvAreas 0).CaInfo.coordCaBuffer,
          (r.2.ConvAreas 0).ScreenBuffer.ScreenBufferSize,
          r.2.CurrentScreenBuffer.map (fun s => s.ScreenWindowSizeX))) =
      some (STATUS_SUCCESS, [0], { X := 40, Y := 1 }, { X := 40, Y := 1 }, some 20) := by
  rfl
/-! ## Protocol handler: malformed messages, dropped status, cursor visibility -/

/-- C16: for a composition-update message that is malformed (fewer bytes than
the payload header, a null payload, or a payload whose size field differs from
the byte count delivered), `ImeControl` returns `STATUS_SUCCESS` and the state
is the state before the call: no field of the registry or of a conversion
area changes, no redraw is requested and no input event is written. -/
theorem C16_ImeControl_malformed (env : Env) (fuel : Nat) (g : CONSOLE_INFORMATION) (cds : COPYDATASTRUCT)
    (hcode : cds.dwData = env.CI_CONIMECOMPOSITION)
    (hbad : cds.cbData < env.sizeof_CONIME_UICOMPMESSAGE ∨ cds.lpData = none ∨
      ∃ p, cds.lpData = some p ∧ p.dwSize ≠ cds.cbData) :
    ImeControl env fuel g (some cds) = some (STATUS_SUCCESS, g) := by
  simp only [ImeControl, if_pos hcode]
  rcases hbad with h | h | ⟨p, h1, h2⟩
  · rw [if_neg (by omega)]
  · by_cases hsz : cds.cbData ≥ env.sizeof_CONIME_UICOMPMESSAGE
    · rw [if_pos hsz, h]
    · rw [if_neg hsz]
  · by_cases hsz : cds.cbData ≥ env.sizeof_CONIME_UICOMPMESSAGE
    · rw [if_pos hsz, h1]
      simp only [if_neg h2]
    · rw [if_neg hsz]

/-- C16 at a message of 64 bytes whose payload says that it is 60 bytes long:
the console is left as it was. -/
theorem C16_ImeControl_malformed_witness :
    ImeControl exEnv 5 (exConsole 0 [exVisible])
        (some { dwData := 0, cbData := 64, lpData := some { exDetermined with dwSize := 60 } }) =
      some (STATUS_SUCCESS, exConsole 0 [exVisible]) :=
  C16_ImeControl_malformed exEnv 5 (exConsole 0 [exVisible])
    { dwData := 0, cbData := 64, lpData := some { exDetermined with dwSize := 60 } } rfl
    (Or.inr (Or.inr ⟨{ exDetermined with dwSize := 60 }, rfl, by decide⟩))

/-- C14 fails on the code: with no composition row and every allocation
failing, the streamer called for the in-progress payload `a` returns
`STATUS_NO_MEMORY`, and `ConsoleImeCompStr` returns `STATUS_SUCCESS` for that
payload. -/
theorem C14_ConsoleImeCompStr_drops_status :
    (WriteUndetermineChars exFailEnv 5 (exConsole 0 []) [97] [0] (fun _ => 7) 1).map (fun r => r.Status) =
      some STATUS_NO_MEMORY ∧
    (ConsoleImeCompStr exFailEnv 5 (exConsole 0 []) (exPayload [97] [0])).map (fun r => r.1) =
      some STATUS_SUCCESS := by
  constructor <;> rfl

theorem LinkConversionArea_saved (g : CONSOLE_INFORMATION) (h : Nat) :
    (LinkConversionArea g h).ConsoleIme.SavedCursorVisible = g.ConsoleIme.SavedCursorVisible := by
  unfold LinkConversionArea
  split <;> rfl

theorem SetUpConversionArea_saved (env : Env) (g : CONSOLE_INFORMATION) (size : COORD) (rc : SMALL_RECT)
    (view : COORD) (opt : Nat) :
    (SetUpConversionArea env g size rc view opt).1.ConsoleIme.SavedCursorVisible =
      g.ConsoleIme.SavedCursorVisible := by
  obtain ⟨_, a1, _⟩ := AllocateConversionArea_spec env g size
  unfold SetUpConversionArea
  rcases hA : AllocateConversionArea env g size with ⟨g0, res⟩
  rw [hA] at a1
  simp only at a1
  cases res with
  | error st =>
    show g0.ConsoleIme.SavedCursorVisible = _
    rw [a1]
  | ok h1 =>
    simp only
    rw [(SetUndetermineAttribute_area _).1, LinkConversionArea_saved]
    show g0.ConsoleIme.SavedCursorVisible = _
    rw [a1]

theorem growRegistry_saved (env : Env) (g g1 : CONSOLE_INFORMATION) (idx : Nat) (Status : NTSTATUS)
    (hc : growRegistry env g idx = some (Status, g1)) :
    g1.ConsoleIme.SavedCursorVisible = g.ConsoleIme.SavedCursorVisible ∧
    g1.ConsoleIme.CompStrData = g.ConsoleIme.CompStrData := by
  unfold growRegistry at hc
  split_ifs at hc
  · unfold CreateConvAreaUndetermine at hc
    rcases Option.eq_none_or_eq_some g.CurrentScreenBuffer with hs | ⟨scr, hs⟩
    · simp [hs] at hc
    · simp only [hs] at hc
      have a1 := SetUpConversionArea_saved env g { X := scr.ScreenBufferSize.X, Y := 1 }
        { Left := 0, Top := 0, Right := 0, Bottom := 0 } { X := 0, Y := 0 } CA_HIDDEN
      obtain ⟨_, _, a2, _⟩ := SetUpConversionArea_spec env g { X := scr.ScreenBufferSize.X, Y := 1 }
        { Left := 0, Top := 0, Right := 0, Bottom := 0 } { X := 0, Y := 0 } CA_HIDDEN
      rcases hS : SetUpConversionArea env g { X := scr.ScreenBufferSize.X, Y := 1 }
        { Left := 0, Top := 0, Right := 0, Bottom := 0 } { X := 0, Y := 0 } CA_HIDDEN with ⟨g2, res⟩
      rw [hS] at hc a1 a2
      simp only at a1 a2
      cases res with
      | error st =>
        simp only [Option.some.injEq, Prod.mk.injEq] at hc
        obtain ⟨_, rfl⟩ := hc
        exact ⟨a1, a2⟩
      | ok h =>
        simp only at hc
        split_ifs at hc
        · simp only [Option.some.injEq, Prod.mk.injEq] at hc
          obtain ⟨_, rfl⟩ := hc
          exact ⟨a1, a2⟩
        · simp only [Option.some.injEq, Prod.mk.injEq] at hc
          obtain ⟨_, rfl⟩ := hc
          exact ⟨a1, a2⟩
  · simp only [Option.some.injEq, Prod.mk.injEq] at hc
    obtain ⟨_, rfl⟩ := hc
    exact ⟨rfl, rfl⟩

/-- The row loop leaves the primary surface, the saved payload and the
cursor-save flag as they are. -/
theorem rowLoop_surface (env : Env) (W : Int) (lpAtrIdx : Nat → WORD) (Y : Int) (up : Bool) :
    ∀ (fuel : Nat) (g : CONSOLE_INFORMATION) (idx : Nat) (rest : List (WCHAR × BYTE)) (X : Int)
      (writes : List IME_WRITE) (r : StreamResult),
      rowLoop env W lpAtrIdx Y up fuel g idx rest X writes = some r →
      r.g.CurrentScreenBuffer = g.CurrentScreenBuffer ∧
      r.g.ConsoleIme.SavedCursorVisible = g.ConsoleIme.SavedCursorVisible ∧
      r.g.ConsoleIme.CompStrData = g.ConsoleIme.CompStrData := by
  intro fuel
  induction fuel with
  | zero => intro g idx rest X writes r hr; simp [rowLoop] at hr
  | succ fuel ih =>
    intro g idx rest X writes r hr
    rw [rowLoop] at hr
    split_ifs at hr with h1
    · simp only [Option.some.injEq] at hr
      subst hr
      obtain ⟨_, _, _, b4⟩ := hideRest_spec (g.ConsoleIme.ConvAreaCompStr.drop idx) g
      simp only
      rw [b4.1, b4.2.1]
      exact ⟨rfl, rfl, rfl⟩
    · rcases hgrow : growRegistry env g idx with _ | ⟨Status, g1⟩
      · simp [hgrow] at hr
      · simp only [hgrow] at hr
        obtain ⟨c1, _, _⟩ := growRegistry_spec env g g1 idx Status hgrow
        obtain ⟨c2, c3⟩ := growRegistry_saved env g g1 idx Status hgrow
        split_ifs at hr with h2
        · simp only [Option.some.injEq] at hr
          subst hr
          exact ⟨c1, c2, c3⟩
        · have hkeep : ∀ g4 : CONSOLE_INFORMATION,
              OnlyArea (g1.ConsoleIme.ConvAreaCompStr.getD idx 0) g1 g4 →
              g4.CurrentScreenBuffer = g.CurrentScreenBuffer ∧
              g4.ConsoleIme.SavedCursorVisible = g.ConsoleIme.SavedCursorVisible ∧
              g4.ConsoleIme.CompStrData = g.ConsoleIme.CompStrData := by
            intro g4 ho
            rw [ho.1.1, ho.1.2.1]
            exact ⟨c1, c2, c3⟩
          split at hr
          · simp at hr
          · rename_i st g4 writes1 hchunk
            obtain ⟨d1, _, _, _⟩ := chunkLoop_inv env W lpAtrIdx idx _ _ fuel _ rest X writes _ hchunk
            simp only [ChunkExit.state] at d1
            simp only [Option.some.injEq] at hr
            subst hr
            exact hkeep g4 ((startRow_OnlyArea g1 _ idx X Y up).transArea d1)
          · rename_i g4 rest1 X1 writes1 hchunk
            obtain ⟨d1, _, _, _⟩ := chunkLoop_inv env W lpAtrIdx idx _ _ fuel _ rest X writes _ hchunk
            simp only [ChunkExit.state] at d1
            obtain ⟨k1, k2, k3⟩ := hkeep g4 ((startRow_OnlyArea g1 _ idx X Y up).transArea d1)
            obtain ⟨i1, i2, i3⟩ := ih g4 (idx + 1) rest1 X1 writes1 r hr
            exact ⟨i1.trans k1, i2.trans k2, i3.trans k3⟩

/-- The streamer keeps the cursor visibility of the primary surface, the saved
payload and the cursor-save flag. -/
theorem WriteUndetermineChars_surface (env : Env) (fuel : Nat) (g : CONSOLE_INFORMATION)
    (lpString : List WCHAR) (lpAtr : List BYTE) (lpAtrIdx : Nat → WORD) (NumChars : Nat) (r : StreamResult)
    (hr : WriteUndetermineChars env fuel g lpString lpAtr lpAtrIdx NumChars = some r) :
    cursorVisible r.g = cursorVisible g ∧ (∃ s, r.g.CurrentScreenBuffer = some s) ∧
    r.g.ConsoleIme.SavedCursorVisible = g.ConsoleIme.SavedCursorVisible ∧
    r.g.ConsoleIme.CompStrData = g.ConsoleIme.CompStrData := by
  unfold WriteUndetermineChars at hr
  rcases Option.eq_none_or_eq_some g.CurrentScreenBuffer with hs | ⟨scr, hs⟩
  · simp [hs] at hr
  · simp only [hs] at hr
    obtain ⟨a1, a2, a3⟩ := rowLoop_surface _ _ _ _ _ _ _ _ _ _ _ _ hr
    simp only at a1 a2 a3
    refine ⟨?_, ⟨_, a1⟩, a2, a3⟩
    unfold cursorVisible
    rw [a1, hs]
    simp only
    split_ifs <;> rfl

theorem fillVisible_cursorVisible (env : Env) (l : List Nat) (g g2 : CONSOLE_INFORMATION)
    (hf : fillVisible env g l = some g2) :
    cursorVisible g2 = cursorVisible g ∧ g2.ConsoleIme = g.ConsoleIme ∧
    g2.CurrentScreenBuffer = g.CurrentScreenBuffer := by
  obtain ⟨_, _, b3, b4, _⟩ := fillVisible_spec env l g g2 hf
  refine ⟨?_, b3, b4⟩
  unfold cursorVisible
  rw [b4]

/-- One in-progress payload: the cursor of the primary surface is invisible
afterwards, and the cursor-save flag is set when the cursor was visible. -/
theorem ConsoleImeCompStr_inProgress_cursor (env : Env) (fuel : Nat) (g g1 : CONSOLE_INFORMATION)
    (p : CONIME_UICOMPMESSAGE) (st : NTSTATUS)
    (hin : ¬ (p.dwCompStrLen = 0 ∨ p.dwResultStrLen ≠ 0))
    (hstep : ConsoleImeCompStr env fuel g p = some (st, g1)) :
    cursorVisible g1 = false ∧
    g1.ConsoleIme.SavedCursorVisible = (g.ConsoleIme.SavedCursorVisible || cursorVisible g) := by
  simp only [ConsoleImeCompStr, if_neg hin] at hstep
  rcases Option.eq_none_or_eq_some g.CurrentScreenBuffer with hs | ⟨cur, hs⟩
  · simp [hs] at hstep
  · simp only [hs] at hstep
    split at hstep
    · simp at hstep
    · rename_i g2 hg2
      obtain ⟨f1, f2, _⟩ := fillVisible_cursorVisible env _ _ g2 hg2
      split at hstep
      · simp at hstep
      · rename_i r hr
        obtain ⟨w1, _, w3, _⟩ := WriteUndetermineChars_surface env fuel g2 _ _ _ _ r hr
        simp only [Option.some.injEq, Prod.mk.injEq] at hstep
        obtain ⟨_, rfl⟩ := hstep
        rw [w1, w3, f1, f2]
        by_cases hv : cur.CursorVisible = true
        · simp only [if_pos hv]
          simp [cursorVisible, hs, hv, SetCursorInformation]
        · simp only [if_neg hv]
          simp [cursorVisible, hs, hv]

/-- One determined payload: the cursor of the primary surface is visible
afterwards exactly when it was visible or the cursor-save flag was set, and
the flag is clear. -/
theorem ConsoleImeCompStr_determined_cursor (env : Env) (fuel : Nat) (g g1 : CONSOLE_INFORMATION)
    (d : CONIME_UICOMPMESSAGE) (st : NTSTATUS)
    (hT : ∀ s, (env.TimerRoutine s).CursorVisible = s.CursorVisible)
    (hdet : d.dwCompStrLen = 0 ∨ d.dwResultStrLen ≠ 0)
    (hstep : ConsoleImeCompStr env fuel g d = some (st, g1)) :
    cursorVisible g1 = (cursorVisible g || g.ConsoleIme.SavedCursorVisible) ∧
    g1.ConsoleIme.SavedCursorVisible = false := by
  simp only [ConsoleImeCompStr, if_pos hdet] at hstep
  split at hstep
  · simp at hstep
  · rename_i g0 hg0
    have h0 : cursorVisible g0 = (cursorVisible g || g.ConsoleIme.SavedCursorVisible) ∧
        g0.ConsoleIme.SavedCursorVisible = false := by
      split at hg0
      · rename_i hsv
        split at hg0
        · simp at hg0
        · rename_i cur hs
          simp only [Option.some.injEq] at hg0
          subst hg0
          simp [cursorVisible, hs, hsv, SetCursorInformation]
      · rename_i hsv
        simp only [Option.some.injEq] at hg0
        subst hg0
        simp only [Bool.not_eq_true] at hsv
        simp [hsv]
    split at hstep
    · simp at hstep
    · rename_i g2 hg2
      obtain ⟨f1, f2, _⟩ := fillVisible_cursorVisible env _ _ g2 hg2
      have hins : ∀ (b : Bool) (g3 : CONSOLE_INFORMATION),
          (if d.dwResultStrLen ≠ 0 then InsertConvertedString env g2 d.ResultStr else some (true, g2)) =
            some (b, g3) →
          cursorVisible g3 = cursorVisible g2 ∧ g3.ConsoleIme = g2.ConsoleIme := by
        intro b g3 hi
        split_ifs at hi with hres
        · unfold InsertConvertedString at hi
          rcases Option.eq_none_or_eq_some g2.CurrentScreenBuffer with hs | ⟨cur, hs⟩
          · simp [hs] at hi
          · simp only [hs] at hi
            split_ifs at hi
            all_goals
              simp only [Option.some.injEq, Prod.mk.injEq] at hi
              obtain ⟨_, rfl⟩ := hi
              simp only [cursorVisible, hs]
              refine ⟨?_, ?_⟩ <;> first | exact hT cur | trivial
        · simp only [Option.some.injEq, Prod.mk.injEq] at hi
          obtain ⟨_, rfl⟩ := hi
          exact ⟨rfl, rfl⟩
      split at hstep
      · simp at hstep
      · rename_i g3 hi
        obtain ⟨i1, i2⟩ := hins false g3 hi
        simp only [Option.some.injEq, Prod.mk.injEq] at hstep
        obtain ⟨_, rfl⟩ := hstep
        rw [i1, i2, f1, f2]
        exact h0
      · rename_i g3 hi
        obtain ⟨i1, i2⟩ := hins true g3 hi
        simp only [Option.some.injEq, Prod.mk.injEq] at hstep
        obtain ⟨_, rfl⟩ := hstep
        have : cursorVisible { g3 with ConsoleIme := { g3.ConsoleIme with CompStrData := none } } =
            cursorVisible g3 := rfl
        rw [this, i1, f1]
        refine ⟨h0.1, ?_⟩
        show g3.ConsoleIme.SavedCursorVisible = false
        rw [i2, f2]
        exact h0.2

/-- From a state whose cursor is invisible: in-progress payloads keep the
cursor invisible and the cursor-save flag as it is, and the determined payload
that follows makes the cursor visible exactly when the flag was set. -/
theorem ConsoleImeCompStr_run_cursor (env : Env) (fuel : Nat) (d : CONIME_UICOMPMESSAGE)
    (hT : ∀ s, (env.TimerRoutine s).CursorVisible = s.CursorVisible)
    (hdet : d.dwCompStrLen = 0 ∨ d.dwResultStrLen ≠ 0) :
    ∀ (ps : List CONIME_UICOMPMESSAGE) (g d0 : CONSOLE_INFORMATION) (states : List CONSOLE_INFORMATION),
      (∀ p ∈ ps, ¬ (p.dwCompStrLen = 0 ∨ p.dwResultStrLen ≠ 0)) →
      ConsoleImeCompStr_run env fuel g (ps ++ [d]) = some states →
      cursorVisible g = false →
      states.length = ps.length + 1 ∧
      (∀ k, k < ps.length → cursorVisible (states.getD k d0) = false) ∧
      cursorVisible (states.getD ps.length d0) = g.ConsoleIme.SavedCursorVisible ∧
      (states.getD ps.length d0).ConsoleIme.SavedCursorVisible = false := by
  intro ps
  induction ps with
  | nil =>
    intro g d0 states _ hrun hcv
    simp only [List.nil_append, ConsoleImeCompStr_run] at hrun
    split at hrun
    · simp at hrun
    · rename_i res hres
      simp only [Option.some.injEq] at hrun
      subst hrun
      obtain ⟨e1, e2⟩ := ConsoleImeCompStr_determined_cursor env fuel g res.2 d res.1 hT hdet hres
      refine ⟨rfl, fun k hk => absurd hk (Nat.not_lt_zero k), ?_, ?_⟩
      · simp only [List.length_nil, List.getD_cons_zero]
        rw [e1, hcv, Bool.false_or]
      · simp only [List.length_nil, List.getD_cons_zero]
        exact e2
  | cons p ps ih =>
    intro g d0 states hin hrun hcv
    simp only [List.cons_append, ConsoleImeCompStr_run] at hrun
    split at hrun
    · simp at hrun
    · rename_i res hres
      split at hrun
      · simp at hrun
      · rename_i l hl
        simp only [Option.some.injEq] at hrun
        subst hrun
        obtain ⟨e1, e2⟩ := ConsoleImeCompStr_inProgress_cursor env fuel g res.2 p res.1
          (hin p (List.mem_cons_self _ _)) hres
        rw [hcv, Bool.or_false] at e2
        obtain ⟨i1, i2, i3, i4⟩ := ih res.2 d0 l (fun q hq => hin q (List.mem_cons_of_mem _ hq)) hl e1
        refine ⟨by simp only [List.length_cons, i1], ?_, ?_, ?_⟩
        · intro k hk
          cases k with
          | zero => simpa using e1
          | succ k =>
            simp only [List.getD_cons_succ]
            exact i2 k (by simpa using hk)
        · simp only [List.length_cons, List.getD_cons_succ]
          rw [i3, e2]
        · simp only [List.length_cons, List.getD_cons_succ]
          exact i4

/-- C13: from a state whose cursor-save flag is clear, when a non-empty
sequence of in-progress payloads followed by one determined payload is
handled by `ConsoleImeCompStr` (the timer routine of the cursor not changing
its visibility), the cursor of the primary surface is invisible after each of
the in-progress payloads, and after the determined payload its visibility is
what it was before the first payload and the cursor-save flag is clear. -/
theorem C13_cursor_visibility_restored (env : Env) (fuel : Nat) (g d0 : CONSOLE_INFORMATION)
    (ps : List CONIME_UICOMPMESSAGE) (d : CONIME_UICOMPMESSAGE) (states : List CONSOLE_INFORMATION)
    (hT : ∀ s, (env.TimerRoutine s).CursorVisible = s.CursorVisible)
    (hflag : g.ConsoleIme.SavedCursorVisible = false)
    (hps : ps ≠ [])
    (hin : ∀ p ∈ ps, ¬ (p.dwCompStrLen = 0 ∨ p.dwResultStrLen ≠ 0))
    (hdet : d.dwCompStrLen = 0 ∨ d.dwResultStrLen ≠ 0)
    (hrun : ConsoleImeCompStr_run env fuel g (ps ++ [d]) = some states) :
    states.length = ps.length + 1 ∧
    (∀ k, k < ps.length → cursorVisible (states.getD k d0) = false) ∧
    cursorVisible (states.getD ps.length d0) = cursorVisible g ∧
    (states.getD ps.length d0).ConsoleIme.SavedCursorVisible = false := by
  cases ps with
  | nil => exact absurd rfl hps
  | cons p ps =>
    simp only [List.cons_append, ConsoleImeCompStr_run] at hrun
    split at hrun
    · simp at hrun
    · rename_i res hres
      split at hrun
      · simp at hrun
      · rename_i l hl
        simp only [Option.some.injEq] at hrun
        subst hrun
        obtain ⟨e1, e2⟩ := ConsoleImeCompStr_inProgress_cursor env fuel g res.2 p res.1
          (hin p (List.mem_cons_self _ _)) hres
        rw [hflag, Bool.false_or] at e2
        obtain ⟨i1, i2, i3, i4⟩ := ConsoleImeCompStr_run_cursor env fuel d hT hdet ps res.2 d0 l
          (fun q hq => hin q (List.mem_cons_of_mem _ hq)) hl e1
        refine ⟨by simp only [List.length_cons, i1], ?_, ?_, ?_⟩
        · intro k hk
          cases k with
          | zero => simpa using e1
          | succ k =>
            simp only [List.getD_cons_succ]
            exact i2 k (by simpa using hk)
        · simp only [List.length_cons, List.getD_cons_succ]
          rw [i3, e2]
        · simp only [List.length_cons, List.getD_cons_succ]
          exact i4

/-- C13 at a console with a visible cursor: after the in-progress payloads
`a` and `ab` and the determined payload `exDetermined`, the cursor is visible
again and the cursor-save flag is clear. -/
theorem C13_cursor_visibility_restored_witness :
    cursorVisible (((ConsoleImeCompStr_run exEnv 5 (exConsole 0 [])
        ([exPayload [97] [0], exPayload [97, 98] [0, 0]] ++ [exDetermined])).get (by decide)).getD 2
          (exConsole 0 [])) = cursorVisible (exConsole 0 []) ∧
    ((((ConsoleImeCompStr_run exEnv 5 (exConsole 0 [])
        ([exPayload [97] [0], exPayload [97, 98] [0, 0]] ++ [exDetermined])).get (by decide)).getD 2
          (exConsole 0 [])).ConsoleIme.SavedCursorVisible = false) :=
  (C13_cursor_visibility_restored exEnv 5 (exConsole 0 []) (exConsole 0 [])
    [exPayload [97] [0], exPayload [97, 98] [0, 0]] exDetermined
    ((ConsoleImeCompStr_run exEnv 5 (exConsole 0 [])
        ([exPayload [97] [0], exPayload [97, 98] [0, 0]] ++ [exDetermined])).get (by decide))
    (fun _ => rfl) rfl (List.cons_ne_nil _ _) (by decide) (Or.inl rfl) (Option.some_get _).symm).2.2
/-! ## Buffer resize -/

theorem ConsoleImeResizeScreenBuffer_clamp_eq (rc : SMALL_RECT) (size : COORD) :
    ConsoleImeResizeScreenBuffer_clamp rc size = clampRect rc size := by
  obtain ⟨l, t, r, b⟩ := rc
  obtain ⟨x, y⟩ := size
  simp only [ConsoleImeResizeScreenBuffer_clamp, clampRect]
  by_cases h1 : l > x - 1 <;> by_cases h2 : r > x - 1 <;> by_cases h3 : t > y - 1 <;>
    by_cases h4 : b > y - 1 <;> simp only [h1, h2, h3, h4, if_true, if_false] <;>
    simp only [SMALL_RECT.mk.injEq] <;> omega

theorem clampRect_idem (rc : SMALL_RECT) (size : COORD) :
    clampRect (clampRect rc size) size = clampRect rc size := by
  simp [clampRect]

/-- One call of `ConsoleImeResizeScreenBuffer`: only the conversion area `h`
changes; its mode is kept; on success its buffer size is the new size and its
rectangle is clamped. -/
theorem ConsoleImeResizeScreenBuffer_spec (env : Env) (g : CONSOLE_INFORMATION) (size : COORD) (h : Nat) :
    OnlyArea h g (ConsoleImeResizeScreenBuffer env g size h).2 ∧
    ((ConsoleImeResizeScreenBuffer env g size h).2.ConvAreas h).ConversionAreaMode =
      (g.ConvAreas h).ConversionAreaMode ∧
    (NT_SUCCESS (ConsoleImeResizeScreenBuffer env g size h).1 = true →
      ((ConsoleImeResizeScreenBuffer env g size h).2.ConvAreas h).CaInfo.coordCaBuffer = size ∧
      ((ConsoleImeResizeScreenBuffer env g size h).2.ConvAreas h).CaInfo.rcViewCaWindow =
        clampRect (g.ConvAreas h).CaInfo.rcViewCaWindow size) := by
  unfold ConsoleImeResizeScreenBuffer
  simp only
  split_ifs with hs
  · refine ⟨setArea_OnlyArea _ _ _, ?_, fun _ => ?_⟩
    · rw [setArea_ConvAreas_self]
    · rw [setArea_ConvAreas_self]
      exact ⟨rfl, ConsoleImeResizeScreenBuffer_clamp_eq _ _⟩
  · refine ⟨setArea_OnlyArea _ _ _, ?_, fun hok => absurd hok hs⟩
    rw [setArea_ConvAreas_self]

/-- The loop of `ConsoleImeResizeCompStrScreenBuffer`: when it ends with a
success status, every conversion area of the list is hidden, has the new
buffer size and the clamped rectangle, and the others are as before. -/
theorem ConsoleImeResizeCompStrScreenBuffer_loop_spec (env : Env) (size : COORD) :
    ∀ (l : List Nat) (g g1 : CONSOLE_INFORMATION) (Status : NTSTATUS),
      ConsoleImeResizeCompStrScreenBuffer_loop env size g l = (Status, g1) →
      NT_SUCCESS Status = true →
      g1.ConsoleIme = g.ConsoleIme ∧
      (∀ k, k ∉ l → g1.ConvAreas k = g.ConvAreas k) ∧
      (∀ k ∈ l, (g1.ConvAreas k).ConversionAreaMode &&& CA_HIDDEN ≠ 0 ∧
        (g1.ConvAreas k).CaInfo.coordCaBuffer = size ∧
        (g1.ConvAreas k).CaInfo.rcViewCaWindow = clampRect (g.ConvAreas k).CaInfo.rcViewCaWindow size) := by
  intro l
  induction l with
  | nil =>
    intro g g1 Status hl _
    simp only [ConsoleImeResizeCompStrScreenBuffer_loop, Prod.mk.injEq] at hl
    obtain ⟨_, rfl⟩ := hl
    exact ⟨rfl, fun _ _ => rfl, fun k hk => absurd hk (List.not_mem_nil k)⟩
  | cons h rest ih =>
    intro g g1 Status hl hok
    rw [ConsoleImeResizeCompStrScreenBuffer_loop] at hl
    -- the state after the hide-and-repaint step
    obtain ⟨g0, hg0, hO0, hM0, hR0⟩ : ∃ g0 : CONSOLE_INFORMATION,
        g0 = (if (g.ConvAreas h).ConversionAreaMode &&& CA_HIDDEN = 0 then
          ConsoleImePaint
            (setArea g h
              { g.ConvAreas h with ConversionAreaMode := (g.ConvAreas h).ConversionAreaMode ||| CA_HIDDEN })
            (some h)
          else g) ∧
        OnlyArea h g g0 ∧ (g0.ConvAreas h).ConversionAreaMode &&& CA_HIDDEN ≠ 0 ∧
        (g0.ConvAreas h).CaInfo = (g.ConvAreas h).CaInfo := by
      refine ⟨_, rfl, ?_, ?_, ?_⟩
      · split_ifs
        · exact (setArea_OnlyArea _ _ _).transArea (ConsoleImePaint_OnlyArea _ _ _)
        · exact OnlyArea.reflArea _ _
      · split_ifs with hv
        · rw [ConsoleImePaint_ConvAreas, setArea_ConvAreas_self]
          exact or_hidden_ne_zero _
        · exact hv
      · split_ifs
        · rw [ConsoleImePaint_ConvAreas, setArea_ConvAreas_self]
        · rfl
    simp only at hl
    rw [← hg0] at hl
    obtain ⟨s1, s2, s3⟩ := ConsoleImeResizeScreenBuffer_spec env g0 size h
    split_ifs at hl with hf
    · rw [hl] at hf
      simp only [hok] at hf
      cases hf
    · have hs : NT_SUCCESS (ConsoleImeResizeScreenBuffer env g0 size h).1 = true := by
        simpa using hf
      obtain ⟨t1, t2⟩ := s3 hs
      obtain ⟨i1, i2, i3⟩ := ih _ g1 Status hl hok
      have hO := hO0.transArea s1
      refine ⟨by rw [i1, hO.1.1], ?_, ?_⟩
      · intro k hk
        have hkh : k ≠ h := fun e => hk (by rw [e]; exact List.mem_cons_self _ _)
        rw [i2 k (fun hm => hk (List.mem_cons_of_mem _ hm)), hO.2 k hkh]
      · intro k hk
        by_cases hkr : k ∈ rest
        · obtain ⟨j1, j2, j3⟩ := i3 k hkr
          refine ⟨j1, j2, ?_⟩
          rw [j3]
          by_cases hkh : k = h
          · subst hkh
            rw [t2, hR0, clampRect_idem]
          · rw [hO.2 k hkh]
        · have hkh : k = h := by
            rcases List.mem_cons.1 hk with e | e
            · exact e
            · exact absurd e hkr
          subst hkh
          rw [i2 k hkr]
          refine ⟨?_, t1, ?_⟩
          · rw [s2]; exact hM0
          · rw [t2, hR0]

/-- C11 (amended): after `ConsoleImeResizeCompStrScreenBuffer` returns a
success status, every conversion area of `ConvAreaCompStr` is hidden, has
`coordCaBuffer` equal to the new size, and has as its rectangle the former
rectangle with every edge above the last column or row of the new size
lowered to it (each edge is the minimum of the former edge and
`newSize - 1`): each edge is at most `newSize - 1`, and, since no edge is
raised, each edge that was not negative lies in `[0, newSize - 1]` when the
new size is at least one cell each way. -/
theorem C11_ConsoleImeResizeCompStrScreenBuffer (env : Env) (g g1 : CONSOLE_INFORMATION) (size : COORD)
    (Status : NTSTATUS)
    (hres : ConsoleImeResizeCompStrScreenBuffer env g size = (Status, g1))
    (hok : NT_SUCCESS Status = true) (h : Nat) (hh : h ∈ g1.ConsoleIme.ConvAreaCompStr) :
    (g1.ConvAreas h).ConversionAreaMode &&& CA_HIDDEN ≠ 0 ∧
    (g1.ConvAreas h).CaInfo.coordCaBuffer = size ∧
    (g1.ConvAreas h).CaInfo.rcViewCaWindow = clampRect (g.ConvAreas h).CaInfo.rcViewCaWindow size ∧
    ((g1.ConvAreas h).CaInfo.rcViewCaWindow.Left ≤ size.X - 1 ∧
      (g1.ConvAreas h).CaInfo.rcViewCaWindow.Right ≤ size.X - 1 ∧
      (g1.ConvAreas h).CaInfo.rcViewCaWindow.Top ≤ size.Y - 1 ∧
      (g1.ConvAreas h).CaInfo.rcViewCaWindow.Bottom ≤ size.Y - 1) ∧
    (1 ≤ size.X → 1 ≤ size.Y →
      0 ≤ (g.ConvAreas h).CaInfo.rcViewCaWindow.Left → 0 ≤ (g.ConvAreas h).CaInfo.rcViewCaWindow.Right →
      0 ≤ (g.ConvAreas h).CaInfo.rcViewCaWindow.Top → 0 ≤ (g.ConvAreas h).CaInfo.rcViewCaWindow.Bottom →
      0 ≤ (g1.ConvAreas h).CaInfo.rcViewCaWindow.Left ∧ 0 ≤ (g1.ConvAreas h).CaInfo.rcViewCaWindow.Right ∧
      0 ≤ (g1.ConvAreas h).CaInfo.rcViewCaWindow.Top ∧ 0 ≤ (g1.ConvAreas h).CaInfo.rcViewCaWindow.Bottom) := by
  unfold ConsoleImeResizeCompStrScreenBuffer at hres
  obtain ⟨a1, _, a3⟩ := ConsoleImeResizeCompStrScreenBuffer_loop_spec env size _ g g1 Status hres hok
  rw [a1] at hh
  obtain ⟨b1, b2, b3⟩ := a3 h hh
  refine ⟨b1, b2, b3, ?_, ?_⟩
  · rw [b3]
    simp only [clampRect]
    exact ⟨min_le_right _ _, min_le_right _ _, min_le_right _ _, min_le_right _ _⟩
  · intro hx hy hl hr ht hb
    rw [b3]
    simp only [clampRect]
    exact ⟨le_min hl (by omega), le_min hr (by omega), le_min ht (by omega), le_min hb (by omega)⟩

/-- C11 at a console whose composition row shows the columns 0 to 15: after a
resize to 10 columns the right edge of its rectangle is 9. -/
theorem C11_ConsoleImeResizeCompStrScreenBuffer_witness :
    ((ConsoleImeResizeCompStrScreenBuffer exEnv (exConsole 0 [exSixteen])
      { X := 10, Y := 1 }).2.ConvAreas 0).CaInfo.rcViewCaWindow.Right = 9 :=
  congrArg SMALL_RECT.Right
    (C11_ConsoleImeResizeCompStrScreenBuffer exEnv (exConsole 0 [exSixteen])
      (ConsoleImeResizeCompStrScreenBuffer exEnv (exConsole 0 [exSixteen]) { X := 10, Y := 1 }).2
      { X := 10, Y := 1 } STATUS_SUCCESS rfl (by decide) 0 (by decide)).2.2.1

/-- C11 fails as stated: a composition row whose rectangle has the left edge
`-3` and the right edge 15 is resized to 10 columns; the call returns success,
the row is hidden, its buffer size is the new size and its right edge is
lowered to 9, but the left edge is still `-3`, which is not within `[0, 9]`:
lines 742 to 760 only lower an edge that exceeds `newSize - 1`. -/
theorem C11_counterexample :
    (ConsoleImeResizeCompStrScreenBuffer exEnv
      (exConsole 0 [exArea 0 { Left := -3, Top := 0, Right := 15, Bottom := 0 } { X := 0, Y := 3 }])
      { X := 10, Y := 1 }).1 = STATUS_SUCCESS ∧
    ((ConsoleImeResizeCompStrScreenBuffer exEnv
      (exConsole 0 [exArea 0 { Left := -3, Top := 0, Right := 15, Bottom := 0 } { X := 0, Y := 3 }])
      { X := 10, Y := 1 }).2.ConvAreas 0).CaInfo.rcViewCaWindow =
      { Left := -3, Top := 0, Right := 9, Bottom := 0 } ∧
    ((ConsoleImeResizeCompStrScreenBuffer exEnv
      (exConsole 0 [exArea 0 { Left := -3, Top := 0, Right := 15, Bottom := 0 } { X := 0, Y := 3 }])
      { X := 10, Y := 1 }).2.ConvAreas 0).CaInfo.coordCaBuffer = { X := 10, Y := 1 } ∧
    ((ConsoleImeResizeCompStrScreenBuffer exEnv
      (exConsole 0 [exArea 0 { Left := -3, Top := 0, Right := 15, Bottom := 0 } { X := 0, Y := 3 }])
      { X := 10, Y := 1 }).2.ConvAreas 0).ConversionAreaMode &&& CA_HIDDEN ≠ 0 := by
  refine ⟨by decide, by decide, by decide, by decide⟩

/-! ## The cells handed to the row writer -/

theorem renderCells_control (env : Env) (c : WCHAR) (a : BYTE) (rest : List (WCHAR × BYTE))
    (hc : ¬ c ≥ UNICODE_SPACE) : renderCells env ((c, a) :: rest) = renderCells env rest := by
  rw [renderCells, if_pos (Nat.lt_of_not_ge hc)]

theorem renderCells_snoc_single (env : Env) (c : WCHAR) (a : BYTE) (rest : List (WCHAR × BYTE))
    (buf : List WCHAR) (bufA : List BYTE) (hlen : buf.length = bufA.length)
    (hc : c ≥ UNICODE_SPACE) (hw : ¬ env.IsCharFullWidth c = true) :
    (buf ++ [c]).zip (bufA ++ [0]) ++ renderCells env rest =
      buf.zip bufA ++ renderCells env ((c, a) :: rest) := by
  rw [renderCells, if_neg (Nat.not_lt.2 hc), if_neg hw, List.zip_append hlen]
  simp

theorem renderCells_snoc_double (env : Env) (c : WCHAR) (a : BYTE) (rest : List (WCHAR × BYTE))
    (buf : List WCHAR) (bufA : List BYTE) (hlen : buf.length = bufA.length)
    (hc : c ≥ UNICODE_SPACE) (hw : env.IsCharFullWidth c = true) :
    (buf ++ [c, c]).zip (bufA ++ [ATTR_LEADING_BYTE, ATTR_TRAILING_BYTE]) ++ renderCells env rest =
      buf.zip bufA ++ renderCells env ((c, a) :: rest) := by
  rw [renderCells, if_neg (Nat.not_lt.2 hc), if_pos hw, List.zip_append hlen]
  simp

/-- The character loop moves cells from the input to the chunk: the cells of
the chunk followed by the cells of the input that is left are the cells it
started with. -/
theorem charLoop_cells (env : Env) (W : Int) (rest : List (WCHAR × BYTE)) :
    ∀ (i : Nat) (X : Int) (Char : WCHAR) (Attr : WORD) (buf : List WCHAR) (bufA : List BYTE),
      buf.length = bufA.length →
      (charLoop env W rest i X Char Attr buf bufA).LocalBuffer.length =
        (charLoop env W rest i X Char Attr buf bufA).LocalBufferA.length ∧
      (charLoop env W rest i X Char Attr buf bufA).LocalBuffer.zip
          (charLoop env W rest i X Char Attr buf bufA).LocalBufferA ++
        renderCells env (charLoop env W rest i X Char Attr buf bufA).rest =
        buf.zip bufA ++ renderCells env rest := by
  induction rest with
  | nil => intro i X Char Attr buf bufA h; simpa [charLoop] using h
  | cons p rest ih =>
    obtain ⟨c, a⟩ := p
    intro i X Char Attr buf bufA h
    have h1 : (buf ++ [c]).length = (bufA ++ [0]).length := by simp [h]
    have h2 : (buf ++ [c, c]).length = (bufA ++ [ATTR_LEADING_BYTE, ATTR_TRAILING_BYTE]).length := by
      simp [h]
    simp only [charLoop]
    split_ifs
    all_goals first
      | exact ⟨h, rfl⟩
      | exact ⟨h1, renderCells_snoc_single env c a rest buf bufA h (by assumption) (by assumption)⟩
      | exact ⟨h2, renderCells_snoc_double env c a rest buf bufA h (by assumption) (by assumption)⟩
      | exact ⟨h, (renderCells_control env c a rest (by assumption)).symm ▸ rfl⟩
      | exact ⟨(ih _ _ _ _ _ _ h1).1, (ih _ _ _ _ _ _ h1).2.trans
          (renderCells_snoc_single env c a rest buf bufA h (by assumption) (by assumption))⟩
      | exact ⟨(ih _ _ _ _ _ _ h2).1, (ih _ _ _ _ _ _ h2).2.trans
          (renderCells_snoc_double env c a rest buf bufA h (by assumption) (by assumption))⟩
      | exact ⟨(ih _ _ _ _ _ _ h).1, (ih _ _ _ _ _ _ h).2.trans
          (congrArg (fun l => buf.zip bufA ++ l) (renderCells_control env c a rest (by assumption)).symm)⟩

/-- The cell count `i` of the character loop is the length of the chunk. -/
theorem charLoop_length (env : Env) (W : Int) (rest : List (WCHAR × BYTE)) :
    ∀ (i : Nat) (X : Int) (Char : WCHAR) (Attr : WORD) (buf : List WCHAR) (bufA : List BYTE),
      i = buf.length →
      (charLoop env W rest i X Char Attr buf bufA).i =
        (charLoop env W rest i X Char Attr buf bufA).LocalBuffer.length := by
  induction rest with
  | nil => intro i X Char Attr buf bufA h; simpa [charLoop] using h
  | cons p rest ih =>
    obtain ⟨c, a⟩ := p
    intro i X Char Attr buf bufA h
    have h1 : i + 1 = (buf ++ [c]).length := by simp [h]
    have h2 : i + 2 = (buf ++ [c, c]).length := by simp [h]
    simp only [charLoop]
    split_ifs
    all_goals first
      | exact h
      | exact h1
      | exact h2
      | exact ih _ _ _ _ _ _ h
      | exact ih _ _ _ _ _ _ h1
      | exact ih _ _ _ _ _ _ h2

theorem writtenCells_snoc (writes : List IME_WRITE) (w : IME_WRITE) :
    writtenCells (writes ++ [w]) = writtenCells writes ++ w.String.zip w.StringA := by
  simp [writtenCells]

/-- The chunk loop conserves cells: what was handed to the row writer,
followed by the cells of the input that is left, does not change. -/
theorem chunkLoop_cells (env : Env) (W : Int) (lpAtrIdx : Nat → WORD) (idx h : Nat) (RegionLeft : Int) :
    ∀ (fuel : Nat) (g : CONSOLE_INFORMATION) (rest : List (WCHAR × BYTE)) (X : Int) (writes : List IME_WRITE)
      (out : ChunkExit),
      chunkLoop env W lpAtrIdx idx h RegionLeft fuel g rest X writes = some out →
      writtenCells out.writes ++ renderCells env out.rest = writtenCells writes ++ renderCells env rest := by
  intro fuel
  induction fuel with
  | zero => intro g rest X writes out hc; simp [chunkLoop] at hc
  | succ fuel ih =>
    intro g rest X writes out hc
    simp only [chunkLoop] at hc
    have hk := (charLoop_cells env W rest 0 X 0 0 [] [] rfl).2
    have hi := charLoop_length env W rest 0 X 0 0 [] [] rfl
    simp only [List.zip_nil_left, List.nil_append] at hk
    split_ifs at hc with h1 h2 h3 h4 h5 h6
    · simp only [Option.some.injEq] at hc
      subst hc
      rfl
    · simp only [Option.some.injEq] at hc
      subst hc
      simp only [ChunkExit.writes, ChunkExit.rest, writtenCells_snoc, chunkRecord, List.append_assoc, hk]
    · exact absurd (Or.inl h4) h3
    · rw [ih _ _ _ _ _ hc]
      simp only [writtenCells_snoc, chunkRecord, List.append_assoc, hk]
    · simp only [Option.some.injEq] at hc
      subst hc
      have he : (charLoop env W rest 0 X 0 0 [] []).rest = [] := List.isEmpty_iff.1 h5
      have hz : (charLoop env W rest 0 X 0 0 [] []).LocalBuffer = [] := by
        apply List.eq_nil_of_length_eq_zero
        rw [← hi]
        simpa using h2
      rw [he, hz] at hk
      simp only [ChunkExit.writes, ChunkExit.rest]
      rw [← hk]
      simp
    · simp only [Option.some.injEq] at hc
      subst hc
      have hz : (charLoop env W rest 0 X 0 0 [] []).LocalBuffer = [] := by
        apply List.eq_nil_of_length_eq_zero
        rw [← hi]
        simpa using h2
      rw [hz] at hk
      simp only [ChunkExit.writes, ChunkExit.rest]
      rw [← hk]
      simp
    · rw [ih _ _ _ _ _ hc]
      have hz : (charLoop env W rest 0 X 0 0 [] []).LocalBuffer = [] := by
        apply List.eq_nil_of_length_eq_zero
        rw [← hi]
        simpa using h2
      rw [hz] at hk
      rw [← hk]
      simp

/-- On a success return of the row loop, the cells handed to the row writer
are those handed before followed by the cells of the input. -/
theorem rowLoop_cells (env : Env) (W : Int) (lpAtrIdx : Nat → WORD) (Y : Int) (up : Bool) :
    ∀ (fuel : Nat) (g : CONSOLE_INFORMATION) (idx : Nat) (rest : List (WCHAR × BYTE)) (X : Int)
      (writes : List IME_WRITE) (r : StreamResult),
      rowLoop env W lpAtrIdx Y up fuel g idx rest X writes = some r →
      NT_SUCCESS r.Status = true →
      writtenCells r.writes = writtenCells writes ++ renderCells env rest := by
  intro fuel
  induction fuel with
  | zero => intro g idx rest X writes r hr; simp [rowLoop] at hr
  | succ fuel ih =>
    intro g idx rest X writes r hr hok
    rw [rowLoop] at hr
    split_ifs at hr with h1
    · simp only [Option.some.injEq] at hr
      subst hr
      rw [List.isEmpty_iff.1 h1]
      simp [renderCells]
    · rcases hgrow : growRegistry env g idx with _ | ⟨Status, g1⟩
      · simp [hgrow] at hr
      · simp only [hgrow] at hr
        split_ifs at hr with h2
        · simp only [Option.some.injEq] at hr
          subst hr
          simp only at hok
          simp [hok] at h2
        · split at hr
          · simp at hr
          · rename_i st g4 writes1 hchunk
            have hc := chunkLoop_cells env W lpAtrIdx idx _ _ fuel _ rest X writes _ hchunk
            simp only [ChunkExit.writes, ChunkExit.rest, renderCells, List.append_nil] at hc
            simp only [Option.some.injEq] at hr
            subst hr
            exact hc
          · rename_i g4 rest1 X1 writes1 hchunk
            have hc := chunkLoop_cells env W lpAtrIdx idx _ _ fuel _ rest X writes _ hchunk
            simp only [ChunkExit.writes, ChunkExit.rest] at hc
            rw [ih g4 (idx + 1) rest1 X1 writes1 r hr hok, hc]

theorem and_two_pow_ne_zero_iff (a k : Nat) : a &&& 2 ^ k ≠ 0 ↔ a / 2 ^ k % 2 = 1 := by
  have ht : a.testBit k = decide (a / 2 ^ k % 2 = 1) := Nat.testBit_to_div_mod
  constructor
  · intro hne
    by_contra hb
    apply hne
    apply Nat.eq_of_testBit_eq
    intro i
    rw [Nat.testBit_and, Nat.testBit_two_pow, Nat.zero_testBit]
    by_cases hki : k = i
    · subst hki
      rw [ht]
      simp [hb]
    · simp [hki]
  · intro hb hz
    have h1 : (a &&& 2 ^ k).testBit k = true := by
      rw [Nat.testBit_and, Nat.testBit_two_pow, ht]
      simp [hb]
    rw [hz, Nat.zero_testBit] at h1
    cases h1

/-- The destination attribute computed by the code is the one that the
specification describes, with the right-vertical line taking precedence. -/
theorem resolveAttr_eq_destinationAttr (lpAtrIdx : Nat → WORD) (Attr : WORD) :
    resolveAttr lpAtrIdx Attr = destinationAttr lpAtrIdx Attr := by
  have h7 : Attr &&& 0x07 = Attr % 8 := Nat.and_pow_two_sub_one_eq_mod Attr 3
  have h10 : Attr &&& 0x10 ≠ 0 ↔ Attr / 16 % 2 = 1 := and_two_pow_ne_zero_iff Attr 4
  have h20 : Attr &&& 0x20 ≠ 0 ↔ Attr / 32 % 2 = 1 := and_two_pow_ne_zero_iff Attr 5
  unfold resolveAttr destinationAttr
  rw [h7]
  by_cases a1 : Attr / 16 % 2 = 1
  · rw [if_pos (h10.2 a1), if_pos a1]
  · rw [if_neg (fun hh => a1 (h10.1 hh)), if_neg a1]
    by_cases a2 : Attr / 32 % 2 = 1
    · rw [if_pos (h20.2 a2), if_pos a2]
    · rw [if_neg (fun hh => a2 (h20.1 hh)), if_neg a2, Nat.or_zero]

/-- A property that the record of every chunk of the character loop has holds
of all the row writer calls that the chunk loop records. -/
theorem chunkLoop_records (env : Env) (W : Int) (lpAtrIdx : Nat → WORD) (P : IME_WRITE → Prop)
    (hP : ∀ g idx h rest X, P (chunkRecord lpAtrIdx g idx h (charLoop env W rest 0 X 0 0 [] [])))
    (idx h : Nat) (RegionLeft : Int) :
    ∀ (fuel : Nat) (g : CONSOLE_INFORMATION) (rest : List (WCHAR × BYTE)) (X : Int) (writes : List IME_WRITE)
      (out : ChunkExit),
      chunkLoop env W lpAtrIdx idx h RegionLeft fuel g rest X writes = some out →
      (∀ w ∈ writes, P w) → ∀ w ∈ out.writes, P w := by
  intro fuel
  induction fuel with
  | zero => intro g rest X writes out hc; simp [chunkLoop] at hc
  | succ fuel ih =>
    intro g rest X writes out hc hw
    have hw1 : ∀ w ∈ writes ++ [chunkRecord lpAtrIdx g idx h (charLoop env W rest 0 X 0 0 [] [])], P w := by
      intro w hm
      rcases List.mem_append.1 hm with e | e
      · exact hw w e
      · rw [List.mem_singleton] at e
        subst e
        exact hP _ _ _ _ _
    simp only [chunkLoop] at hc
    split_ifs at hc with h1 h2 h3 h4 h5 h6
    · simp only [Option.some.injEq] at hc
      subst hc
      exact hw
    · simp only [Option.some.injEq] at hc
      subst hc
      exact hw1
    · exact absurd (Or.inl h4) h3
    · exact ih _ _ _ _ _ hc hw1
    · simp only [Option.some.injEq] at hc
      subst hc
      exact hw
    · simp only [Option.some.injEq] at hc
      subst hc
      exact hw
    · exact ih _ _ _ _ _ hc hw

theorem rowLoop_records (env : Env) (W : Int) (lpAtrIdx : Nat → WORD) (P : IME_WRITE → Prop)
    (hP : ∀ g idx h rest X, P (chunkRecord lpAtrIdx g idx h (charLoop env W rest 0 X 0 0 [] [])))
    (Y : Int) (up : Bool) :
    ∀ (fuel : Nat) (g : CONSOLE_INFORMATION) (idx : Nat) (rest : List (WCHAR × BYTE)) (X : Int)
      (writes : List IME_WRITE) (r : StreamResult),
      rowLoop env W lpAtrIdx Y up fuel g idx rest X writes = some r →
      (∀ w ∈ writes, P w) → ∀ w ∈ r.writes, P w := by
  intro fuel
  induction fuel with
  | zero => intro g idx rest X writes r hr; simp [rowLoop] at hr
  | succ fuel ih =>
    intro g idx rest X writes r hr hw
    rw [rowLoop] at hr
    split_ifs at hr with h1
    · simp only [Option.some.injEq] at hr
      subst hr
      exact hw
    · rcases hgrow : growRegistry env g idx with _ | ⟨Status, g1⟩
      · simp [hgrow] at hr
      · simp only [hgrow] at hr
        split_ifs at hr with h2
        · simp only [Option.some.injEq] at hr
          subst hr
          exact hw
        · split at hr
          · simp at hr
          · rename_i st g4 writes1 hchunk
            have hc := chunkLoop_records env W lpAtrIdx P hP idx _ _ fuel _ rest X writes _ hchunk hw
            simp only [Option.some.injEq] at hr
            subst hr
            exact hc
          · rename_i g4 rest1 X1 writes1 hchunk
            have hc := chunkLoop_records env W lpAtrIdx P hP idx _ _ fuel _ rest X writes _ hchunk hw
            exact ih g4 (idx + 1) rest1 X1 writes1 r hr hc

/-- C19: when `WriteUndetermineChars` returns a success status, the chunks it
handed to the row writer, concatenated in call order, are the input mapped
character by character in order: no cell for a character below the space
character, one cell with decoration 0 for a single-width character, two cells
holding the character and tagged leading then trailing for a double-width
one; in every chunk the character array and the decoration array have the
same length. -/
theorem C19_streamComposition_cells (env : Env) (fuel : Nat) (g : CONSOLE_INFORMATION)
    (lpString : List WCHAR) (lpAtr : List BYTE) (lpAtrIdx : Nat → WORD) (NumChars : Nat) (r : StreamResult)
    (hr : WriteUndetermineChars env fuel g lpString lpAtr lpAtrIdx NumChars = some r)
    (hok : NT_SUCCESS r.Status = true) :
    writtenCells r.writes = renderCells env (inputCells lpString lpAtr NumChars) ∧
    ∀ w ∈ r.writes, w.String.length = w.StringA.length := by
  obtain ⟨W, Y, up, g0, X, _, _, hloop⟩ := WriteUndetermineChars_rowLoop env fuel g lpString lpAtr lpAtrIdx
    NumChars r hr
  constructor
  · have := rowLoop_cells env W lpAtrIdx Y up fuel g0 0 _ X [] r hloop hok
    simpa [writtenCells] using this
  · exact rowLoop_records env W lpAtrIdx (fun w => w.String.length = w.StringA.length)
      (fun _ _ _ rest X1 => (charLoop_cells env W rest 0 X1 0 0 [] [] rfl).1) Y up fuel g0 0 _ X [] r hloop
      (fun w hw => absurd hw (List.not_mem_nil w))

/-- C19 at a concrete console: the text `a`, a double-width character, a
control character and `b`, written from column 18 of a window of 20 columns,
gives the cells of `a`, of the two halves of the double-width character and of
`b`, in this order. -/
theorem C19_streamComposition_cells_witness :
    writtenCells ((WriteUndetermineChars exEnv 9 (exConsole 18 []) [97, 0x3042, 7, 98] [0, 0, 0, 0]
        (fun _ => 7) 4).get (by decide)).writes =
      [(97, 0), (0x3042, ATTR_LEADING_BYTE), (0x3042, ATTR_TRAILING_BYTE), (98, 0)] :=
  (C19_streamComposition_cells exEnv 9 (exConsole 18 []) [97, 0x3042, 7, 98] [0, 0, 0, 0] (fun _ => 7) 4
    ((WriteUndetermineChars exEnv 9 (exConsole 18 []) [97, 0x3042, 7, 98] [0, 0, 0, 0]
        (fun _ => 7) 4).get (by decide))
    (Option.some_get _).symm (by decide)).1

/-- C20 (amended): the destination attribute of every row writer call of the
streamer, which is also the attribute that is set on the buffer of the row
before the chunk is written, is the entry `a mod 8` of the color table OR-ed
with the single-line and right-vertical flags when bit `0x10` of the source
attribute byte `a` is set, OR-ed with the single-line and left-vertical flags
when bit `0x10` is clear and bit `0x20` is set, and the entry itself
otherwise. -/
theorem C20_destination_attribute (env : Env) (fuel : Nat) (g : CONSOLE_INFORMATION)
    (lpString : List WCHAR) (lpAtr : List BYTE) (lpAtrIdx : Nat → WORD) (NumChars : Nat) (r : StreamResult)
    (hr : WriteUndetermineChars env fuel g lpString lpAtr lpAtrIdx NumChars = some r)
    (w : IME_WRITE) (hw : w ∈ r.writes) :
    w.wLegacyAttr = destinationAttr lpAtrIdx w.Attr ∧
    ∀ (g1 : CONSOLE_INFORMATION) (h : Nat) (chunk : CharLoopExit),
      ((writeChunk env lpAtrIdx g1 h chunk).ConvAreas h).ScreenBuffer.Attributes =
        destinationAttr lpAtrIdx chunk.Attr := by
  obtain ⟨W, Y, up, g0, X, _, _, hloop⟩ := WriteUndetermineChars_rowLoop env fuel g lpString lpAtr lpAtrIdx
    NumChars r hr
  constructor
  · exact rowLoop_records env W lpAtrIdx (fun w => w.wLegacyAttr = destinationAttr lpAtrIdx w.Attr)
      (fun _ _ _ _ _ => resolveAttr_eq_destinationAttr lpAtrIdx _) Y up fuel g0 0 _ X [] r hloop
      (fun w hw => absurd hw (List.not_mem_nil w)) w hw
  · intro g1 h chunk
    rw [← resolveAttr_eq_destinationAttr]
    unfold writeChunk
    rw [setArea_ConvAreas_self]
    rfl

/-- C20 at a concrete console: the text `a` with the source attribute byte
`0x21` and the color table `k ↦ k + 1` is written with the attribute
`2 ||| 0x2800`, the entry 1 of the table with the single-line and
left-vertical flags. -/
theorem C20_destination_attribute_witness :
    ((((WriteUndetermineChars exEnv 9 (exConsole 0 []) [97] [0x21] (fun k => k + 1) 1).get
        (by decide)).writes.head (by decide)).wLegacyAttr) =
      destinationAttr (fun k => k + 1)
        ((((WriteUndetermineChars exEnv 9 (exConsole 0 []) [97] [0x21] (fun k => k + 1) 1).get
          (by decide)).writes.head (by decide)).Attr) :=
  (C20_destination_attribute exEnv 9 (exConsole 0 []) [97] [0x21] (fun k => k + 1) 1
    ((WriteUndetermineChars exEnv 9 (exConsole 0 []) [97] [0x21] (fun k => k + 1) 1).get (by decide))
    (Option.some_get _).symm
    (((WriteUndetermineChars exEnv 9 (exConsole 0 []) [97] [0x21] (fun k => k + 1) 1).get
      (by decide)).writes.head (by decide))
    (List.head_mem _)).1

/-- C20 fails as stated: for the source attribute byte `0x30`, in which both
bit `0x10` and bit `0x20` are set, and a color table of zeros, the streamer
writes the chunk with the attribute `0x3000` (single-line and right-vertical),
in which the left-vertical flag is clear. -/
theorem C20_counterexample :
    (WriteUndetermineChars exEnv 9 (exConsole 0 []) [97] [0x30] (fun _ => 0) 1).map
        (fun r => (r.Status,
          r.writes.map (fun w => (w.Attr, w.wLegacyAttr, w.wLegacyAttr &&& COMMON_LVB_GRID_LVERTICAL)),
          (r.g.ConvAreas 0).ScreenBuffer.Attributes)) =
      some (STATUS_SUCCESS, [(0x30, 0x3000, 0)], 0x3000) := by
  rfl
/-! ## Streaming the same text again -/

theorem writeChunk_placement (env : Env) (lpAtrIdx : Nat → WORD) (g : CONSOLE_INFORMATION) (h : Nat)
    (r : CharLoopExit) :
    ((writeChunk env lpAtrIdx g h r).ConvAreas h).CaInfo = (g.ConvAreas h).CaInfo ∧
    ((writeChunk env lpAtrIdx g h r).ConvAreas h).ScreenBuffer.CursorPosition.X =
      (g.ConvAreas h).ScreenBuffer.CursorPosition.X + r.i := by
  unfold writeChunk
  rw [setArea_ConvAreas_self]
  exact ⟨rfl, rfl⟩

theorem WriteUndetermineChars_PosY_rowLoop (env : Env) (fuel : Nat) (g : CONSOLE_INFORMATION)
    (lpString : List WCHAR) (lpAtr : List BYTE) (lpAtrIdx : Nat → WORD) (NumChars : Nat)
    (scr : SCREEN_INFORMATION) (hs : g.CurrentScreenBuffer = some scr) :
    ∃ (ScreenInfo : SCREEN_INFORMATION) (g0 : CONSOLE_INFORMATION),
      ScreenInfo.ScreenWindowSizeX = scr.ScreenWindowSizeX ∧
      ScreenInfo.ScreenWindowSizeY = scr.ScreenWindowSizeY ∧
      g0.CurrentScreenBuffer = some ScreenInfo ∧
      g0.ConsoleIme = g.ConsoleIme ∧ g0.ConvAreas = g.ConvAreas ∧
      WriteUndetermineChars env fuel g lpString lpAtr lpAtrIdx NumChars =
        rowLoop env ScreenInfo.ScreenWindowSizeX lpAtrIdx
          (WriteUndetermineChars_PosY ScreenInfo (WriteUndetermineChars_Position scr)
            (env.WideCharToMultiByte lpString (NumChars * 2))).1
          (WriteUndetermineChars_PosY ScreenInfo (WriteUndetermineChars_Position scr)
            (env.WideCharToMultiByte lpString (NumChars * 2))).2
          fuel g0 0 (inputCells lpString lpAtr NumChars) (WriteUndetermineChars_Position scr).X [] := by
  unfold WriteUndetermineChars
  simp only [hs]
  refine ⟨_, _, ?_, ?_, ?_, ?_, ?_, rfl⟩
  · simp only [SetViewportOrigin]; split_ifs <;> rfl
  · simp only [SetViewportOrigin]; split_ifs <;> rfl
  · rfl
  · rfl
  · rfl

theorem toSHORT_of_range (v : Int) (h1 : -32768 ≤ v) (h2 : v ≤ 32767) : toSHORT v = v := by
  unfold toSHORT
  omega

theorem columnCount_nonneg (env : Env) (Buffer : List WCHAR) : 0 ≤ columnCount env Buffer := by
  induction Buffer with
  | nil => exact le_refl _
  | cons c rest ih =>
    simp only [columnCount]
    split_ifs <;> omega

/-- While the column count stays in the range of `SHORT`,
`CalcWideCharToColumn` returns the required columns of the text. -/
theorem CalcWideCharToColumn_eq_columnCount (env : Env) (Buffer : List WCHAR)
    (h : columnCount env Buffer ≤ 32767) :
    CalcWideCharToColumn env Buffer Buffer.length = columnCount env Buffer := by
  have key : ∀ (s : List WCHAR) (acc : Int), 0 ≤ acc → acc + columnCount env s ≤ 32767 →
      s.foldl (fun (Column : Int) (c : WCHAR) =>
        if env.IsCharFullWidth c then toSHORT (Column + 2) else toSHORT (Column + 1)) acc =
        acc + columnCount env s := by
    intro s
    induction s with
    | nil => intro acc _ _; simp [columnCount]
    | cons c rest ih =>
      intro acc h0 hle
      have hr := columnCount_nonneg env rest
      simp only [columnCount] at hle
      simp only [List.foldl_cons, columnCount]
      split_ifs at hle ⊢ with hc
      · rw [toSHORT_of_range _ (by omega) (by omega), ih (acc + 2) (by omega) (by omega)]
        ring
      · rw [toSHORT_of_range _ (by omega) (by omega), ih (acc + 1) (by omega) (by omega)]
        ring
  have := key Buffer 0 (le_refl _) (by omega)
  unfold CalcWideCharToColumn
  rw [List.take_length, this]
  ring

/-- C25: for every call of `WriteUndetermineChars` that returns, with a
success status or with a failure status, the list `ConvAreaCompStr` of before
the call is a prefix of the list of after the call. -/
theorem C25_registry_prefix (env : Env) (fuel : Nat) (g : CONSOLE_INFORMATION)
    (lpString : List WCHAR) (lpAtr : List BYTE) (lpAtrIdx : Nat → WORD) (NumChars : Nat) (r : StreamResult)
    (hr : WriteUndetermineChars env fuel g lpString lpAtr lpAtrIdx NumChars = some r) :
    g.ConsoleIme.ConvAreaCompStr <+: r.g.ConsoleIme.ConvAreaCompStr := by
  obtain ⟨W, Y, up, g0, X, h1, _, hloop⟩ := WriteUndetermineChars_rowLoop env fuel g lpString lpAtr lpAtrIdx
    NumChars r hr
  have := (rowLoop_inv env W lpAtrIdx Y up fuel g0 0 _ X [] r hloop).2.1
  rwa [h1] at this

/-- C25 at a console with one composition row and a text that needs two rows:
the handle of the old row is the first of the two rows of after the call. -/
theorem C25_registry_prefix_witness :
    [0] <+: ((WriteUndetermineChars exEnv 9 (exConsole 18 [exHidden]) [97, 98, 99] [0, 0, 0]
        (fun _ => 7) 3).get (by decide)).g.ConsoleIme.ConvAreaCompStr :=
  C25_registry_prefix exEnv 9 (exConsole 18 [exHidden]) [97, 98, 99] [0, 0, 0] (fun _ => 7) 3
    ((WriteUndetermineChars exEnv 9 (exConsole 18 [exHidden]) [97, 98, 99] [0, 0, 0]
        (fun _ => 7) 3).get (by decide))
    (Option.some_get _).symm

/-! ## More about the character loop: capacity, columns, progress -/

/-- The stores of the character loop go to the indices from `i` up to the
final cell count, each below the capacity of the local buffers. -/
theorem charLoop_stores_spec (env : Env) (W : Int) (rest : List (WCHAR × BYTE)) :
    ∀ (i : Nat) (X : Int) (Char : WCHAR) (Attr : WORD) (buf : List WCHAR) (bufA : List BYTE),
      i ≤ (charLoop env W rest i X Char Attr buf bufA).i ∧
      (i ≤ LOCAL_BUFFER_SIZE → (charLoop env W rest i X Char Attr buf bufA).i ≤ LOCAL_BUFFER_SIZE) ∧
      charLoop_stores env W rest i X =
        List.range' i ((charLoop env W rest i X Char Attr buf bufA).i - i) := by
  induction rest with
  | nil => intro i X Char Attr buf bufA; simp [charLoop, charLoop_stores]
  | cons p rest ih =>
    obtain ⟨c, a⟩ := p
    intro i X Char Attr buf bufA
    simp only [charLoop, charLoop_stores, LOCAL_BUFFER_SIZE] at ih ⊢
    split_ifs with h1 h2 h3 h4 h5 h5 h5
    · refine ⟨by simp, fun _ => by simp only []; omega, ?_⟩
      simp [List.range']
    · obtain ⟨j1, j2, j3⟩ := ih (i + 2) (X + 2) c a (buf ++ [c, c])
        (bufA ++ [ATTR_LEADING_BYTE, ATTR_TRAILING_BYTE])
      refine ⟨by omega, fun _ => j2 (by omega), ?_⟩
      rw [j3]
      have : (charLoop env W rest (i + 2) (X + 2) c a (buf ++ [c, c])
          (bufA ++ [ATTR_LEADING_BYTE, ATTR_TRAILING_BYTE])).i - i =
          ((charLoop env W rest (i + 2) (X + 2) c a (buf ++ [c, c])
          (bufA ++ [ATTR_LEADING_BYTE, ATTR_TRAILING_BYTE])).i - (i + 2)) + 1 + 1 := by omega
      rw [this]
      rfl
    · exact ⟨le_refl _, fun h => h, by simp⟩
    · refine ⟨by simp, fun _ => by simp only []; omega, ?_⟩
      simp [List.range']
    · obtain ⟨j1, j2, j3⟩ := ih (i + 1) (X + 1) c a (buf ++ [c]) (bufA ++ [0])
      refine ⟨by omega, fun _ => j2 (by omega), ?_⟩
      rw [j3]
      have : (charLoop env W rest (i + 1) (X + 1) c a (buf ++ [c]) (bufA ++ [0])).i - i =
          ((charLoop env W rest (i + 1) (X + 1) c a (buf ++ [c]) (bufA ++ [0])).i - (i + 1)) + 1 := by
        omega
      rw [this]
      rfl
    · exact ⟨le_refl _, fun h => h, by simp⟩
    · exact ih i X c a buf bufA
    · exact ⟨le_refl _, fun h => h, by simp⟩

/-- The column of the character loop advances by at least the cells stored,
and it does not pass the window width once a cell is stored. -/
theorem charLoop_columns (env : Env) (W : Int) (rest : List (WCHAR × BYTE)) :
    ∀ (i : Nat) (X : Int) (Char : WCHAR) (Attr : WORD) (buf : List WCHAR) (bufA : List BYTE),
      X + ((charLoop env W rest i X Char Attr buf bufA).i : Int) ≤
        (charLoop env W rest i X Char Attr buf bufA).PositionX + (i : Int) ∧
      (X ≤ W → (charLoop env W rest i X Char Attr buf bufA).PositionX ≤ W) ∧
      (i < (charLoop env W rest i X Char Attr buf bufA).i →
        (charLoop env W rest i X Char Attr buf bufA).PositionX ≤ W) := by
  induction rest with
  | nil => intro i X Char Attr buf bufA; simp [charLoop]
  | cons p rest ih =>
    obtain ⟨c, a⟩ := p
    intro i X Char Attr buf bufA
    simp only [charLoop]
    split_ifs with h1 h2 h3 h4 h5 h5 h5
    · refine ⟨?_, fun _ => ?_, fun _ => ?_⟩ <;> simp only [] <;> omega
    · obtain ⟨j1, j2, j3⟩ := ih (i + 2) (X + 2) c a (buf ++ [c, c])
        (bufA ++ [ATTR_LEADING_BYTE, ATTR_TRAILING_BYTE])
      refine ⟨?_, fun _ => j2 (by omega), fun _ => j2 (by omega)⟩
      push_cast at j1
      omega
    · refine ⟨?_, fun _ => ?_, fun h => ?_⟩ <;> simp only [] at * <;> omega
    · refine ⟨?_, fun _ => ?_, fun _ => ?_⟩ <;> simp only [] <;> omega
    · obtain ⟨j1, j2, j3⟩ := ih (i + 1) (X + 1) c a (buf ++ [c]) (bufA ++ [0])
      refine ⟨?_, fun _ => j2 (by omega), fun _ => j2 (by omega)⟩
      push_cast at j1
      omega
    · refine ⟨?_, fun h => ?_, fun h => ?_⟩ <;> simp only [] at * <;> omega
    · exact ih i X c a buf bufA
    · refine ⟨?_, fun h => ?_, fun h => ?_⟩ <;> simp only [] at * <;> omega

/-- A pass of the character loop that starts with an empty chunk consumes a
character, or it leaves the input as it is with an empty chunk and a column
at or beyond the window width, at most one beyond the start column. -/
theorem charLoop_progress (env : Env) (W : Int) (rest : List (WCHAR × BYTE)) (X : Int)
    (hne : rest ≠ []) :
    (charLoop env W rest 0 X 0 0 [] []).rest.length < rest.length ∨
    ((charLoop env W rest 0 X 0 0 [] []).rest = rest ∧ (charLoop env W rest 0 X 0 0 [] []).i = 0 ∧
      W ≤ (charLoop env W rest 0 X 0 0 [] []).PositionX ∧
      (charLoop env W rest 0 X 0 0 [] []).PositionX ≤ X + 1) := by
  cases rest with
  | nil => exact absurd rfl hne
  | cons p rest =>
    obtain ⟨c, a⟩ := p
    simp only [charLoop, LOCAL_BUFFER_SIZE]
    split_ifs with h1 h2 h3 h4 h5 h5 h5
    · left; simp
    · left
      have := (charLoop_suffix env W rest (0 + 2) (X + 2) c a ([] ++ [c, c])
        ([] ++ [ATTR_LEADING_BYTE, ATTR_TRAILING_BYTE])).length_le
      simp only [List.length_cons]; omega
    · right; refine ⟨rfl, rfl, ?_, ?_⟩ <;> simp only [] <;> omega
    · left; simp
    · left
      have := (charLoop_suffix env W rest (0 + 1) (X + 1) c a ([] ++ [c]) ([] ++ [0])).length_le
      simp only [List.length_cons]; omega
    · left; simp
    · left
      have := (charLoop_suffix env W rest 0 X c a [] []).length_le
      simp only [List.length_cons]; omega
    · right; refine ⟨rfl, rfl, ?_, ?_⟩ <;> simp only [] <;> omega

/-! ## The source attribute of the cells of a chunk -/

theorem chunkTagged_attr (buf : List WCHAR) (bufA : List BYTE) (a Attr : WORD)
    (h : buf = [] ∨ a = Attr) : chunkTagged buf bufA a = chunkTagged buf bufA Attr := by
  rcases h with h | h
  · subst h; simp [chunkTagged]
  · rw [h]

theorem chunkTagged_snoc_single (buf : List WCHAR) (bufA : List BYTE) (c : WCHAR) (a : WORD)
    (hlen : buf.length = bufA.length) :
    chunkTagged (buf ++ [c]) (bufA ++ [0]) a = chunkTagged buf bufA a ++ [(c, 0, a)] := by
  simp [chunkTagged, List.zip_append hlen]

theorem chunkTagged_snoc_double (buf : List WCHAR) (bufA : List BYTE) (c : WCHAR) (a : WORD)
    (hlen : buf.length = bufA.length) :
    chunkTagged (buf ++ [c, c]) (bufA ++ [ATTR_LEADING_BYTE, ATTR_TRAILING_BYTE]) a =
      chunkTagged buf bufA a ++ [(c, ATTR_LEADING_BYTE, a), (c, ATTR_TRAILING_BYTE, a)] := by
  simp [chunkTagged, List.zip_append hlen]

theorem attrChanges_head (a : WORD) (rest : List (WCHAR × BYTE)) (h : ¬ attrChanges a rest = true)
    (buf : List WCHAR) : buf = [] ∨ ∀ p, rest.head? = some p → p.2 = a := by
  right
  intro p hp
  cases rest with
  | nil => simp at hp
  | cons q r =>
    simp only [List.head?_cons, Option.some.injEq] at hp
    subst hp
    simp only [attrChanges, decide_eq_true_eq, ne_eq, not_not] at h
    exact h.symm

/-- The character loop moves cells from the input to the chunk, and every
cell of the chunk comes from a character whose attribute byte is the `Attr`
with which the loop is left. -/
theorem charLoop_tagged (env : Env) (W : Int) (rest : List (WCHAR × BYTE)) :
    ∀ (i : Nat) (X : Int) (Char : WCHAR) (Attr : WORD) (buf : List WCHAR) (bufA : List BYTE),
      buf.length = bufA.length →
      (buf = [] ∨ ∀ p, rest.head? = some p → p.2 = Attr) →
      chunkTagged (charLoop env W rest i X Char Attr buf bufA).LocalBuffer
          (charLoop env W rest i X Char Attr buf bufA).LocalBufferA
          (charLoop env W rest i X Char Attr buf bufA).Attr ++
        renderTagged env (charLoop env W rest i X Char Attr buf bufA).rest =
        chunkTagged buf bufA Attr ++ renderTagged env rest := by
  induction rest with
  | nil => intro i X Char Attr buf bufA h _; simp [charLoop]
  | cons p rest ih =>
    obtain ⟨c, a⟩ := p
    intro i X Char Attr buf bufA h hd
    have h1 : (buf ++ [c]).length = (bufA ++ [0]).length := by simp [h]
    have h2 : (buf ++ [c, c]).length = (bufA ++ [ATTR_LEADING_BYTE, ATTR_TRAILING_BYTE]).length := by
      simp [h]
    have ha : buf = [] ∨ a = Attr := hd.imp id (fun hh => hh (c, a) rfl)
    have ht := chunkTagged_attr buf bufA a Attr ha
    simp only [charLoop]
    split_ifs with g1 g2 g3 g4 g5 g5 g5
    · simp only []
      rw [chunkTagged_snoc_double buf bufA c a h, ht, renderTagged, if_neg (Nat.not_lt.2 g2), if_pos g3]
      simp
    · rw [ih _ _ _ _ _ _ h2 (attrChanges_head a rest g5 _), chunkTagged_snoc_double buf bufA c a h, ht,
        renderTagged, if_neg (Nat.not_lt.2 g2), if_pos g3]
      simp
    · simp only []
      rw [ht]
    · simp only []
      rw [chunkTagged_snoc_single buf bufA c a h, ht, renderTagged, if_neg (Nat.not_lt.2 g2), if_neg g3]
      simp
    · rw [ih _ _ _ _ _ _ h1 (attrChanges_head a rest g5 _), chunkTagged_snoc_single buf bufA c a h, ht,
        renderTagged, if_neg (Nat.not_lt.2 g2), if_neg g3]
      simp
    · simp only []
      rw [ht, renderTagged, if_pos (Nat.lt_of_not_ge g2)]
    · rw [ih _ _ _ _ _ _ h (attrChanges_head a rest g5 _), ht, renderTagged, if_pos (Nat.lt_of_not_ge g2)]
    · rfl

theorem taggedCells_snoc (writes : List IME_WRITE) (w : IME_WRITE) :
    taggedCells (writes ++ [w]) = taggedCells writes ++ chunkTagged w.String w.StringA w.Attr := by
  simp [taggedCells]

/-- The chunk loop conserves the cells with their source attributes. -/
theorem chunkLoop_tagged (env : Env) (W : Int) (lpAtrIdx : Nat → WORD) (idx h : Nat) (RegionLeft : Int) :
    ∀ (fuel : Nat) (g : CONSOLE_INFORMATION) (rest : List (WCHAR × BYTE)) (X : Int) (writes : List IME_WRITE)
      (out : ChunkExit),
      chunkLoop env W lpAtrIdx idx h RegionLeft fuel g rest X writes = some out →
      taggedCells out.writes ++ renderTagged env out.rest = taggedCells writes ++ renderTagged env rest := by
  intro fuel
  induction fuel with
  | zero => intro g rest X writes out hc; simp [chunkLoop] at hc
  | succ fuel ih =>
    intro g rest X writes out hc
    simp only [chunkLoop] at hc
    have hk := charLoop_tagged env W rest 0 X 0 0 [] [] rfl (Or.inl rfl)
    have hi := charLoop_length env W rest 0 X 0 0 [] [] rfl
    have hnil : chunkTagged [] [] 0 = [] := rfl
    rw [hnil, List.nil_append] at hk
    have hz : (charLoop env W rest 0 X 0 0 [] []).i = 0 →
        chunkTagged (charLoop env W rest 0 X 0 0 [] []).LocalBuffer
          (charLoop env W rest 0 X 0 0 [] []).LocalBufferA (charLoop env W rest 0 X 0 0 [] []).Attr = [] := by
      intro h0
      have : (charLoop env W rest 0 X 0 0 [] []).LocalBuffer = [] := by
        apply List.eq_nil_of_length_eq_zero
        rw [← hi]
        exact h0
      rw [this]
      simp [chunkTagged]
    split_ifs at hc with h1 h2 h3 h4 h5 h6
    · simp only [Option.some.injEq] at hc
      subst hc
      rfl
    · simp only [Option.some.injEq] at hc
      subst hc
      simp only [ChunkExit.writes, ChunkExit.rest, taggedCells_snoc, chunkRecord, List.append_assoc, hk]
    · exact absurd (Or.inl h4) h3
    · rw [ih _ _ _ _ _ hc]
      simp only [taggedCells_snoc, chunkRecord, List.append_assoc, hk]
    · simp only [Option.some.injEq] at hc
      subst hc
      have he : (charLoop env W rest 0 X 0 0 [] []).rest = [] := List.isEmpty_iff.1 h5
      rw [he, hz (by simpa using h2)] at hk
      simp only [ChunkExit.writes, ChunkExit.rest]
      rw [← hk]
      simp
    · simp only [Option.some.injEq] at hc
      subst hc
      rw [hz (by simpa using h2)] at hk
      simp only [ChunkExit.writes, ChunkExit.rest]
      rw [← hk]
      simp
    · rw [ih _ _ _ _ _ hc]
      rw [hz (by simpa using h2)] at hk
      rw [← hk]
      simp

/-- Whenever the row loop returns, the cells handed to the row writer, with
their source attributes, followed by the cells of the input that is left, are
those handed before followed by the cells of the input; on a success return
no input is left. -/
theorem rowLoop_tagged (env : Env) (W : Int) (lpAtrIdx : Nat → WORD) (Y : Int) (up : Bool) :
    ∀ (fuel : Nat) (g : CONSOLE_INFORMATION) (idx : Nat) (rest : List (WCHAR × BYTE)) (X : Int)
      (writes : List IME_WRITE) (r : StreamResult),
      rowLoop env W lpAtrIdx Y up fuel g idx rest X writes = some r →
      ∃ left, taggedCells r.writes ++ renderTagged env left = taggedCells writes ++ renderTagged env rest ∧
        (NT_SUCCESS r.Status = true → left = []) := by
  intro fuel
  induction fuel with
  | zero => intro g idx rest X writes r hr; simp [rowLoop] at hr
  | succ fuel ih =>
    intro g idx rest X writes r hr
    rw [rowLoop] at hr
    split_ifs at hr with h1
    · simp only [Option.some.injEq] at hr
      subst hr
      exact ⟨[], by rw [List.isEmpty_iff.1 h1], fun _ => rfl⟩
    · rcases hgrow : growRegistry env g idx with _ | ⟨Status, g1⟩
      · simp [hgrow] at hr
      · simp only [hgrow] at hr
        split_ifs at hr with h2
        · simp only [Option.some.injEq] at hr
          subst hr
          refine ⟨rest, rfl, fun hok => ?_⟩
          simp only at hok
          simp [hok] at h2
        · split at hr
          · simp at hr
          · rename_i st g4 writes1 hchunk
            have hc := chunkLoop_tagged env W lpAtrIdx idx _ _ fuel _ rest X writes _ hchunk
            simp only [ChunkExit.writes, ChunkExit.rest] at hc
            simp only [Option.some.injEq] at hr
            subst hr
            exact ⟨[], hc, fun _ => rfl⟩
          · rename_i g4 rest1 X1 writes1 hchunk
            have hc := chunkLoop_tagged env W lpAtrIdx idx _ _ fuel _ rest X writes _ hchunk
            simp only [ChunkExit.writes, ChunkExit.rest] at hc
            obtain ⟨left, j1, j2⟩ := ih g4 (idx + 1) rest1 X1 writes1 r hr
            exact ⟨left, j1.trans hc, j2⟩

/-- C22: whenever `WriteUndetermineChars` returns, the cells of the chunks
handed to the row writer, each taken with the source attribute byte `Attr` of
its chunk, are, in order, the first cells of the input taken with the
attribute byte of the input character that each cell comes from (all of them
on a success return): every cell of a chunk comes from an input character
that carries the attribute byte `Attr` of the chunk; and the destination
attribute of the chunk is resolved from this byte. -/
theorem C22_chunk_attribute (env : Env) (fuel : Nat) (g : CONSOLE_INFORMATION)
    (lpString : List WCHAR) (lpAtr : List BYTE) (lpAtrIdx : Nat → WORD) (NumChars : Nat) (r : StreamResult)
    (hr : WriteUndetermineChars env fuel g lpString lpAtr lpAtrIdx NumChars = some r) :
    taggedCells r.writes <+: renderTagged env (inputCells lpString lpAtr NumChars) ∧
    (NT_SUCCESS r.Status = true →
      taggedCells r.writes = renderTagged env (inputCells lpString lpAtr NumChars)) ∧
    ∀ w ∈ r.writes, w.wLegacyAttr = resolveAttr lpAtrIdx w.Attr := by
  obtain ⟨W, Y, up, g0, X, _, _, hloop⟩ := WriteUndetermineChars_rowLoop env fuel g lpString lpAtr lpAtrIdx
    NumChars r hr
  obtain ⟨left, j1, j2⟩ := rowLoop_tagged env W lpAtrIdx Y up fuel g0 0 _ X [] r hloop
  have hnil : taggedCells [] = [] := rfl
  rw [hnil, List.nil_append] at j1
  refine ⟨⟨_, j1⟩, fun hok => ?_, ?_⟩
  · rw [j2 hok] at j1
    simpa [renderTagged] using j1
  · exact rowLoop_records env W lpAtrIdx (fun w => w.wLegacyAttr = resolveAttr lpAtrIdx w.Attr)
      (fun _ _ _ _ _ => rfl) Y up fuel g0 0 _ X [] r hloop
      (fun w hw => absurd hw (List.not_mem_nil w))

/-- C22 at a concrete console: the text `a`, `b` under the attribute byte 0
and `c` under the attribute byte 1 goes to the row writer as three cells that
carry the attribute bytes 0, 0 and 1 of their chunks. -/
theorem C22_chunk_attribute_witness :
    taggedCells ((WriteUndetermineChars exEnv 9 (exConsole 3 []) [97, 98, 99] [0, 0, 1]
        (fun _ => 7) 3).get (by decide)).writes = [(97, 0, 0), (98, 0, 0), (99, 0, 1)] :=
  (C22_chunk_attribute exEnv 9 (exConsole 3 []) [97, 98, 99] [0, 0, 1] (fun _ => 7) 3
    ((WriteUndetermineChars exEnv 9 (exConsole 3 []) [97, 98, 99] [0, 0, 1]
        (fun _ => 7) 3).get (by decide))
    (Option.some_get _).symm).2.1 (by decide)

/-! ## Capacity of a chunk and the columns that it is written to -/

/-- C28: in every pass of the character loop that fills a chunk, every store
to the local buffers goes to an index below `LOCAL_BUFFER_SIZE` (both stores
of a double-width character included): the indices stored to are, in order,
`0` up to the cell count `i` of the chunk, which is the length of both arrays
of the chunk and is at most `LOCAL_BUFFER_SIZE`; so every chunk that
`WriteUndetermineChars` hands to the row writer has at most
`LOCAL_BUFFER_SIZE` cells. -/
theorem C28_chunk_capacity (env : Env) (W : Int) (rest : List (WCHAR × BYTE)) (X : Int) :
    (∀ k ∈ charLoop_stores env W rest 0 X, k < LOCAL_BUFFER_SIZE) ∧
    charLoop_stores env W rest 0 X = List.range (charLoop env W rest 0 X 0 0 [] []).i ∧
    (charLoop env W rest 0 X 0 0 [] []).LocalBuffer.length = (charLoop env W rest 0 X 0 0 [] []).i ∧
    (charLoop env W rest 0 X 0 0 [] []).LocalBufferA.length = (charLoop env W rest 0 X 0 0 [] []).i ∧
    (charLoop env W rest 0 X 0 0 [] []).i ≤ LOCAL_BUFFER_SIZE ∧
    ∀ (fuel : Nat) (g : CONSOLE_INFORMATION) (lpString : List WCHAR) (lpAtr : List BYTE)
      (lpAtrIdx : Nat → WORD) (NumChars : Nat) (r : StreamResult),
      WriteUndetermineChars env fuel g lpString lpAtr lpAtrIdx NumChars = some r →
      ∀ w ∈ r.writes, w.String.length ≤ LOCAL_BUFFER_SIZE ∧ w.StringA.length ≤ LOCAL_BUFFER_SIZE := by
  have hcap : ∀ (W1 : Int) (rest1 : List (WCHAR × BYTE)) (X1 : Int),
      (charLoop env W1 rest1 0 X1 0 0 [] []).LocalBuffer.length = (charLoop env W1 rest1 0 X1 0 0 [] []).i ∧
      (charLoop env W1 rest1 0 X1 0 0 [] []).LocalBufferA.length = (charLoop env W1 rest1 0 X1 0 0 [] []).i ∧
      (charLoop env W1 rest1 0 X1 0 0 [] []).i ≤ LOCAL_BUFFER_SIZE := by
    intro W1 rest1 X1
    have hl := charLoop_length env W1 rest1 0 X1 0 0 [] [] rfl
    have hz := (charLoop_cells env W1 rest1 0 X1 0 0 [] [] rfl).1
    have hb := (charLoop_stores_spec env W1 rest1 0 X1 0 0 [] []).2.1 (Nat.zero_le _)
    exact ⟨hl.symm, by rw [← hz]; exact hl.symm, hb⟩
  obtain ⟨c1, c2, c3⟩ := hcap W rest X
  have hs := (charLoop_stores_spec env W rest 0 X 0 0 [] []).2.2
  rw [Nat.sub_zero] at hs
  have hs2 : charLoop_stores env W rest 0 X = List.range (charLoop env W rest 0 X 0 0 [] []).i := by
    rw [hs, List.range_eq_range']
  refine ⟨?_, hs2, c1, c2, c3, ?_⟩
  · intro k hk
    rw [hs2, List.mem_range] at hk
    omega
  · intro fuel g lpString lpAtr lpAtrIdx NumChars r hr
    obtain ⟨W1, Y, up, g0, X0, _, _, hloop⟩ := WriteUndetermineChars_rowLoop env fuel g lpString lpAtr
      lpAtrIdx NumChars r hr
    exact rowLoop_records env W1 lpAtrIdx
      (fun w => w.String.length ≤ LOCAL_BUFFER_SIZE ∧ w.StringA.length ≤ LOCAL_BUFFER_SIZE)
      (fun _ _ _ rest1 X1 => by
        obtain ⟨d1, d2, d3⟩ := hcap W1 rest1 X1
        simp only [chunkRecord]
        exact ⟨by rw [d1]; exact d3, by rw [d2]; exact d3⟩)
      Y up fuel g0 0 _ X0 [] r hloop (fun w hw => absurd hw (List.not_mem_nil w))

set_option maxRecDepth 20000 in
/-- C28 at a text of 120 single-width characters in a window of 200 columns:
the first chunk holds 100 cells, stored to the indices 0 to 99. -/
theorem C28_chunk_capacity_witness :
    charLoop_stores exEnv 200 (List.replicate 120 (97, 0)) 0 0 = List.range 100 :=
  (C28_chunk_capacity exEnv 200 (List.replicate 120 (97, 0)) 0).2.1.trans (by decide)

/-- The row writer calls of one row stay inside the window: the cursor column
of the buffer of the row is never ahead of the column of the loop. -/
theorem chunkLoop_columns (env : Env) (W : Int) (lpAtrIdx : Nat → WORD) (idx h : Nat) (RegionLeft : Int) :
    ∀ (fuel : Nat) (g : CONSOLE_INFORMATION) (rest : List (WCHAR × BYTE)) (X : Int) (writes : List IME_WRITE)
      (out : ChunkExit),
      chunkLoop env W lpAtrIdx idx h RegionLeft fuel g rest X writes = some out →
      (g.ConvAreas h).ScreenBuffer.CursorPosition.X ≤ X →
      0 ≤ (g.ConvAreas h).ScreenBuffer.CursorPosition.X →
      (∀ w ∈ writes, 0 ≤ w.TargetX ∧ w.TargetX + (w.String.length : Int) ≤ W) →
      (∀ w ∈ out.writes, 0 ≤ w.TargetX ∧ w.TargetX + (w.String.length : Int) ≤ W) ∧
      (∀ g4 rest1 X1 w1, out = ChunkExit.toRowLoop g4 rest1 X1 w1 → 0 ≤ X1) := by
  intro fuel
  induction fuel with
  | zero => intro g rest X writes out hc; simp [chunkLoop] at hc
  | succ fuel ih =>
    intro g rest X writes out hc hcur h0 hw
    simp only [chunkLoop] at hc
    obtain ⟨k1, k2, k3⟩ := charLoop_columns env W rest 0 X 0 0 [] []
    have hi := charLoop_length env W rest 0 X 0 0 [] [] rfl
    have hp := (writeChunk_placement env lpAtrIdx g h (charLoop env W rest 0 X 0 0 [] [])).2
    simp only [Nat.cast_zero, add_zero] at k1
    have hrec : (charLoop env W rest 0 X 0 0 [] []).i ≠ 0 →
        ∀ w ∈ writes ++ [chunkRecord lpAtrIdx g idx h (charLoop env W rest 0 X 0 0 [] [])],
          0 ≤ w.TargetX ∧ w.TargetX + (w.String.length : Int) ≤ W := by
      intro hne w hmem
      rcases List.mem_append.1 hmem with hm | hm
      · exact hw w hm
      · rw [List.mem_singleton] at hm
        subst hm
        have := k3 (Nat.pos_of_ne_zero hne)
        simp only [chunkRecord]
        rw [← hi]
        exact ⟨h0, by omega⟩
    split_ifs at hc with h1 h2 h3 h4 h5 h6
    · simp only [Option.some.injEq] at hc
      subst hc
      refine ⟨hw, ?_⟩
      intro g4 rest1 X1 w1 he
      cases he
      omega
    · simp only [Option.some.injEq] at hc
      subst hc
      refine ⟨hrec h2, ?_⟩
      intro g4 rest1 X1 w1 he
      cases he
      exact le_refl _
    · exact absurd (Or.inl h4) h3
    · exact ih _ _ _ _ _ hc (by rw [hp]; omega) (by rw [hp]; omega) (hrec h2)
    · simp only [Option.some.injEq] at hc
      subst hc
      refine ⟨hw, ?_⟩
      intro g4 rest1 X1 w1 he
      cases he
    · simp only [Option.some.injEq] at hc
      subst hc
      refine ⟨hw, ?_⟩
      intro g4 rest1 X1 w1 he
      cases he
      exact le_refl _
    · exact ih _ _ _ _ _ hc (by omega) h0 hw

theorem rowLoop_columns (env : Env) (W : Int) (lpAtrIdx : Nat → WORD) (Y : Int) (up : Bool) :
    ∀ (fuel : Nat) (g : CONSOLE_INFORMATION) (idx : Nat) (rest : List (WCHAR × BYTE)) (X : Int)
      (writes : List IME_WRITE) (r : StreamResult),
      rowLoop env W lpAtrIdx Y up fuel g idx rest X writes = some r → 0 ≤ X →
      (∀ w ∈ writes, 0 ≤ w.TargetX ∧ w.TargetX + (w.String.length : Int) ≤ W) →
      ∀ w ∈ r.writes, 0 ≤ w.TargetX ∧ w.TargetX + (w.String.length : Int) ≤ W := by
  intro fuel
  induction fuel with
  | zero => intro g idx rest X writes r hr; simp [rowLoop] at hr
  | succ fuel ih =>
    intro g idx rest X writes r hr hX hw
    rw [rowLoop] at hr
    split_ifs at hr with h1
    · simp only [Option.some.injEq] at hr
      subst hr
      exact hw
    · rcases hgrow : growRegistry env g idx with _ | ⟨Status, g1⟩
      · simp [hgrow] at hr
      · simp only [hgrow] at hr
        split_ifs at hr with h2
        · simp only [Option.some.injEq] at hr
          subst hr
          exact hw
        · have hcx := startRow_cursorX g1 (g1.ConsoleIme.ConvAreaCompStr.getD idx 0) idx X Y up
          split at hr
          · simp at hr
          · rename_i st g4 writes1 hchunk
            have hc := (chunkLoop_columns env W lpAtrIdx idx _ _ fuel _ rest X writes _ hchunk
              (by rw [hcx]) (by rw [hcx]; exact hX) hw).1
            simp only [Option.some.injEq] at hr
            subst hr
            exact hc
          · rename_i g4 rest1 X1 writes1 hchunk
            obtain ⟨hc, hx1⟩ := chunkLoop_columns env W lpAtrIdx idx _ _ fuel _ rest X writes _ hchunk
              (by rw [hcx]) (by rw [hcx]; exact hX) hw
            exact ih g4 (idx + 1) rest1 X1 writes1 r hr (hx1 _ _ _ _ rfl) hc

/-- C29: when the cursor column of the primary surface is not negative, every
row writer call of `WriteUndetermineChars` has a target column that is not
negative and satisfies target column + chunk length ≤ window width; so for
every buffer that is at least window-width columns wide and whose cursor is
at the target column, the condition of the edge-truncation branch (line 945)
is false, the two arrays of the chunk are written as they are, and every
written cell lies inside the row. -/
theorem C29_writes_inside_window (env : Env) (fuel : Nat) (g : CONSOLE_INFORMATION)
    (lpString : List WCHAR) (lpAtr : List BYTE) (lpAtrIdx : Nat → WORD) (NumChars : Nat) (r : StreamResult)
    (scr : SCREEN_INFORMATION) (hs : g.CurrentScreenBuffer = some scr) (hx : 0 ≤ scr.CursorPosition.X)
    (hr : WriteUndetermineChars env fuel g lpString lpAtr lpAtrIdx NumChars = some r)
    (w : IME_WRITE) (hw : w ∈ r.writes) :
    0 ≤ w.TargetX ∧ w.TargetX + (w.String.length : Int) ≤ scr.ScreenWindowSizeX ∧
    ∀ sb : SCREEN_INFORMATION, sb.CursorPosition.X = w.TargetX →
      scr.ScreenWindowSizeX ≤ sb.ScreenBufferSize.X →
      ¬ (0 ≤ sb.ScreenBufferSize.X - sb.CursorPosition.X ∧ sb.ScreenBufferSize.X - sb.CursorPosition.X ≠ 0 ∧
          (w.String.length : Int) > sb.ScreenBufferSize.X - sb.CursorPosition.X) ∧
      edgeAdjust w.String w.StringA w.String.length sb = (w.String, w.StringA) ∧
      sb.CursorPosition.X + (w.String.length : Int) ≤ sb.ScreenBufferSize.X := by
  obtain ⟨ScreenInfo, g0, e1, _, _, _, _, hloop⟩ := WriteUndetermineChars_PosY_rowLoop env fuel g lpString lpAtr
    lpAtrIdx NumChars scr hs
  rw [hr] at hloop
  have hpos : 0 ≤ (WriteUndetermineChars_Position scr).X := by
    unfold WriteUndetermineChars_Position
    split_ifs with hin
    · simp only []
      omega
    · exact hx
  obtain ⟨j1, j2⟩ := rowLoop_columns env _ lpAtrIdx _ _ fuel g0 0 _ _ [] r hloop.symm hpos
    (fun w hw => absurd hw (List.not_mem_nil w)) w hw
  rw [e1] at j2
  refine ⟨j1, j2, ?_⟩
  intro sb hsb hwide
  have hno : ¬ (0 ≤ sb.ScreenBufferSize.X - sb.CursorPosition.X ∧
      sb.ScreenBufferSize.X - sb.CursorPosition.X ≠ 0 ∧
      (w.String.length : Int) > sb.ScreenBufferSize.X - sb.CursorPosition.X) := by
    rw [hsb]
    omega
  refine ⟨hno, ?_, by rw [hsb]; omega⟩
  unfold edgeAdjust
  simp only []
  rw [if_neg hno]

/-- C29 at a concrete console: the first row writer call for the text `a`,
`b`, `c`, streamed from column 18 of a window of 20 columns, ends at column
20. -/
theorem C29_writes_inside_window_witness :
    (((WriteUndetermineChars exEnv 9 (exConsole 18 []) [97, 98, 99] [0, 0, 0]
        (fun _ => 7) 3).get (by decide)).writes.head (by decide)).TargetX +
      ((((WriteUndetermineChars exEnv 9 (exConsole 18 []) [97, 98, 99] [0, 0, 0]
        (fun _ => 7) 3).get (by decide)).writes.head (by decide)).String.length : Int) ≤ 20 :=
  (C29_writes_inside_window exEnv 9 (exConsole 18 []) [97, 98, 99] [0, 0, 0] (fun _ => 7) 3
    ((WriteUndetermineChars exEnv 9 (exConsole 18 []) [97, 98, 99] [0, 0, 0]
        (fun _ => 7) 3).get (by decide))
    (exScreen 20 10 18 3) rfl (by decide) (Option.some_get _).symm _ (List.head_mem _)).2.1

/-! ## Termination of the streamer -/

/-- The chunk loop is left when the fuel exceeds the number of characters of
the input; the input does not grow, it shrinks when the row has room for any
character at the start, and the row loop is continued at column 0 while input
is left. -/
theorem chunkLoop_terminates (env : Env) (W : Int) (lpAtrIdx : Nat → WORD) (idx h : Nat) (RegionLeft : Int) :
    ∀ (fuel : Nat) (g : CONSOLE_INFORMATION) (rest : List (WCHAR × BYTE)) (X : Int) (writes : List IME_WRITE),
      rest.length < fuel →
      ∃ out, chunkLoop env W lpAtrIdx idx h RegionLeft fuel g rest X writes = some out ∧
        out.rest.length ≤ rest.length ∧
        (rest ≠ [] → X + 1 < W → out.rest.length < rest.length) ∧
        (∀ g4 rest1 X1 w1, out = ChunkExit.toRowLoop g4 rest1 X1 w1 → rest1 ≠ [] → X1 = 0) := by
  intro fuel
  induction fuel with
  | zero => intro g rest X writes hlen; omega
  | succ fuel ih =>
    intro g rest X writes hlen
    simp only [chunkLoop]
    have hsuf := (charLoop_suffix env W rest 0 X 0 0 [] []).length_le
    split_ifs with h1 h2 h3 h4 h5 h6
    · refine ⟨_, rfl, le_refl _, ?_, ?_⟩
      · intro hne; exact absurd (List.isEmpty_iff.1 h1) hne
      · intro g4 rest1 X1 w1 he hne
        cases he
        exact absurd (List.isEmpty_iff.1 h1) hne
    · have hne : rest ≠ [] := fun hh => h1 (by rw [hh]; rfl)
      refine ⟨_, rfl, hsuf, ?_, ?_⟩
      · intro _ _
        rcases charLoop_progress env W rest X hne with hp | hp
        · exact hp
        · exact absurd hp.2.1 h2
      · intro g4 rest1 X1 w1 he _
        cases he
        rfl
    · exact absurd (Or.inl h4) h3
    · have hne : rest ≠ [] := fun hh => h1 (by rw [hh]; rfl)
      have hlt : (charLoop env W rest 0 X 0 0 [] []).rest.length < rest.length := by
        rcases charLoop_progress env W rest X hne with hp | hp
        · exact hp
        · exact absurd hp.2.1 h2
      obtain ⟨out, e1, e2, _, e4⟩ := ih (writeChunk env lpAtrIdx g h (charLoop env W rest 0 X 0 0 [] []))
        (charLoop env W rest 0 X 0 0 [] []).rest (charLoop env W rest 0 X 0 0 [] []).PositionX
        (writes ++ [chunkRecord lpAtrIdx g idx h (charLoop env W rest 0 X 0 0 [] [])]) (by omega)
      exact ⟨out, e1, by omega, fun _ _ => by omega, e4⟩
    · have hne : rest ≠ [] := fun hh => h1 (by rw [hh]; rfl)
      refine ⟨_, rfl, by simp [ChunkExit.rest], ?_, ?_⟩
      · intro _ _
        simp only [ChunkExit.rest, List.length_nil]
        exact List.length_pos.2 hne
      · intro g4 rest1 X1 w1 he
        cases he
    · have hne : rest ≠ [] := fun hh => h1 (by rw [hh]; rfl)
      refine ⟨_, rfl, hsuf, ?_, ?_⟩
      · intro _ hX
        rcases charLoop_progress env W rest X hne with hp | hp
        · exact hp
        · omega
      · intro g4 rest1 X1 w1 he _
        cases he
        rfl
    · have hne : rest ≠ [] := fun hh => h1 (by rw [hh]; rfl)
      have hlt : (charLoop env W rest 0 X 0 0 [] []).rest.length < rest.length := by
        rcases charLoop_progress env W rest X hne with hp | hp
        · exact hp
        · omega
      obtain ⟨out, e1, e2, _, e4⟩ := ih g
        (charLoop env W rest 0 X 0 0 [] []).rest (charLoop env W rest 0 X 0 0 [] []).PositionX
        writes (by omega)
      exact ⟨out, e1, by omega, fun _ _ => by omega, e4⟩

/-- With a window of two columns or more, the row loop returns when the fuel
is above twice the bound `n`, where `n` bounds the number of characters of the
input (plus one when the row that is begun may have no room for a character),
and it begins at most `n` rows. -/
theorem rowLoop_terminates (env : Env) (W : Int) (hW : 2 ≤ W) (lpAtrIdx : Nat → WORD) (Y : Int) (up : Bool) :
    ∀ (fuel : Nat) (g : CONSOLE_INFORMATION) (idx : Nat) (rest : List (WCHAR × BYTE)) (X : Int)
      (writes : List IME_WRITE) (scr : SCREEN_INFORMATION) (n : Nat),
      g.CurrentScreenBuffer = some scr →
      ((rest.length ≤ n ∧ (X = 0 ∨ rest = [])) ∨ rest.length + 1 ≤ n) →
      2 * n + 1 ≤ fuel →
      ∃ r, rowLoop env W lpAtrIdx Y up fuel g idx rest X writes = some r ∧ r.rows ≤ idx + n := by
  intro fuel
  induction fuel with
  | zero => intro g idx rest X writes scr n _ _ hf; omega
  | succ fuel ih =>
    intro g idx rest X writes scr n hs hn hf
    by_cases hne : rest = []
    · subst hne
      exact ⟨⟨STATUS_SUCCESS, hideRest g (g.ConsoleIme.ConvAreaCompStr.drop idx), idx, writes⟩,
        by simp [rowLoop], Nat.le_add_right _ _⟩
    · have hemp : rest.isEmpty = false := by
        cases rest with
        | nil => exact absurd rfl hne
        | cons p l => rfl
      have hpos : 0 < rest.length := List.length_pos.2 hne
      obtain ⟨Status, g1, hgrow⟩ := growRegistry_isSome env g idx scr hs
      obtain ⟨c1, _, _⟩ := growRegistry_spec env g g1 idx Status hgrow
      by_cases hst : NT_SUCCESS Status = true
      · obtain ⟨out, d1, d2, d3, d4⟩ := chunkLoop_terminates env W lpAtrIdx idx
          (g1.ConsoleIme.ConvAreaCompStr.getD idx 0)
          ((startRow g1 (g1.ConsoleIme.ConvAreaCompStr.getD idx 0) idx X Y up).ConvAreas
            (g1.ConsoleIme.ConvAreaCompStr.getD idx 0)).ScreenBuffer.CursorPosition.X
          fuel (startRow g1 (g1.ConsoleIme.ConvAreaCompStr.getD idx 0) idx X Y up) rest X writes
          (by omega)
        obtain ⟨f1, _, _, _⟩ := chunkLoop_inv env W lpAtrIdx idx _ _ fuel _ rest X writes _ d1
        cases out with
        | returned st g4 writes1 =>
          refine ⟨{ Status := st, g := g4, rows := idx + 1, writes := writes1 }, ?_, ?_⟩
          · rw [rowLoop]
            simp only [hemp, Bool.false_eq_true, if_false, hgrow, hst, Bool.not_true, d1]
          · simp only []
            omega
        | toRowLoop g4 rest1 X1 writes1 =>
          simp only [ChunkExit.state] at f1
          simp only [ChunkExit.rest] at d2 d3
          have hscr : g4.CurrentScreenBuffer = some scr := by
            rw [f1.1.2.1, (startRow_OnlyArea g1 _ idx X Y up).1.2.1, c1, hs]
          have hfresh : X1 = 0 ∨ rest1 = [] := by
            by_cases h1 : rest1 = []
            · exact Or.inr h1
            · exact Or.inl (d4 _ _ _ _ rfl h1)
          have hn1 : (rest1.length ≤ n - 1 ∧ (X1 = 0 ∨ rest1 = [])) ∨ rest1.length + 1 ≤ n - 1 := by
            left
            refine ⟨?_, hfresh⟩
            rcases hn with ⟨a1, a2⟩ | a1
            · rcases a2 with a2 | a2
              · have := d3 hne (by omega)
                omega
              · exact absurd a2 hne
            · omega
          obtain ⟨r, hr, hrows⟩ := ih g4 (idx + 1) rest1 X1 writes1 scr (n - 1) hscr hn1 (by omega)
          refine ⟨r, ?_, by omega⟩
          rw [rowLoop]
          simp only [hemp, Bool.false_eq_true, if_false, hgrow, hst, Bool.not_true, d1]
          exact hr
      · refine ⟨{ Status := Status, g := g1, rows := idx + 1, writes := writes }, ?_, ?_⟩
        · rw [rowLoop]
          simp only [hemp, Bool.false_eq_true, if_false, hgrow]
          simp [hst]
        · simp only []
          omega

/-- C27: when there is a primary surface and the window is two columns wide
or more, `WriteUndetermineChars` returns (whether the creation of conversion
areas succeeds or fails) as soon as the fuel exceeds twice the number of input
characters by three, and the number of passes of the row loop that it begins
is at most the number of input characters plus one. -/
theorem C27_streamComposition_terminates (env : Env) (fuel : Nat) (g : CONSOLE_INFORMATION)
    (lpString : List WCHAR) (lpAtr : List BYTE) (lpAtrIdx : Nat → WORD) (NumChars : Nat)
    (scr : SCREEN_INFORMATION) (hs : g.CurrentScreenBuffer = some scr) (hW : 2 ≤ scr.ScreenWindowSizeX)
    (hfuel : 2 * NumChars + 3 ≤ fuel) :
    ∃ r, WriteUndetermineChars env fuel g lpString lpAtr lpAtrIdx NumChars = some r ∧
      r.rows ≤ NumChars + 1 := by
  obtain ⟨ScreenInfo, g0, e1, _, hs0, _, _, hloop⟩ := WriteUndetermineChars_PosY_rowLoop env fuel g lpString lpAtr
    lpAtrIdx NumChars scr hs
  rw [hloop]
  have hlen : (inputCells lpString lpAtr NumChars).length = NumChars := by simp [inputCells]
  obtain ⟨r, hr, hrows⟩ := rowLoop_terminates env ScreenInfo.ScreenWindowSizeX (by rw [e1]; exact hW)
    lpAtrIdx _ _ fuel g0 0 (inputCells lpString lpAtr NumChars) _ [] ScreenInfo (NumChars + 1) hs0
    (Or.inr (by rw [hlen])) (by omega)
  exact ⟨r, hr, by omega⟩

/-- C27 at a concrete console: three double-width characters streamed from
column 19 of a window of 20 columns: the call returns, and it has begun two
rows, the first of which took no character. -/
theorem C27_streamComposition_terminates_witness :
    ∃ r, WriteUndetermineChars exEnv 9 (exConsole 19 []) [0x3042, 0x3044, 0x3046] [0, 0, 0]
        (fun _ => 7) 3 = some r ∧ r.rows ≤ 3 + 1 :=
  C27_streamComposition_terminates exEnv 9 (exConsole 19 []) [0x3042, 0x3044, 0x3046] [0, 0, 0]
    (fun _ => 7) 3 (exScreen 20 10 19 3) rfl (by decide) (by decide)

/-! ## The row writer: the blank bounds of the row -/

theorem writeCells_length {α : Type} (dst : List α) (X : Int) (src : List α) :
    (writeCells dst X src).length = dst.length := by
  unfold writeCells
  split_ifs <;> simp <;> omega

/-- A write that lies inside the row leaves the cells outside of the written
span as they are. -/
theorem writeCells_getD_outside {α : Type} (dst : List α) (x : Nat) (src : List α) (d : α)
    (hin : x + src.length ≤ dst.length) (k : Nat) (hk : k < x ∨ x + src.length ≤ k) :
    (writeCells dst (x : Int) src).getD k d = dst.getD k d := by
  unfold writeCells
  rw [if_pos (Int.natCast_nonneg x), Int.toNat_natCast]
  simp only [List.getD_eq_getElem?_getD]
  congr 1
  by_cases hlen : k < dst.length
  · rw [List.getElem?_take_of_lt hlen]
    rcases hk with hk | hk
    · rw [List.getElem?_append_left (by simp; omega), List.getElem?_take_of_lt hk]
    · rw [List.getElem?_append_right (by simp; omega), List.getElem?_append_right (by simp; omega),
        List.getElem?_drop]
      congr 1
      simp
      omega
  · rw [List.getElem?_eq_none (by simp; omega), List.getElem?_eq_none (by omega)]

/-- The forward scan stops at or after its start, and every cell that it
passes is blank. -/
theorem scanLeft_spec (env : Env) (Chars : List WCHAR) (LastChar : Int) :
    ∀ (fuel : Nat) (Char : Int),
      Char ≤ scanLeft env Chars LastChar fuel Char ∧
      ∀ k : Int, Char ≤ k → k < scanLeft env Chars LastChar fuel Char →
        readChar env Chars k = UNICODE_SPACE := by
  intro fuel
  induction fuel with
  | zero => intro Char; simp only [scanLeft]; exact ⟨le_refl _, fun k h1 h2 => by omega⟩
  | succ fuel ih =>
    intro Char
    simp only [scanLeft]
    split_ifs with h
    · obtain ⟨j1, j2⟩ := ih (Char + 1)
      refine ⟨by omega, fun k h1 h2 => ?_⟩
      by_cases hk : k = Char
      · rw [hk]; exact h.2
      · exact j2 k (by omega) h2
    · exact ⟨le_refl _, fun k h1 h2 => by omega⟩

/-- The backward scan stops at or before its start and not below the index
`-1`, and every cell that it passes is blank. -/
theorem scanRight_spec (env : Env) (Chars : List WCHAR) :
    ∀ (fuel : Nat) (Char : Int),
      scanRight env Chars fuel Char ≤ Char ∧
      (-1 ≤ Char → -1 ≤ scanRight env Chars fuel Char) ∧
      ∀ k : Int, scanRight env Chars fuel Char < k → k ≤ Char →
        readChar env Chars k = UNICODE_SPACE := by
  intro fuel
  induction fuel with
  | zero => intro Char; simp only [scanRight]; exact ⟨le_refl _, fun h => h, fun k h1 h2 => by omega⟩
  | succ fuel ih =>
    intro Char
    simp only [scanRight]
    split_ifs with h
    · obtain ⟨j1, j2, j3⟩ := ih (Char - 1)
      refine ⟨by omega, fun _ => j2 (by omega), fun k h1 h2 => ?_⟩
      by_cases hk : k = Char
      · rw [hk]; exact h.1
      · exact j3 k h1 (by omega)
    · exact ⟨le_refl _, fun h => h, fun k h1 h2 => by omega⟩

theorem readChar_inside (env : Env) (Chars : List WCHAR) (k : Nat) (hk : k < Chars.length) :
    readChar env Chars (k : Int) = Chars.getD k 0 := by
  unfold readChar
  rw [if_pos ⟨Int.natCast_nonneg k, by exact_mod_cast hk⟩, Int.toNat_natCast]

/-- The edge adjustment leaves the arrays of a write that lies inside the
row as they are. -/
theorem edgeAdjust_inside (String : List WCHAR) (StringA : List BYTE) (StringLength : Nat)
    (ScreenInfo : SCREEN_INFORMATION)
    (hin : ScreenInfo.CursorPosition.X + (StringLength : Int) ≤ ScreenInfo.ScreenBufferSize.X) :
    edgeAdjust String StringA StringLength ScreenInfo = (String, StringA) := by
  unfold edgeAdjust
  simp only []
  rw [if_neg (by omega)]

/-- A row of blank cells satisfies the blank-bound invariant, whatever its
bounds are. -/
theorem BlankBound_replicate (n : Nat) (KAttrs : List BYTE) (Left Right : Int) :
    BlankBound { Chars := List.replicate n UNICODE_SPACE, KAttrs := KAttrs, Left := Left, Right := Right } := by
  intro k hk _
  simp only [List.length_replicate] at hk
  simp [List.getD_eq_getElem?_getD, List.getElem?_replicate, hk]

/-- C24: the row writer preserves the blank-bound invariant: when the write
lies inside the row (the target column is not negative and target column +
length ≤ row width), the chunk has `StringLength` cells, and in the row as
`BisectWrite` leaves it (an array of full row width) every cell at a column
below `Left` or at or above `Right` is blank, then after the call every cell
at a column below the recomputed `Left` or at or above the recomputed `Right`
is blank, and the row has as many cells as before. -/
theorem C24_blank_bounds (env : Env) (String : List WCHAR) (StringLength : Nat)
    (ScreenInfo : SCREEN_INFORMATION) (StringA : List BYTE)
    (hS : String.length = StringLength)
    (hX : 0 ≤ ScreenInfo.CursorPosition.X)
    (hin : ScreenInfo.CursorPosition.X + (StringLength : Int) ≤ ScreenInfo.ScreenBufferSize.X)
    (hlen : ((env.BisectWrite StringLength ScreenInfo.CursorPosition ScreenInfo.ScreenBufferSize
      ScreenInfo.Row).CharRow.Chars.length : Int) = ScreenInfo.ScreenBufferSize.X)
    (hB : BlankBound (env.BisectWrite StringLength ScreenInfo.CursorPosition ScreenInfo.ScreenBufferSize
      ScreenInfo.Row).CharRow) :
    BlankBound (StreamWriteToScreenBufferIME env String StringLength ScreenInfo StringA).Row.CharRow ∧
    (StreamWriteToScreenBufferIME env String StringLength ScreenInfo StringA).Row.CharRow.Chars.length =
      (env.BisectWrite StringLength ScreenInfo.CursorPosition ScreenInfo.ScreenBufferSize
        ScreenInfo.Row).CharRow.Chars.length := by
  obtain ⟨x, hx⟩ := Int.eq_ofNat_of_zero_le hX
  generalize hR : env.BisectWrite StringLength ScreenInfo.CursorPosition ScreenInfo.ScreenBufferSize
    ScreenInfo.Row = Row0 at hlen hB
  have hadj := edgeAdjust_inside String StringA StringLength ScreenInfo hin
  have htake : String.take StringLength = String := List.take_of_length_le (le_of_eq hS)
  have hfit : x + String.length ≤ Row0.CharRow.Chars.length := by
    rw [hS]; omega
  unfold StreamWriteToScreenBufferIME
  simp only [hR, hadj, htake]
  refine ⟨?_, writeCells_length _ _ _⟩
  intro k hk hcond
  simp only [writeCells_length] at hk
  simp only [] at hcond ⊢
  have hread : ∀ j : Int, 0 ≤ j → j < Row0.CharRow.Chars.length →
      readChar env (writeCells Row0.CharRow.Chars ScreenInfo.CursorPosition.X String) j = UNICODE_SPACE →
      (writeCells Row0.CharRow.Chars ScreenInfo.CursorPosition.X String).getD j.toNat 0 = UNICODE_SPACE := by
    intro j h0 h1 hj
    obtain ⟨m, hm⟩ := Int.eq_ofNat_of_zero_le h0
    subst hm
    rw [readChar_inside env _ m (by rw [writeCells_length]; exact_mod_cast h1)] at hj
    rw [Int.toNat_natCast]
    exact hj
  have hout : (k < x ∨ x + String.length ≤ k) → ((k : Int) < Row0.CharRow.Left ∨ Row0.CharRow.Right ≤ (k : Int)) →
      (writeCells Row0.CharRow.Chars ScreenInfo.CursorPosition.X String).getD k 0 = UNICODE_SPACE := by
    intro h1 h2
    rw [hx, writeCells_getD_outside _ x String 0 hfit k h1]
    exact hB k hk h2
  rcases hcond with hc | hc
  · split_ifs at hc with hl
    · by_cases hkx : k < x
      · exact hout (Or.inl hkx) (Or.inl (by omega))
      · have := (scanLeft_spec env (writeCells Row0.CharRow.Chars ScreenInfo.CursorPosition.X String)
          (ScreenInfo.ScreenBufferSize.X - 1)
          (ScreenInfo.ScreenBufferSize.X - 1 - ScreenInfo.CursorPosition.X).toNat
          ScreenInfo.CursorPosition.X).2 (k : Int) (by omega) hc
        exact hread (k : Int) (by omega) (by exact_mod_cast hk) this
    · exact hout (Or.inl (by omega)) (Or.inl hc)
  · split_ifs at hc with hl
    · by_cases hkx : x + String.length ≤ k
      · exact hout (Or.inr hkx) (Or.inr (by omega))
      · have := (scanRight_spec env (writeCells Row0.CharRow.Chars ScreenInfo.CursorPosition.X String)
          (ScreenInfo.CursorPosition.X + (StringLength : Int)).toNat
          (ScreenInfo.CursorPosition.X + (StringLength : Int) - 1)).2.2 (k : Int) (by omega) (by omega)
        exact hread (k : Int) (by omega) (by exact_mod_cast hk) this
    · exact hout (Or.inr (by omega)) (Or.inr hc)

/-- C24 at a blank row of 20 cells: after `a`, `b` are written at column 3,
the row satisfies the invariant with `Left = 3` and `Right = 5`. -/
theorem C24_blank_bounds_witness :
    BlankBound (StreamWriteToScreenBufferIME exEnv [97, 98] 2 (exBuffer 3 7) [0, 0]).Row.CharRow ∧
    (StreamWriteToScreenBufferIME exEnv [97, 98] 2 (exBuffer 3 7) [0, 0]).Row.CharRow.Left = 3 ∧
    (StreamWriteToScreenBufferIME exEnv [97, 98] 2 (exBuffer 3 7) [0, 0]).Row.CharRow.Right = 5 :=
  ⟨(C24_blank_bounds exEnv [97, 98] 2 (exBuffer 3 7) [0, 0] rfl (by decide) (by decide) (by decide)
    (BlankBound_replicate 20 (List.replicate 20 0) 20 0)).1, by decide, by decide⟩

/-! ## The row writer: the attribute run and the backward scan -/

/-- Outside of the grid-line branch the run handed to `InsertAttrRuns` spans
the written cells and carries the attribute of the buffer. -/
theorem InsertedRun_plain (env : Env) (wScreenAttributes : WORD) (StringA : List BYTE) (StringLength : Nat)
    (hR : env.IsFlagSet wScreenAttributes (COMMON_LVB_GRID_SINGLEFLAG ||| COMMON_LVB_GRID_RVERTICAL) = false)
    (hL : env.IsFlagSet wScreenAttributes (COMMON_LVB_GRID_SINGLEFLAG ||| COMMON_LVB_GRID_LVERTICAL) = false) :
    InsertedRun env wScreenAttributes StringA StringLength =
      { Length := StringLength, Attributes := wScreenAttributes } := by
  unfold InsertedRun
  simp [hR, hL]

/-- In the grid-line branch the run handed to `InsertAttrRuns` has the length
1, whatever the number of written cells is. -/
theorem InsertedRun_grid (env : Env) (wScreenAttributes : WORD) (StringA : List BYTE) (StringLength : Nat)
    (hgrid : (env.IsFlagSet wScreenAttributes (COMMON_LVB_GRID_SINGLEFLAG ||| COMMON_LVB_GRID_LVERTICAL) ||
      env.IsFlagSet wScreenAttributes (COMMON_LVB_GRID_SINGLEFLAG ||| COMMON_LVB_GRID_RVERTICAL)) = true)
    (hn : 1 ≤ StringLength) :
    (InsertedRun env wScreenAttributes StringA StringLength).Length = 1 := by
  obtain ⟨m, rfl⟩ : ∃ m, StringLength = m + 1 := ⟨StringLength - 1, by omega⟩
  unfold InsertedRun
  simp only [hgrid, if_true, List.range_succ, List.foldl_append, List.foldl_cons, List.foldl_nil]
  split_ifs <;> rfl

/-- The last index that the backward scan reads is the index at which it
stops. -/
theorem scanRight_reads_last (env : Env) (Chars : List WCHAR) :
    ∀ (fuel : Nat) (Char : Int),
      (scanRight_reads env Chars (fuel + 1) Char).getLast? = some (scanRight env Chars fuel Char) := by
  intro fuel
  induction fuel with
  | zero =>
    intro Char
    simp only [scanRight_reads, scanRight]
    split_ifs <;> rfl
  | succ fuel ih =>
    intro Char
    rw [scanRight_reads, scanRight]
    split_ifs with h
    · rw [← ih (Char - 1)]
      rw [scanRight_reads]
      simp [List.getLast?_cons_cons]
    · rfl

/-- C23: a row writer call of two cells at column 0 of a blank row whose
attribute run differs from the attribute of the buffer, which has the
single-line and right-vertical flags set (the attribute that the streamer
resolves from the source attribute byte `0x10`): the one run handed to
`InsertAttrRuns` for the span of the columns 0 to 1 has the length 1, not 2;
the same holds of the row writer call that `WriteUndetermineChars` makes for
the text `a`, `b` under the attribute byte `0x10`. -/
theorem C23_grid_run_length :
    InsertedRun exRunEnv 0x3007 [0, 0] 2 = { Length := 1, Attributes := 0x1007 } ∧
    (StreamWriteToScreenBufferIME exRunEnv [97, 98] 2 (exBuffer 0 0x3007) [0, 0]).Row.AttrRow =
      [{ Length := 20, Attributes := 7 }, { Length := 1, Attributes := 0x1007 }] ∧
    (((WriteUndetermineChars exRunEnv 9 (exConsole 0 []) [97, 98] [0x10, 0x10] (fun _ => 7) 2).get
      (by decide)).g.ConvAreas 0).ScreenBuffer.Row.AttrRow =
      [{ Length := 20, Attributes := 7 }, { Length := 1, Attributes := 0x1007 }] := by
  refine ⟨by decide, by decide, by decide⟩

/-- C30: a row writer call of one cell, a space, at column 0 of a blank row
of 20 cells (the call that `WriteUndetermineChars` makes for the text of one
space at column 0): the backward scan that recomputes `Right` reads the cell
at index 0 and then the cell at index `-1`, before the row; it stops there,
and `Right` becomes 0. -/
theorem C30_backward_scan_reads_before_row :
    (((WriteUndetermineChars exEnv 9 (exConsole 0 []) [32] [0] (fun _ => 7) 1).get
      (by decide)).writes.map (fun w => (w.TargetX, w.String))) = [(0, [32])] ∧
    scanRight_reads exEnv (writeCells (exBuffer 0 7).Row.CharRow.Chars 0 [32]) (1 + 1) (0 + 1 - 1) = [0, -1] ∧
    scanRight exEnv (writeCells (exBuffer 0 7).Row.CharRow.Chars 0 [32]) 1 (0 + 1 - 1) = -1 ∧
    (StreamWriteToScreenBufferIME exEnv [32] 1 (exBuffer 0 7) [0]).Row.CharRow.Right = 0 := by
  refine ⟨by decide, by decide, by decide, by decide⟩

/-! ## Rows that are written but not finalized -/

/-- C26: the text `a` under the attribute byte 0 followed by a double-width
character under the attribute byte 1, streamed from column 18 of a window of
20 columns into a console with no composition row: the call returns success,
it has written the cell of `a` at column 18 of row 0 and the two cells of the
double-width character at column 0 of row 1, and row 0 still has its hidden
flag set (its rectangle was never set from the written columns), while row 1
is shown with the columns 0 to 1.  The chunk of `a` ends at the attribute
change in column 19, where the row is not full; the next pass of the
character loop finds no room for the double-width character and leaves the
row with an empty chunk, past the finalization of lines 436 to 446. -/
theorem C26_written_row_left_hidden :
    NT_SUCCESS ((WriteUndetermineChars exEnv 9 (exConsole 18 []) [97, 0x3042] [0, 1] (fun _ => 7) 2).get
      (by decide)).Status = true ∧
    ((WriteUndetermineChars exEnv 9 (exConsole 18 []) [97, 0x3042] [0, 1] (fun _ => 7) 2).get
      (by decide)).writes.map (fun w => (w.ConvAreaIndex, w.area, w.TargetX, w.String)) =
      [(0, 0, 18, [97]), (1, 1, 0, [0x3042, 0x3042])] ∧
    ((WriteUndetermineChars exEnv 9 (exConsole 18 []) [97, 0x3042] [0, 1] (fun _ => 7) 2).get
      (by decide)).g.ConsoleIme.ConvAreaCompStr.map
        (fun h => placement (((WriteUndetermineChars exEnv 9 (exConsole 18 []) [97, 0x3042] [0, 1]
          (fun _ => 7) 2).get (by decide)).g.ConvAreas h)) =
      [({ Left := 0, Top := 0, Right := 0, Bottom := 0 }, { X := 0, Y := 3 }, true),
       ({ Left := 0, Top := 0, Right := 1, Bottom := 0 }, { X := 0, Y := 4 }, false)] := by
  refine ⟨by decide, by decide, by decide⟩

/-- The same happens at the return of line 460: for the text `a` under the
attribute byte 0 followed by a control character under the attribute byte 1,
the cell of `a` is written at column 3 of row 0, the call returns success, and
row 0 still has its hidden flag set. -/
theorem WriteUndetermineChars_early_return_hidden :
    NT_SUCCESS ((WriteUndetermineChars exEnv 9 (exConsole 3 []) [97, 7] [0, 1] (fun _ => 7) 2).get
      (by decide)).Status = true ∧
    ((WriteUndetermineChars exEnv 9 (exConsole 3 []) [97, 7] [0, 1] (fun _ => 7) 2).get
      (by decide)).writes.map (fun w => (w.ConvAreaIndex, w.area, w.TargetX, w.String)) =
      [(0, 0, 3, [97])] ∧
    ((WriteUndetermineChars exEnv 9 (exConsole 3 []) [97, 7] [0, 1] (fun _ => 7) 2).get
      (by decide)).g.ConsoleIme.ConvAreaCompStr.map
        (fun h => placement (((WriteUndetermineChars exEnv 9 (exConsole 3 []) [97, 7] [0, 1]
          (fun _ => 7) 2).get (by decide)).g.ConvAreas h)) =
      [({ Left := 0, Top := 0, Right := 0, Bottom := 0 }, { X := 0, Y := 3 }, true)] := by
  refine ⟨by decide, by decide, by decide⟩


end ConvArea
